import Mathlib

/-!
Array functions of `dbms/include/DB/Functions/FunctionsArray.h`

A shallow embedding of the four vector kernels (`ArrayElementNumImpl`,
`ArrayElementStringImpl`, `ArrayHasNumImpl`, `ArrayHasStringImpl`) and of the
three functions `array`, `arrayElement` and `has` built on them.

Conventions of the embedding:
* `std::vector<T>` is a `List T`; `size_t` / `ColumnArray::Offset_t` values are
  natural numbers and every addition and subtraction the source performs on
  them is taken modulo `2 ^ 64` (`add64`, `sub64`);
* a read outside a vector (undefined behaviour in the source) makes a kernel
  return `none`;
* a `for` loop with `size` iterations is a recursion whose first argument is
  the number of iterations still to run.
-/

namespace DB

/-! ## Machine arithmetic and vectors -/

/-- Addition of two `size_t` values. -/
def add64 (a b : Nat) : Nat := (a + b) % 2 ^ 64

/-- Subtraction of two `size_t` values; wraps around when `b` exceeds `a`. -/
def sub64 (a b : Nat) : Nat := (a % 2 ^ 64 + 2 ^ 64 - b % 2 ^ 64) % 2 ^ 64

/-- The effect of `std::vector<T>::resize(n)`: keeps the first `n` elements and
pads with value-initialised elements (zero) up to length `n`. -/
def resize {T : Type} [Zero T] (v : List T) (n : Nat) : List T :=
  v.take n ++ List.replicate (n - v.length) 0

/-! ## `ArrayElementNumImpl<T>::vector` -/

/-- The loop of `ArrayElementNumImpl<T>::vector`; arguments after the inputs:
iterations left, `i`, `current_offset`, `result`. -/
def ArrayElementNumImpl.vectorLoop {T : Type} (data : List T) (offsets : List Nat) (index : Nat) :
    Nat → Nat → Nat → List T → Option (List T)
  | 0, _, _, result => some result
  | n + 1, i, current_offset, result =>
    match offsets[i]? with
    | none => none
    | some off =>
      let array_size := sub64 off current_offset
      if index < array_size then
        match data[add64 current_offset index]? with
        | none => none
        | some x =>
          ArrayElementNumImpl.vectorLoop data offsets index n (i + 1) off (result.set i x)
      else
        ArrayElementNumImpl.vectorLoop data offsets index n (i + 1) off result

/-- The kernel `ArrayElementNumImpl<T>::vector(data, offsets, index, result)`;
returns the final contents of `result`. -/
def ArrayElementNumImpl.vector {T : Type} [Zero T] (data : List T) (offsets : List Nat)
    (index : Nat) (result : List T) : Option (List T) :=
  let size := offsets.length
  ArrayElementNumImpl.vectorLoop data offsets index size 0 0 (resize result size)

/-! ## `ArrayElementStringImpl::vector` -/

/-- The effect of `memcpy(&dst[pos], &src[spos], n)`: `none` when the source
range leaves `src` or the destination range leaves `dst`. -/
def memcpy (dst : List Nat) (pos : Nat) (src : List Nat) (spos n : Nat) : Option (List Nat) :=
  if spos + n ≤ src.length ∧ pos + n ≤ dst.length then
    some (dst.take pos ++ (src.drop spos).take n ++ dst.drop (pos + n))
  else none

/-- The loop of `ArrayElementStringImpl::vector`; arguments after the inputs:
iterations left, `i`, `current_offset`, `current_result_offset`, `result_data`,
`result_offsets`. -/
def ArrayElementStringImpl.vectorLoop (data : List Nat) (offsets string_offsets : List Nat)
    (index : Nat) : Nat → Nat → Nat → Nat → List Nat → List Nat → Option (List Nat × List Nat)
  | 0, _, _, _, result_data, result_offsets => some (result_data, result_offsets)
  | n + 1, i, current_offset, current_result_offset, result_data, result_offsets =>
    match offsets[i]? with
    | none => none
    | some off =>
      let array_size := sub64 off current_offset
      if index < array_size then
        match (if current_offset = 0 ∧ index = 0 then some 0
               else string_offsets[sub64 (add64 current_offset index) 1]?) with
        | none => none
        | some string_pos =>
          match string_offsets[add64 current_offset index]? with
          | none => none
          | some string_end =>
            let string_size := sub64 string_end string_pos
            match memcpy (resize result_data (add64 current_result_offset string_size))
                current_result_offset data string_pos string_size with
            | none => none
            | some result_data1 =>
              ArrayElementStringImpl.vectorLoop data offsets string_offsets index n (i + 1) off
                (add64 current_result_offset string_size) result_data1
                (result_offsets.set i (add64 current_result_offset string_size))
      else
        ArrayElementStringImpl.vectorLoop data offsets string_offsets index n (i + 1) off
          (add64 current_result_offset 1) (resize result_data (add64 current_result_offset 1))
          (result_offsets.set i (add64 current_result_offset 1))

/-- The kernel `ArrayElementStringImpl::vector`; returns the final
`(result_data, result_offsets)`. -/
def ArrayElementStringImpl.vector (data : List Nat) (offsets string_offsets : List Nat)
    (index : Nat) (result_data result_offsets : List Nat) : Option (List Nat × List Nat) :=
  let size := offsets.length
  ArrayElementStringImpl.vectorLoop data offsets string_offsets index size 0 0 0 result_data
    (resize result_offsets size)

/-! ## `ArrayHasNumImpl<T>::vector` -/

/-- The inner loop of `ArrayHasNumImpl<T>::vector` over `j`; arguments after the
inputs: iterations left, `j`.  Returns whether the loop left through `break`. -/
def ArrayHasNumImpl.scan {T : Type} [BEq T] (data : List T) (value : T) (current_offset : Nat) :
    Nat → Nat → Option Bool
  | 0, _ => some false
  | n + 1, j =>
    match data[add64 current_offset j]? with
    | none => none
    | some x =>
      if x == value then some true
      else ArrayHasNumImpl.scan data value current_offset n (j + 1)

/-- The outer loop of `ArrayHasNumImpl<T>::vector`; arguments after the inputs:
iterations left, `i`, `current_offset`, `result`. -/
def ArrayHasNumImpl.vectorLoop {T : Type} [BEq T] (data : List T) (offsets : List Nat) (value : T) :
    Nat → Nat → Nat → List Nat → Option (List Nat)
  | 0, _, _, result => some result
  | n + 1, i, current_offset, result =>
    match offsets[i]? with
    | none => none
    | some off =>
      let array_size := sub64 off current_offset
      match ArrayHasNumImpl.scan data value current_offset array_size 0 with
      | none => none
      | some found =>
        ArrayHasNumImpl.vectorLoop data offsets value n (i + 1) off
          (if found then result.set i 1 else result)

/-- The kernel `ArrayHasNumImpl<T>::vector(data, offsets, value, result)`. -/
def ArrayHasNumImpl.vector {T : Type} [BEq T] (data : List T) (offsets : List Nat) (value : T)
    (result : List Nat) : Option (List Nat) :=
  let size := offsets.length
  ArrayHasNumImpl.vectorLoop data offsets value size 0 0 (resize result size)

/-! ## `ArrayHasStringImpl::vector` -/

/-- The test `0 == memcmp(a, &b[pos], n)`: `none` when a compared range leaves
its buffer. -/
def memcmp_eq (a b : List Nat) (pos n : Nat) : Option Bool :=
  if n ≤ a.length ∧ pos + n ≤ b.length then some (decide (a.take n = (b.drop pos).take n))
  else none

/-- The inner loop of `ArrayHasStringImpl::vector` over `j`; arguments after
the inputs: iterations left, `j`.  Returns whether the loop left through
`break`. -/
def ArrayHasStringImpl.scan (data : List Nat) (string_offsets : List Nat) (value : List Nat)
    (current_offset : Nat) : Nat → Nat → Option Bool
  | 0, _ => some false
  | n + 1, j =>
    match (if current_offset = 0 ∧ j = 0 then some 0
           else string_offsets[sub64 (add64 current_offset j) 1]?) with
    | none => none
    | some string_pos =>
      match string_offsets[add64 current_offset j]? with
      | none => none
      | some string_end =>
        let string_size := sub64 string_end string_pos
        if string_size = add64 value.length 1 then
          match memcmp_eq value data string_pos value.length with
          | none => none
          | some true => some true
          | some false => ArrayHasStringImpl.scan data string_offsets value current_offset n (j + 1)
        else ArrayHasStringImpl.scan data string_offsets value current_offset n (j + 1)

/-- The outer loop of `ArrayHasStringImpl::vector`. -/
def ArrayHasStringImpl.vectorLoop (data : List Nat) (offsets string_offsets : List Nat)
    (value : List Nat) : Nat → Nat → Nat → List Nat → Option (List Nat)
  | 0, _, _, result => some result
  | n + 1, i, current_offset, result =>
    match offsets[i]? with
    | none => none
    | some off =>
      let array_size := sub64 off current_offset
      match ArrayHasStringImpl.scan data string_offsets value current_offset array_size 0 with
      | none => none
      | some found =>
        ArrayHasStringImpl.vectorLoop data offsets string_offsets value n (i + 1) off
          (if found then result.set i 1 else result)

/-- The kernel `ArrayHasStringImpl::vector(data, offsets, string_offsets, value, result)`. -/
def ArrayHasStringImpl.vector (data : List Nat) (offsets string_offsets : List Nat)
    (value : List Nat) (result : List Nat) : Option (List Nat) :=
  let size := offsets.length
  ArrayHasStringImpl.vectorLoop data offsets string_offsets value size 0 0 (resize result size)

/-! ## The kernels with the subtraction `offsets[i] - current_offset` checked

The loops below are the four loops above in which a subtraction
`offsets[i] - current_offset` that would wrap is a fault (`none`), like a read
outside a vector. -/

/-- The subtraction `a - b` of two `size_t` values, `none` when it wraps. -/
def checkedSub (a b : Nat) : Option Nat :=
  if b ≤ a then some (sub64 a b) else none

/-- The loop of `ArrayElementNumImpl<T>::vector`, subtraction checked. -/
def ArrayElementNumImpl.checkedLoop {T : Type} (data : List T) (offsets : List Nat) (index : Nat) :
    Nat → Nat → Nat → List T → Option (List T)
  | 0, _, _, result => some result
  | n + 1, i, current_offset, result =>
    match offsets[i]? with
    | none => none
    | some off =>
      match checkedSub off current_offset with
      | none => none
      | some array_size =>
        if index < array_size then
          match data[add64 current_offset index]? with
          | none => none
          | some x =>
            ArrayElementNumImpl.checkedLoop data offsets index n (i + 1) off (result.set i x)
        else
          ArrayElementNumImpl.checkedLoop data offsets index n (i + 1) off result

/-- The kernel `ArrayElementNumImpl<T>::vector`, subtraction checked. -/
def ArrayElementNumImpl.checked {T : Type} [Zero T] (data : List T) (offsets : List Nat)
    (index : Nat) (result : List T) : Option (List T) :=
  let size := offsets.length
  ArrayElementNumImpl.checkedLoop data offsets index size 0 0 (resize result size)

/-- The loop of `ArrayElementStringImpl::vector`, subtraction checked. -/
def ArrayElementStringImpl.checkedLoop (data : List Nat) (offsets string_offsets : List Nat)
    (index : Nat) : Nat → Nat → Nat → Nat → List Nat → List Nat → Option (List Nat × List Nat)
  | 0, _, _, _, result_data, result_offsets => some (result_data, result_offsets)
  | n + 1, i, current_offset, current_result_offset, result_data, result_offsets =>
    match offsets[i]? with
    | none => none
    | some off =>
      match checkedSub off current_offset with
      | none => none
      | some array_size =>
        if index < array_size then
          match (if current_offset = 0 ∧ index = 0 then some 0
                 else string_offsets[sub64 (add64 current_offset index) 1]?) with
          | none => none
          | some string_pos =>
            match string_offsets[add64 current_offset index]? with
            | none => none
            | some string_end =>
              let string_size := sub64 string_end string_pos
              match memcpy (resize result_data (add64 current_result_offset string_size))
                  current_result_offset data string_pos string_size with
              | none => none
              | some result_data1 =>
                ArrayElementStringImpl.checkedLoop data offsets string_offsets index n (i + 1)
                  off (add64 current_result_offset string_size) result_data1
                  (result_offsets.set i (add64 current_result_offset string_size))
        else
          ArrayElementStringImpl.checkedLoop data offsets string_offsets index n (i + 1) off
            (add64 current_result_offset 1) (resize result_data (add64 current_result_offset 1))
            (result_offsets.set i (add64 current_result_offset 1))

/-- The kernel `ArrayElementStringImpl::vector`, subtraction checked. -/
def ArrayElementStringImpl.checked (data : List Nat) (offsets string_offsets : List Nat)
    (index : Nat) (result_data result_offsets : List Nat) : Option (List Nat × List Nat) :=
  let size := offsets.length
  ArrayElementStringImpl.checkedLoop data offsets string_offsets index size 0 0 0 result_data
    (resize result_offsets size)

/-- The outer loop of `ArrayHasNumImpl<T>::vector`, subtraction checked. -/
def ArrayHasNumImpl.checkedLoop {T : Type} [BEq T] (data : List T) (offsets : List Nat)
    (value : T) : Nat → Nat → Nat → List Nat → Option (List Nat)
  | 0, _, _, result => some result
  | n + 1, i, current_offset, result =>
    match offsets[i]? with
    | none => none
    | some off =>
      match checkedSub off current_offset with
      | none => none
      | some array_size =>
        match ArrayHasNumImpl.scan data value current_offset array_size 0 with
        | none => none
        | some found =>
          ArrayHasNumImpl.checkedLoop data offsets value n (i + 1) off
            (if found then result.set i 1 else result)

/-- The kernel `ArrayHasNumImpl<T>::vector`, subtraction checked. -/
def ArrayHasNumImpl.checked {T : Type} [BEq T] (data : List T) (offsets : List Nat) (value : T)
    (result : List Nat) : Option (List Nat) :=
  let size := offsets.length
  ArrayHasNumImpl.checkedLoop data offsets value size 0 0 (resize result size)

/-- The outer loop of `ArrayHasStringImpl::vector`, subtraction checked. -/
def ArrayHasStringImpl.checkedLoop (data : List Nat) (offsets string_offsets : List Nat)
    (value : List Nat) : Nat → Nat → Nat → List Nat → Option (List Nat)
  | 0, _, _, result => some result
  | n + 1, i, current_offset, result =>
    match offsets[i]? with
    | none => none
    | some off =>
      match checkedSub off current_offset with
      | none => none
      | some array_size =>
        match ArrayHasStringImpl.scan data string_offsets value current_offset array_size 0 with
        | none => none
        | some found =>
          ArrayHasStringImpl.checkedLoop data offsets string_offsets value n (i + 1) off
            (if found then result.set i 1 else result)

/-- The kernel `ArrayHasStringImpl::vector`, subtraction checked. -/
def ArrayHasStringImpl.checked (data : List Nat) (offsets string_offsets : List Nat)
    (value : List Nat) (result : List Nat) : Option (List Nat) :=
  let size := offsets.length
  ArrayHasStringImpl.checkedLoop data offsets string_offsets value size 0 0 (resize result size)

/-! ## Types, fields, columns and blocks -/

/-- Modelled from the spec: the ten fixed-width numeric kinds (the headers
`DB/DataTypes/DataTypesNumberFixed.h` and `DB/Columns/ColumnVector.h` are not
among the sources); they are listed in the order in which `execute` tries
them. -/
inductive NumKind
  | UInt8 | UInt16 | UInt32 | UInt64
  | Int8 | Int16 | Int32 | Int64
  | Float32 | Float64
  deriving DecidableEq, Repr

/-- The type name of a numeric kind. -/
def NumKind.getName : NumKind → String
  | .UInt8 => "UInt8" | .UInt16 => "UInt16" | .UInt32 => "UInt32" | .UInt64 => "UInt64"
  | .Int8 => "Int8" | .Int16 => "Int16" | .Int32 => "Int32" | .Int64 => "Int64"
  | .Float32 => "Float32" | .Float64 => "Float64"

/-- Modelled from the spec: the data types of the element kinds of section 3
(the classes under `DB/DataTypes` are not among the sources): a numeric kind,
the string type, or an array of a nested type (`DataTypeArray`). -/
inductive DataType
  | number (kind : NumKind)
  | string
  | array (nested : DataType)
  deriving DecidableEq, Repr

/-- The method `IDataType::getName()`. -/
def DataType.getName : DataType → String
  | .number kind => kind.getName
  | .string => "String"
  | .array nested => "Array(" ++ nested.getName ++ ")"

/-- The method `IDataType::isNumeric()`. -/
def DataType.isNumeric : DataType → Bool
  | .number _ => true
  | _ => false

/-- The cast `dynamic_cast<const DataTypeArray *>` followed by `getNestedType()`:
`none` when the type is not an array type. -/
def DataType.asArray : DataType → Option DataType
  | .array nested => some nested
  | _ => none

/-- The error codes of `ErrorCodes::` that the three functions use. -/
inductive ErrorCode
  | NUMBER_OF_ARGUMENTS_DOESNT_MATCH
  | ILLEGAL_TYPE_OF_ARGUMENT
  | ILLEGAL_COLUMN
  | ZERO_ARRAY_OR_TUPLE_INDEX
  deriving DecidableEq, Repr

/-- What a call can throw, one constructor per kind of the specification's
taxonomy; `BadGet` is `boost::bad_get`, and `Undefined` stands for the cases in
which the source has no defined outcome (a read outside a vector, a block
position that does not exist, a null column pointer, a column released while a
raw pointer to it is still in use). -/
inductive Exception
  | ArgumentCountError
  | TypeMismatchError
  | NonConstantArgumentError
  | UnsupportedColumnTypeError
  | ZeroIndexError
  | IndexOutOfRangeError
  | BadGet
  | Undefined
  deriving DecidableEq, Repr

/-- The `ErrorCodes::` value carried by a `DB::Exception`; `IndexOutOfRangeError`
is the `std::out_of_range` of `std::vector::at` and carries none. -/
def Exception.code : Exception → Option ErrorCode
  | .ArgumentCountError => some .NUMBER_OF_ARGUMENTS_DOESNT_MATCH
  | .TypeMismatchError => some .ILLEGAL_TYPE_OF_ARGUMENT
  | .NonConstantArgumentError => some .ILLEGAL_COLUMN
  | .UnsupportedColumnTypeError => some .ILLEGAL_COLUMN
  | .ZeroIndexError => some .ZERO_ARRAY_OR_TUPLE_INDEX
  | .IndexOutOfRangeError => none
  | .BadGet => none
  | .Undefined => none

/-- Modelled from the spec: the scalar value `Field` (`DB/Core/Field.h` is not
among the sources), a tagged union read by the source through
`boost::get<UInt64>`, `NearestFieldType<T>::Type`, `String` and `Array`: the
nearest 64-bit kind of a number (a float as its bit pattern), a string as its
bytes, or an array of fields. -/
inductive Field
  | uint64 (v : Nat)
  | int64 (v : Int)
  | float64 (bits : Nat)
  | string (s : List Nat)
  | array (a : List Field)

/-- Modelled from the spec: the column representations of section 3 (the
classes under `DB/Columns` are not among the sources).  `vector` is
`ColumnVector<T>` (a value of a float kind is held as the bit pattern of the
binary64 number equal to it), `string` is `ColumnString`
(bytes and string offsets), `array` is `ColumnArray` (nested column and
offsets), `const` is `ColumnConst<T>` with its row count and value; it is a
`ColumnConstArray` exactly when the value is an array. -/
inductive Column
  | vector (kind : NumKind) (data : List Int)
  | string (data : List Nat) (offsets : List Nat)
  | array (data : Column) (offsets : List Nat)
  | const (s : Nat) (data : Field)

/-- The method `IColumn::isConst()`. -/
def Column.isConst : Column → Bool
  | .const _ _ => true
  | _ => false

/-- The method `IColumn::size()`, the row count. -/
def Column.size : Column → Nat
  | .vector _ data => data.length
  | .string _ offsets => offsets.length
  | .array _ offsets => offsets.length
  | .const s _ => s

/-- The value `(*column)[0]` of a constant column, the only representation on
which the source evaluates it. -/
def Column.constValue : Column → Option Field
  | .const _ data => some data
  | _ => none

/-- Modelled from the spec: `IDataType::createConstColumn(size, value)`, a
constant column of `size` rows that broadcasts `value`. -/
def DataType.createConstColumn (_type : DataType) (size : Nat) (value : Field) : Column :=
  .const size value

/-- One position of a block: the column pointer (null while the column is not
computed), the declared type and the name. -/
structure ColumnWithNameAndType where
  column : Option Column
  type : DataType
  name : String

/-- Modelled from the spec: a block is an ordered sequence of positionally
addressed typed columns. -/
abbrev Block := List ColumnWithNameAndType

/-- The column `*block.getByPosition(position).column`; `none` when the
position does not exist or its column pointer is null. -/
def Block.column (block : Block) (position : Nat) : Option Column :=
  match block[position]? with
  | some elem => elem.column
  | none => none

/-- The assignment `block.getByPosition(position).column = column`; `none` when
the position does not exist. -/
def Block.setColumn (block : Block) (position : Nat) (column : Column) : Option Block :=
  match block[position]? with
  | some elem => some (block.set position { elem with column := some column })
  | none => none

/-- How a call of `execute` ended: the exception thrown (`none` for a normal
return) and the block as the call left it. -/
structure Executed where
  exception : Option Exception
  block : Block

/-- A call that threw `e` and left `block`. -/
def Executed.throw (e : Exception) (block : Block) : Executed := ⟨some e, block⟩

/-- The assignment of the result column as the last step of a call. -/
def Executed.assign (block : Block) (result : Nat) (column : Column) : Executed :=
  match Block.setColumn block result column with
  | some block1 => ⟨none, block1⟩
  | none => ⟨some .Undefined, block⟩

/-! ## `FunctionArray` -/

/-- The loop of `FunctionArray::getReturnType` over the arguments after the
first: whether some type name differs from the first one. -/
def FunctionArray.getReturnType.differs (first : DataType) : List DataType → Bool
  | [] => false
  | t :: rest =>
    if t.getName ≠ first.getName then true
    else FunctionArray.getReturnType.differs first rest

/-- The method `FunctionArray::getReturnType`. -/
def FunctionArray.getReturnType (arguments : List DataType) : Except Exception DataType :=
  match arguments with
  | [] => .error .ArgumentCountError
  | first :: rest =>
    if FunctionArray.getReturnType.differs first rest then .error .TypeMismatchError
    else .ok (.array first)

/-- The first loop of `FunctionArray::execute`: the exception it throws, if
any. -/
def FunctionArray.execute.check (block : Block) : List Nat → Option Exception
  | [] => none
  | a :: rest =>
    match Block.column block a with
    | none => some .Undefined
    | some c =>
      if !c.isConst then some .NonConstantArgumentError
      else FunctionArray.execute.check block rest

/-- The second loop of `FunctionArray::execute`: the literal sequence `arr`. -/
def FunctionArray.execute.fill (block : Block) : List Nat → Option (List Field)
  | [] => some []
  | a :: rest =>
    match Block.column block a with
    | none => none
    | some c =>
      match c.constValue with
      | none => none
      | some v =>
        match FunctionArray.execute.fill block rest with
        | none => none
        | some arr => some (v :: arr)

/-- The method `FunctionArray::execute`. -/
def FunctionArray.execute (block : Block) (arguments : List Nat) (result : Nat) : Executed :=
  match FunctionArray.execute.check block arguments with
  | some e => .throw e block
  | none =>
    match FunctionArray.execute.fill block arguments with
    | none => .throw .Undefined block
    | some arr =>
      match arguments with
      | [] => .throw .Undefined block
      | a0 :: _ =>
        match Block.column block a0 with
        | none => .throw .Undefined block
        | some c0 => .assign block result (.const c0.size (.array arr))

/-! ## `FunctionArrayElement` -/

/-- The method `FunctionArrayElement::executeNumber<T>`; `none` is the return
value `false`, which leaves the block untouched.  The raw pointers `col_array`
and `col_nested` are taken from the position `arguments[0]` before the position
`result` is overwritten, so the call has no defined outcome when the two
positions coincide. -/
def FunctionArrayElement.executeNumber (T : NumKind) (block : Block) (arguments : List Nat)
    (result : Nat) (index : Nat) : Option Executed :=
  match arguments[0]? with
  | none => some (.throw .Undefined block)
  | some a0 =>
    match Block.column block a0 with
    | none => some (.throw .Undefined block)
    | some (.array (.vector kind data) offsets) =>
      if kind = T then
        match Block.setColumn block result (.vector T []) with
        | none => some (.throw .Undefined block)
        | some block1 =>
          if result = a0 then some (.throw .Undefined block1)
          else
            match ArrayElementNumImpl.vector data offsets index [] with
            | none => some (.throw .Undefined block1)
            | some res => some (.assign block1 result (.vector T res))
      else none
    | some _ => none

/-- The method `FunctionArrayElement::executeString`; `none` is the return value
`false`. -/
def FunctionArrayElement.executeString (block : Block) (arguments : List Nat)
    (result : Nat) (index : Nat) : Option Executed :=
  match arguments[0]? with
  | none => some (.throw .Undefined block)
  | some a0 =>
    match Block.column block a0 with
    | none => some (.throw .Undefined block)
    | some (.array (.string data string_offsets) offsets) =>
      match Block.setColumn block result (.string [] []) with
      | none => some (.throw .Undefined block)
      | some block1 =>
        if result = a0 then some (.throw .Undefined block1)
        else
          match ArrayElementStringImpl.vector data offsets string_offsets index [] [] with
          | none => some (.throw .Undefined block1)
          | some (result_data, result_offsets) =>
            some (.assign block1 result (.string result_data result_offsets))
    | some _ => none

/-- The method `FunctionArrayElement::executeConst`; `none` is the return value
`false`.  The row count of the result is read from block position 0. -/
def FunctionArrayElement.executeConst (block : Block) (arguments : List Nat)
    (result : Nat) (index : Nat) : Option Executed :=
  match arguments[0]? with
  | none => some (.throw .Undefined block)
  | some a0 =>
    match Block.column block a0 with
    | none => some (.throw .Undefined block)
    | some (.const _ (.array arr)) =>
      match arr[index]? with
      | none => some (.throw .IndexOutOfRangeError block)
      | some value =>
        match block[result]?, Block.column block 0 with
        | some res, some first =>
          some (.assign block result (res.type.createConstColumn first.size value))
        | _, _ => some (.throw .Undefined block)
    | some _ => none

/-- The chain of specializations that `FunctionArrayElement::execute` tries in
order, stopping at the first that does not return `false`. -/
def FunctionArrayElement.dispatch (block : Block) (arguments : List Nat) (result : Nat)
    (index : Nat) : Option Executed :=
  FunctionArrayElement.executeNumber .UInt8 block arguments result index
  <|> FunctionArrayElement.executeNumber .UInt16 block arguments result index
  <|> FunctionArrayElement.executeNumber .UInt32 block arguments result index
  <|> FunctionArrayElement.executeNumber .UInt64 block arguments result index
  <|> FunctionArrayElement.executeNumber .Int8 block arguments result index
  <|> FunctionArrayElement.executeNumber .Int16 block arguments result index
  <|> FunctionArrayElement.executeNumber .Int32 block arguments result index
  <|> FunctionArrayElement.executeNumber .Int64 block arguments result index
  <|> FunctionArrayElement.executeNumber .Float32 block arguments result index
  <|> FunctionArrayElement.executeNumber .Float64 block arguments result index
  <|> FunctionArrayElement.executeConst block arguments result index
  <|> FunctionArrayElement.executeString block arguments result index

/-- The method `FunctionArrayElement::execute`. -/
def FunctionArrayElement.execute (block : Block) (arguments : List Nat) (result : Nat) :
    Executed :=
  match arguments[1]? with
  | none => .throw .Undefined block
  | some a1 =>
    match Block.column block a1 with
    | none => .throw .Undefined block
    | some c1 =>
      if !c1.isConst then .throw .NonConstantArgumentError block
      else
        match c1.constValue with
        | some (.uint64 k) =>
          if k = 0 then .throw .ZeroIndexError block
          else
            match FunctionArrayElement.dispatch block arguments result (sub64 k 1) with
            | some done => done
            | none => .throw .UnsupportedColumnTypeError block
        | some _ => .throw .BadGet block
        | none => .throw .Undefined block

/-- The test `0 != name.compare(0, 4, "UInt")` negated: the first four
characters of the name are `UInt`. -/
def startsWithUInt (name : String) : Bool :=
  name.data.take 4 == ['U', 'I', 'n', 't']

/-- The method `FunctionArrayElement::getReturnType`. -/
def FunctionArrayElement.getReturnType (arguments : List DataType) : Except Exception DataType :=
  match arguments with
  | [first, second] =>
    match first.asArray with
    | none => .error .TypeMismatchError
    | some nested =>
      if !second.isNumeric || !startsWithUInt second.getName then .error .TypeMismatchError
      else .ok nested
  | _ => .error .ArgumentCountError

/-! ## `FunctionHas` -/

/-- The method `FunctionHas::getReturnType`. -/
def FunctionHas.getReturnType (arguments : List DataType) : Except Exception DataType :=
  match arguments with
  | [first, second] =>
    match first.asArray with
    | none => .error .TypeMismatchError
    | some nested =>
      if nested.getName ≠ second.getName then .error .TypeMismatchError
      else .ok (.number .UInt8)
  | _ => .error .ArgumentCountError

/-- Whether a binary64 bit pattern is a NaN. -/
def float64IsNaN (bits : Nat) : Bool :=
  decide ((bits / 2 ^ 52) % 2 ^ 11 = 2 ^ 11 - 1 ∧ bits % 2 ^ 52 ≠ 0)

/-- The comparison `==` of two floating-point numbers given by their binary64
bit patterns: a NaN equals nothing, the two zeros are equal. -/
def float64Eq (a b : Nat) : Bool :=
  !float64IsNaN a && !float64IsNaN b &&
    (decide (a = b) || (decide (a % 2 ^ 63 = 0) && decide (b % 2 ^ 63 = 0)))

mutual
/-- Modelled from the spec: the equality `==` of two scalar values, total over
all pairs of kinds; values of different kinds are not equal. -/
def Field.eq : Field → Field → Bool
  | .uint64 a, .uint64 b => decide (a = b)
  | .int64 a, .int64 b => decide (a = b)
  | .float64 a, .float64 b => float64Eq a b
  | .string a, .string b => decide (a = b)
  | .array a, .array b => Field.eqList a b
  | _, _ => false
/-- Equality of two literal sequences, entry by entry. -/
def Field.eqList : List Field → List Field → Bool
  | [], [] => true
  | x :: xs, y :: ys => Field.eq x y && Field.eqList xs ys
  | _, _ => false
end

/-- The kind of a scalar value, numbered in the order of the union. -/
def Field.which : Field → Nat
  | .uint64 _ => 0
  | .int64 _ => 1
  | .float64 _ => 2
  | .string _ => 3
  | .array _ => 4

/-- Whether a numeric kind is an unsigned integer. -/
def NumKind.isUnsigned : NumKind → Bool
  | .UInt8 | .UInt16 | .UInt32 | .UInt64 => true
  | _ => false

/-- Whether a numeric kind is a signed integer. -/
def NumKind.isSigned : NumKind → Bool
  | .Int8 | .Int16 | .Int32 | .Int64 => true
  | _ => false

/-- The width in bits of a numeric kind. -/
def NumKind.width : NumKind → Nat
  | .UInt8 | .Int8 => 8
  | .UInt16 | .Int16 => 16
  | .UInt32 | .Int32 | .Float32 => 32
  | .UInt64 | .Int64 | .Float64 => 64

/-- The needle `boost::get<typename NearestFieldType<T>::Type>(value)` passed as
`const T value`: `none` when the scalar value is not of the nearest 64-bit kind
of `T` (`boost::bad_get`); otherwise the extracted value converted to `T`: an
unsigned integer is reduced modulo `2 ^ width`, a signed integer is wrapped into
the two's complement range of `width` bits, a double is rounded to `Float32` by
`toFloat32` (rounding is a parameter of the embedding) or kept for `Float64`.
The nearest 64-bit kind is the one `NumKind.nearest` gives. -/
def NumKind.narrow (toFloat32 : Nat → Nat) (T : NumKind) (value : Field) : Option Int :=
  if T.isUnsigned then
    match value with
    | .uint64 v => some (Int.ofNat (v % 2 ^ T.width))
    | _ => none
  else if T.isSigned then
    match value with
    | .int64 v => some ((v + 2 ^ (T.width - 1)) % 2 ^ T.width - 2 ^ (T.width - 1))
    | _ => none
  else
    match value with
    | .float64 bits => some (Int.ofNat (if T = .Float32 then toFloat32 bits else bits))
    | _ => none

/-- The comparison `==` of two values of the numeric kind `T`. -/
def NumKind.eq (T : NumKind) (a b : Int) : Bool :=
  if T.isUnsigned || T.isSigned then decide (a = b)
  else float64Eq a.toNat b.toNat

/-- The method `FunctionHas::executeNumber<T>`; `none` is the return value
`false`, which leaves the block untouched.  The result column is attached to the
block before the needle is extracted and the kernel runs. -/
def FunctionHas.executeNumber (toFloat32 : Nat → Nat) (T : NumKind) (block : Block)
    (arguments : List Nat) (result : Nat) (value : Field) : Option Executed :=
  match arguments[0]? with
  | none => some (.throw .Undefined block)
  | some a0 =>
    match Block.column block a0 with
    | none => some (.throw .Undefined block)
    | some (.array (.vector kind data) offsets) =>
      if kind = T then
        match Block.setColumn block result (.vector .UInt8 []) with
        | none => some (.throw .Undefined block)
        | some block1 =>
          if result = a0 then some (.throw .Undefined block1)
          else
            match T.narrow toFloat32 value with
            | none => some (.throw .BadGet block1)
            | some needle =>
              match @ArrayHasNumImpl.vector Int ⟨T.eq⟩ data offsets needle [] with
              | none => some (.throw .Undefined block1)
              | some res =>
                some (.assign block1 result (.vector .UInt8 (res.map Int.ofNat)))
      else none
    | some _ => none

/-- The method `FunctionHas::executeString`; `none` is the return value
`false`. -/
def FunctionHas.executeString (block : Block) (arguments : List Nat) (result : Nat)
    (value : Field) : Option Executed :=
  match arguments[0]? with
  | none => some (.throw .Undefined block)
  | some a0 =>
    match Block.column block a0 with
    | none => some (.throw .Undefined block)
    | some (.array (.string data string_offsets) offsets) =>
      match Block.setColumn block result (.vector .UInt8 []) with
      | none => some (.throw .Undefined block)
      | some block1 =>
        if result = a0 then some (.throw .Undefined block1)
        else
          match value with
          | .string needle =>
            match ArrayHasStringImpl.vector data offsets string_offsets needle [] with
            | none => some (.throw .Undefined block1)
            | some res => some (.assign block1 result (.vector .UInt8 (res.map Int.ofNat)))
          | _ => some (.throw .BadGet block1)
    | some _ => none

/-- The loop of `FunctionHas::executeConst` over the literal sequence: whether
it left through `break`, that is `i != size`. -/
def FunctionHas.executeConst.found (value : Field) : List Field → Bool
  | [] => false
  | x :: rest =>
    if Field.eq x value then true
    else FunctionHas.executeConst.found value rest

/-- The method `FunctionHas::executeConst`; `none` is the return value `false`.
The row count of the result is read from block position 0. -/
def FunctionHas.executeConst (block : Block) (arguments : List Nat) (result : Nat)
    (value : Field) : Option Executed :=
  match arguments[0]? with
  | none => some (.throw .Undefined block)
  | some a0 =>
    match Block.column block a0 with
    | none => some (.throw .Undefined block)
    | some (.const _ (.array arr)) =>
      match block[result]?, Block.column block 0 with
      | some res, some first =>
        some (.assign block result (res.type.createConstColumn first.size
          (.uint64 (if FunctionHas.executeConst.found value arr then 1 else 0))))
      | _, _ => some (.throw .Undefined block)
    | some _ => none

/-- The chain of specializations that `FunctionHas::execute` tries in order,
stopping at the first that does not return `false`. -/
def FunctionHas.dispatch (toFloat32 : Nat → Nat) (block : Block) (arguments : List Nat)
    (result : Nat) (value : Field) : Option Executed :=
  FunctionHas.executeNumber toFloat32 .UInt8 block arguments result value
  <|> FunctionHas.executeNumber toFloat32 .UInt16 block arguments result value
  <|> FunctionHas.executeNumber toFloat32 .UInt32 block arguments result value
  <|> FunctionHas.executeNumber toFloat32 .UInt64 block arguments result value
  <|> FunctionHas.executeNumber toFloat32 .Int8 block arguments result value
  <|> FunctionHas.executeNumber toFloat32 .Int16 block arguments result value
  <|> FunctionHas.executeNumber toFloat32 .Int32 block arguments result value
  <|> FunctionHas.executeNumber toFloat32 .Int64 block arguments result value
  <|> FunctionHas.executeNumber toFloat32 .Float32 block arguments result value
  <|> FunctionHas.executeNumber toFloat32 .Float64 block arguments result value
  <|> FunctionHas.executeConst block arguments result value
  <|> FunctionHas.executeString block arguments result value

/-- The method `FunctionHas::execute`. -/
def FunctionHas.execute (toFloat32 : Nat → Nat) (block : Block) (arguments : List Nat)
    (result : Nat) : Executed :=
  match arguments[1]? with
  | none => .throw .Undefined block
  | some a1 =>
    match Block.column block a1 with
    | none => .throw .Undefined block
    | some c1 =>
      if !c1.isConst then .throw .NonConstantArgumentError block
      else
        match c1.constValue with
        | none => .throw .Undefined block
        | some value =>
          match FunctionHas.dispatch toFloat32 block arguments result value with
          | some done => done
          | none => .throw .UnsupportedColumnTypeError block

/-- A block of one row: the per-row array column `[1, 2, 3]` of `UInt8`, the
constant needle `value`, and the position of the result. -/
def blockHasRow_1_2_3 (value : Field) : Block :=
  [ { column := some (.array (.vector .UInt8 [1, 2, 3]) [3]),
      type := .array (.number .UInt8), name := "arr" },
    { column := some (.const 1 value), type := .number .UInt8, name := "x" },
    { column := none, type := .number .UInt8, name := "has(arr, x)" } ]

/-- A block of one row: the constant array `[1, 2, 3]`, the constant needle
`value`, and the position of the result. -/
def blockHasConst_1_2_3 (value : Field) : Block :=
  [ { column := some (.const 1 (.array [.uint64 1, .uint64 2, .uint64 3])),
      type := .array (.number .UInt8), name := "arr" },
    { column := some (.const 1 value), type := .number .UInt8, name := "x" },
    { column := none, type := .number .UInt8, name := "has(arr, x)" } ]

/-! ## The offset codec, as the specification words it -/

/-- Start of row `i`: `(i == 0) ? 0 : offsets[i-1]`. -/
def rowStart (offsets : List Nat) (i : Nat) : Nat :=
  if i = 0 then 0 else offsets.getD (i - 1) 0

/-- Length of row `i`: `offsets[i] - start`. -/
def rowLength (offsets : List Nat) (i : Nat) : Nat :=
  offsets.getD i 0 - rowStart offsets i

/-- An unsigned-integer type, as the specification words the second argument
of `arrayElement`: one of `UInt8`, `UInt16`, `UInt32`, `UInt64`. -/
def DataType.isUnsignedInteger : DataType → Bool
  | .number .UInt8 => true
  | .number .UInt16 => true
  | .number .UInt32 => true
  | .number .UInt64 => true
  | _ => false

/-! ## Example blocks -/

/-- A block of one row: the per-row array column `[10, 20, 30]` of `UInt8`, the
constant index `k`, and the position of the result. -/
def blockRow_10_20_30 (k : Nat) : Block :=
  [ { column := some (.array (.vector .UInt8 [10, 20, 30]) [3]),
      type := .array (.number .UInt8), name := "arr" },
    { column := some (.const 1 (.uint64 k)), type := .number .UInt8, name := "k" },
    { column := none, type := .number .UInt8, name := "arrayElement(arr, k)" } ]

/-- A block of one row: the per-row array column `[7, 8]` of `UInt8`, the
constant index `k`, and the position of the result. -/
def blockRow_7_8 (k : Nat) : Block :=
  [ { column := some (.array (.vector .UInt8 [7, 8]) [2]),
      type := .array (.number .UInt8), name := "arr" },
    { column := some (.const 1 (.uint64 k)), type := .number .UInt8, name := "k" },
    { column := none, type := .number .UInt8, name := "arrayElement(arr, k)" } ]

/-- A block of one row: the per-row array column `["ab", "cd"]` of strings, the
constant index `k`, and the position of the result. -/
def blockRow_ab_cd (k : Nat) : Block :=
  [ { column := some (.array (.string [97, 98, 0, 99, 100, 0] [3, 6]) [2]),
      type := .array .string, name := "arr" },
    { column := some (.const 1 (.uint64 k)), type := .number .UInt8, name := "k" },
    { column := none, type := .string, name := "arrayElement(arr, k)" } ]

/-- A block of one row: the constant array `[7, 8]`, the constant index `k`,
and the position of the result. -/
def blockConst_7_8 (k : Nat) : Block :=
  [ { column := some (.const 1 (.array [.uint64 7, .uint64 8])),
      type := .array (.number .UInt8), name := "arr" },
    { column := some (.const 1 (.uint64 k)), type := .number .UInt8, name := "k" },
    { column := none, type := .number .UInt8, name := "arrayElement(arr, k)" } ]

/-- A block of five rows: the constants `1`, `2`, `3` and the position of the
result of `array(1, 2, 3)`. -/
def blockArray_1_2_3 : Block :=
  [ { column := some (.const 5 (.uint64 1)), type := .number .UInt8, name := "1" },
    { column := some (.const 5 (.uint64 2)), type := .number .UInt8, name := "2" },
    { column := some (.const 5 (.uint64 3)), type := .number .UInt8, name := "3" },
    { column := none, type := .array (.number .UInt8), name := "array(1, 2, 3)" } ]

/-! ## Predicates of the specification: membership, strings -/

/-- Row `i` of the numeric array column holds an element equal to `value`. -/
def RowHasNum {T : Type} [BEq T] (data : List T) (offsets : List Nat) (value : T) (i : Nat) :
    Prop :=
  ∃ j, rowStart offsets i ≤ j ∧ j < offsets.getD i 0 ∧ ∃ x, data[j]? = some x ∧ (x == value) = true

/-- Content of the nested string number `k`, taken with the specification's
words: range length minus one bytes from the start of the range. -/
def stringContent (data string_offsets : List Nat) (k : Nat) : List Nat :=
  (data.drop (rowStart string_offsets k)).take (rowLength string_offsets k - 1)

/-- Full byte range of the nested string number `k`, terminator included. -/
def stringRange (data string_offsets : List Nat) (k : Nat) : List Nat :=
  (data.drop (rowStart string_offsets k)).take (rowLength string_offsets k)

/-- Every string's byte range is non-empty and ends in the terminator byte. -/
def Terminated (data string_offsets : List Nat) : Prop :=
  ∀ k, k < string_offsets.length →
    rowStart string_offsets k < string_offsets.getD k 0 ∧
    data[string_offsets.getD k 0 - 1]? = some 0

/-- The nested string number `k` equals the needle `value`: same content length
and same content bytes. -/
def StringEq (data string_offsets value : List Nat) (k : Nat) : Prop :=
  rowLength string_offsets k - 1 = value.length ∧ stringContent data string_offsets k = value

/-- Row `i` of the array-of-strings column holds a string equal to `value`. -/
def RowHasString (data offsets string_offsets value : List Nat) (i : Nat) : Prop :=
  ∃ k, rowStart offsets i ≤ k ∧ k < offsets.getD i 0 ∧ StringEq data string_offsets value k

/-- The bytes row `i` of `arrayElement` over strings must hold: the full range
of the selected nested string, or the empty string with its terminator. -/
def elementStringRow (data offsets string_offsets : List Nat) (index i : Nat) : List Nat :=
  if index < rowLength offsets i then stringRange data string_offsets (rowStart offsets i + index)
  else [0]

/-- Row-count preservation of a run `e` of `arrayElement` or `has` on `block`:
the result column has the row count `offsets.size()` of a per-row array
argument; for a constant-array argument its repeat count is the row count of the
column at block position 0; it is the row count of the array argument whenever
the column at position 0 has that row count; and when the columns of the block
share one row count, it is the row count of the array argument and of the
constant index or needle argument. -/
def RowCountPreserved (block : Block) (arguments : List Nat) (result : Nat) (e : Executed) :
    Prop :=
  ∃ a0 a1 c0 c1 c, arguments[0]? = some a0 ∧ arguments[1]? = some a1 ∧
    Block.column block a0 = some c0 ∧ Block.column block a1 = some c1 ∧
    Block.column e.block result = some c ∧
    (∀ nested offsets, c0 = .array nested offsets → c.size = offsets.length) ∧
    (∀ s0 A, c0 = .const s0 (.array A) →
      ∃ first, Block.column block 0 = some first ∧ c.size = first.size) ∧
    ((∀ first, Block.column block 0 = some first → first.size = c0.size) →
      c.size = c0.size) ∧
    (∀ n, (∀ p col, Block.column block p = some col → col.size = n) →
      c.size = c0.size ∧ c.size = c1.size ∧ c.size = n)

/-- The column is one of the representations of the dispatch matrix: a per-row
array over a numeric kind, a per-row array of strings, or a constant array. -/
def Column.supported : Column → Bool
  | .array (.vector _ _) _ => true
  | .array (.string _ _) _ => true
  | .const _ (.array _) => true
  | _ => false

/-- A block of one row whose first column is an array of arrays `[[1, 2]]`,
with a constant second argument `value` and the position of the result. -/
def blockNested (value : Field) : Block :=
  [ { column := some (.array (.array (.vector .UInt8 [1, 2]) [2]) [1]),
      type := .array (.array (.number .UInt8)), name := "arr" },
    { column := some (.const 1 value), type := .number .UInt8, name := "x" },
    { column := none, type := .number .UInt8, name := "f(arr, x)" } ]

/-- A block of one row whose first column is the plain numeric column `[1]`,
with a constant second argument `value` and the position of the result. -/
def blockPlain (value : Field) : Block :=
  [ { column := some (.vector .UInt8 [1]), type := .number .UInt8, name := "n" },
    { column := some (.const 1 value), type := .number .UInt8, name := "x" },
    { column := none, type := .number .UInt8, name := "f(n, x)" } ]

/-- A block of one row whose two first columns are per-row columns. -/
def blockNonConstant : Block :=
  [ { column := some (.array (.vector .UInt8 [1, 2]) [2]),
      type := .array (.number .UInt8), name := "arr" },
    { column := some (.vector .UInt8 [1]), type := .number .UInt8, name := "x" },
    { column := none, type := .number .UInt8, name := "f(arr, x)" } ]

/-- The frame of a run on `block` that left `after`: the same number of
positions, every position other than `result` holding what it held, and the
position `result` keeping its type and name with its column replaced. -/
def FrameKept (block : Block) (result : Nat) (after : Block) : Prop :=
  after.length = block.length ∧
  (∀ p, p ≠ result → after[p]? = block[p]?) ∧
  ∃ elem c, block[result]? = some elem ∧ after[result]? = some { elem with column := some c }

/-- What the caller observes of a run: the exception thrown, or else the
column left at the result position (its row count included). -/
def Executed.outcome (e : Executed) (result : Nat) : Option Exception × Option Column :=
  match e.exception with
  | some x => (some x, none)
  | none => (none, Block.column e.block result)

/-- The two blocks hold the same columns at the positions listed in
`arguments`, and the same declared type at the result position. -/
def SameArguments (b1 b2 : Block) (arguments : List Nat) (result : Nat) : Prop :=
  (∀ a ∈ arguments, Block.column b1 a = Block.column b2 a) ∧
  (b1[result]?).map (fun elem => elem.type) = (b2[result]?).map (fun elem => elem.type)

/-- A block of five rows with a constant array `[7, 8]` and a constant index 1
at positions 1 and 2, the result at position 3, and `first` as the column
pointer of position 0, which is no argument. -/
def blockBehind (first : Option Column) : Block :=
  [ { column := first, type := .number .UInt8, name := "n" },
    { column := some (.const 5 (.array [.uint64 7, .uint64 8])),
      type := .array (.number .UInt8), name := "arr" },
    { column := some (.const 5 (.uint64 1)), type := .number .UInt8, name := "k" },
    { column := none, type := .number .UInt8, name := "f(arr, k)" } ]

/-- A block of one row with the per-row array `[7, 8]` and a constant index 1 at
positions 1 and 2, the result at position 3, and `first` as the column pointer
of position 0, which is no argument. -/
def blockBehindPerRow (first : Option Column) : Block :=
  [ { column := first, type := .number .UInt8, name := "n" },
    { column := some (.array (.vector .UInt8 [7, 8]) [2]),
      type := .array (.number .UInt8), name := "arr" },
    { column := some (.const 1 (.uint64 1)), type := .number .UInt8, name := "k" },
    { column := none, type := .number .UInt8, name := "f(arr, k)" } ]

/-! ## Values of a numeric kind -/

/-- Modelled from the spec: `NearestFieldType<T>::Type`, the nearest 64-bit kind
of a numeric kind (`DB/Core/Field.h` is not among the sources): `UInt64` for an
unsigned kind, `Int64` for a signed kind, `Float64` for a float kind. -/
def NumKind.nearest : NumKind → NumKind
  | .UInt8 | .UInt16 | .UInt32 | .UInt64 => .UInt64
  | .Int8 | .Int16 | .Int32 | .Int64 => .Int64
  | .Float32 | .Float64 => .Float64

/-- The integer `x` is representable in the kind `T`: within `[0, 2 ^ width)`
for an unsigned kind, within `[-2 ^ (width - 1), 2 ^ (width - 1))` for a signed
kind; for a float kind, `x` is a bit pattern of 64 bits. -/
def NumKind.holds (T : NumKind) (x : Int) : Prop :=
  if T.isUnsigned then 0 ≤ x ∧ x < 2 ^ T.width
  else if T.isSigned then -(2 ^ (T.width - 1)) ≤ x ∧ x < 2 ^ (T.width - 1)
  else 0 ≤ x ∧ x < 2 ^ 64

instance NumKind.holds.decidable (T : NumKind) (x : Int) : Decidable (T.holds x) := by
  unfold NumKind.holds
  infer_instance

/-- Modelled from the spec: the scalar value that holds the number `x` of the
kind `T`, a value of the nearest 64-bit kind of `T`. -/
def NumKind.toField (T : NumKind) (x : Int) : Field :=
  if T.isUnsigned then .uint64 x.toNat
  else if T.isSigned then .int64 x
  else .float64 x.toNat

/-- A block of one row: the per-row array column `[1, 2, 3]` of `UInt8`, the
constant needle 257 held as the 64-bit unsigned value, and the result. -/
def blockHasRow_257 : Block := blockHasRow_1_2_3 (NumKind.toField .UInt8 257)

/-! ## A constant array and the per-row column of its copies -/

/-- Modelled from the spec: the value `(*column)[i]` of row `i`
(`IColumn::operator[]`; the classes under `DB/Columns` are not among the
sources): a number as the scalar value of its nearest 64-bit kind, a string as
its content bytes, an array as the sequence of the values of its elements, and
the value of a constant column at each of its rows. -/
def Column.rowValue : Column → Nat → Option Field
  | .vector kind data, i => (data[i]?).map kind.toField
  | .string data offsets, i =>
    if i < offsets.length then some (.string (stringContent data offsets i)) else none
  | .array nested offsets, i =>
    if i < offsets.length then
      ((List.range (rowLength offsets i)).mapM
        (fun j => nested.rowValue (rowStart offsets i + j))).map Field.array
    else none
  | .const s value, i => if i < s then some value else none

/-- The payload of the per-row array column made of `n` copies of `A`: `A`
concatenated `n` times. -/
def repeatedData (n : Nat) (A : List Int) : List Int := (List.replicate n A).flatten

/-- The offsets of the per-row array column made of `n` copies of a sequence of
`len` elements: `len, 2 * len, ..., n * len`. -/
def repeatedOffsets (n len : Nat) : List Nat := (List.range n).map (fun i => (i + 1) * len)

/-- The per-row array column made of `n` copies of the sequence `A` of the
numeric kind `T`. -/
def Column.perRow (T : NumKind) (n : Nat) (A : List Int) : Column :=
  .array (.vector T (repeatedData n A)) (repeatedOffsets n A.length)

/-- The constant-array column of `n` rows that broadcasts the literal sequence
`A` of the numeric kind `T`. -/
def Column.constArray (T : NumKind) (n : Nat) (A : List Int) : Column :=
  .const n (.array (A.map T.toField))

/-- A block of `n = 2` rows over the constant array `[1, 2, 3]` of `UInt8`: the
array, the needle 2, the index 3, and the position of the result. -/
def blockConstArray_1_2_3 : Block :=
  [ { column := some (Column.constArray .UInt8 2 [1, 2, 3]),
      type := .array (.number .UInt8), name := "arr" },
    { column := some (.const 2 (NumKind.toField .UInt8 2)), type := .number .UInt8, name := "x" },
    { column := some (.const 2 (.uint64 3)), type := .number .UInt8, name := "k" },
    { column := none, type := .number .UInt8, name := "f(arr, _)" } ]

/-- The block `blockConstArray_1_2_3` with the array held as the per-row column
of two copies of `[1, 2, 3]`. -/
def blockPerRow_1_2_3 : Block :=
  [ { column := some (Column.perRow .UInt8 2 [1, 2, 3]),
      type := .array (.number .UInt8), name := "arr" },
    { column := some (.const 2 (NumKind.toField .UInt8 2)), type := .number .UInt8, name := "x" },
    { column := some (.const 2 (.uint64 3)), type := .number .UInt8, name := "k" },
    { column := none, type := .number .UInt8, name := "f(arr, _)" } ]

/-- A block over the constant array `[1, 2, 3]` of `UInt8` with 5 rows, the
needle 2, the index 3 and the result at positions 1 to 4, behind a column of 3
rows at position 0, which is no argument. -/
def blockConstArrayBehind : Block :=
  [ { column := some (.vector .UInt8 [1, 2, 3]), type := .number .UInt8, name := "n" },
    { column := some (Column.constArray .UInt8 5 [1, 2, 3]),
      type := .array (.number .UInt8), name := "arr" },
    { column := some (.const 5 (NumKind.toField .UInt8 2)), type := .number .UInt8, name := "x" },
    { column := some (.const 5 (.uint64 3)), type := .number .UInt8, name := "k" },
    { column := none, type := .number .UInt8, name := "f(arr, _)" } ]

/-- The block `blockConstArrayBehind` with the array held as the per-row column
of five copies of `[1, 2, 3]`. -/
def blockPerRowBehind : Block :=
  [ { column := some (.vector .UInt8 [1, 2, 3]), type := .number .UInt8, name := "n" },
    { column := some (Column.perRow .UInt8 5 [1, 2, 3]),
      type := .array (.number .UInt8), name := "arr" },
    { column := some (.const 5 (NumKind.toField .UInt8 2)), type := .number .UInt8, name := "x" },
    { column := some (.const 5 (.uint64 3)), type := .number .UInt8, name := "k" },
    { column := none, type := .number .UInt8, name := "f(arr, _)" } ]

/-- The two runs return normally and leave result columns of `n` rows that
hold the same value at every row. -/
def AgreeRows (n : Nat) (e1 e2 : Executed) (result : Nat) : Prop :=
  e1.exception = none ∧ e2.exception = none ∧
  ∃ c1 c2, Block.column e1.block result = some c1 ∧ Block.column e2.block result = some c2 ∧
    c1.size = n ∧ c2.size = n ∧
    ∀ i, i < n → ∃ value, c1.rowValue i = some value ∧ c2.rowValue i = some value

/-! ## Arithmetic and offset lemmas -/

theorem sub64_eq {a b : Nat} (h : b ≤ a) (ha : a < 2 ^ 64) : sub64 a b = a - b := by
  unfold sub64
  omega

theorem add64_eq {a b : Nat} (h : a + b < 2 ^ 64) : add64 a b = a + b := by
  unfold add64
  omega

theorem getD_of_lt {l : List Nat} {i : Nat} (hi : i < l.length) : l.getD i 0 = l[i] := by
  simp [List.getD, List.getElem?_eq_getElem hi]

theorem rowStart_succ (offsets : List Nat) (i : Nat) :
    rowStart offsets (i + 1) = offsets.getD i 0 := by
  simp [rowStart]

/-- In a non-decreasing offsets sequence whose last entry is at most `m`, every
row starts no later than it ends, and ends at most at `m`. -/
theorem offsets_bounds {offsets : List Nat} {m : Nat} (hmono : offsets.Pairwise (· ≤ ·))
    (hlast : offsets.getLast?.getD 0 ≤ m) {i : Nat} (hi : i < offsets.length) :
    rowStart offsets i ≤ offsets.getD i 0 ∧ offsets.getD i 0 ≤ m := by
  rw [List.pairwise_iff_getElem] at hmono
  rw [List.getLast?_eq_getElem?, List.getElem?_eq_getElem (by omega)] at hlast
  simp only [Option.getD_some] at hlast
  rw [getD_of_lt hi]
  constructor
  · unfold rowStart
    split
    · omega
    · rw [getD_of_lt (by omega)]
      exact hmono (i - 1) i (by omega) hi (by omega)
  · rcases Nat.lt_or_ge i (offsets.length - 1) with h | h
    · exact le_trans (hmono i (offsets.length - 1) hi (by omega) h) hlast
    · have : i = offsets.length - 1 := by omega
      subst this
      exact hlast

theorem rowLength_add {offsets : List Nat} {m : Nat} (hmono : offsets.Pairwise (· ≤ ·))
    (hlast : offsets.getLast?.getD 0 ≤ m) {i : Nat} (hi : i < offsets.length) :
    rowStart offsets i + rowLength offsets i = offsets.getD i 0 := by
  have := (offsets_bounds hmono hlast hi).1
  unfold rowLength
  omega

/-! ## Correctness of `ArrayElementNumImpl<T>::vector` -/

theorem ArrayElementNumImpl_vectorLoop_spec {T : Type} (data : List T) (offsets : List Nat)
    (index : Nat) (hmono : offsets.Pairwise (· ≤ ·))
    (hlast : offsets.getLast?.getD 0 ≤ data.length) (hsize : data.length < 2 ^ 64) :
    ∀ (n i : Nat) (result : List T), n + i = offsets.length → result.length = offsets.length →
      ∃ r, ArrayElementNumImpl.vectorLoop data offsets index n i (rowStart offsets i) result
          = some r ∧ r.length = offsets.length ∧
        (∀ j, j < i → r[j]? = result[j]?) ∧
        (∀ j, i ≤ j → j < offsets.length →
          (index < rowLength offsets j → r[j]? = data[rowStart offsets j + index]?) ∧
          (rowLength offsets j ≤ index → r[j]? = result[j]?)) := by
  intro n
  induction n with
  | zero =>
    intro i result hn hlen
    exact ⟨result, rfl, hlen, fun _ _ => rfl, fun j h1 h2 => by omega⟩
  | succ n ih =>
    intro i result hn hlen
    have hi : i < offsets.length := by omega
    have hb := offsets_bounds hmono hlast hi
    have hadd := rowLength_add hmono hlast hi
    have hsub : sub64 (offsets.getD i 0) (rowStart offsets i) = rowLength offsets i := by
      rw [sub64_eq hb.1 (by omega)]
      rfl
    have hgetD := getD_of_lt hi
    rw [ArrayElementNumImpl.vectorLoop, List.getElem?_eq_getElem hi]
    simp only [← hgetD, hsub]
    by_cases hidx : index < rowLength offsets i
    · have hpos : rowStart offsets i + index < data.length := by omega
      rw [if_pos hidx, add64_eq (by omega), List.getElem?_eq_getElem hpos]
      simp only
      have := ih (i + 1) (result.set i data[rowStart offsets i + index]) (by omega)
        (by simpa using hlen)
      rw [rowStart_succ] at this
      obtain ⟨r, hr, hrl, hlow, hhigh⟩ := this
      refine ⟨r, hr, hrl, ?_, ?_⟩
      · intro j hj
        rw [hlow j (by omega), List.getElem?_set_ne (by omega)]
      · intro j hij hj
        rcases Nat.eq_or_lt_of_le hij with h | h
        · subst h
          refine ⟨fun _ => ?_, fun h' => by omega⟩
          rw [hlow i (by omega), List.getElem?_set_eq_of_lt _ (by omega),
            List.getElem?_eq_getElem hpos]
        · have := hhigh j h hj
          refine ⟨this.1, fun h' => ?_⟩
          rw [this.2 h', List.getElem?_set_ne (by omega)]
    · rw [if_neg hidx]
      have := ih (i + 1) result (by omega) hlen
      rw [rowStart_succ] at this
      obtain ⟨r, hr, hrl, hlow, hhigh⟩ := this
      refine ⟨r, hr, hrl, fun j hj => hlow j (by omega), ?_⟩
      intro j hij hj
      rcases Nat.eq_or_lt_of_le hij with h | h
      · subst h
        exact ⟨fun h' => absurd h' hidx, fun _ => hlow i (by omega)⟩
      · exact hhigh j h hj

theorem resize_nil_getElem? {T : Type} [Zero T] (n j : Nat) (hj : j < n) :
    (resize ([] : List T) n)[j]? = some 0 := by
  simp [resize, hj]

theorem resize_length {T : Type} [Zero T] (v : List T) (n : Nat) : (resize v n).length = n := by
  simp [resize]
  omega

/-- Specification of `ArrayElementNumImpl<T>::vector` run on an empty result. -/
theorem ArrayElementNumImpl_vector_spec {T : Type} [Zero T] (data : List T) (offsets : List Nat)
    (index : Nat) (hmono : offsets.Pairwise (· ≤ ·))
    (hlast : offsets.getLast?.getD 0 ≤ data.length) (hsize : data.length < 2 ^ 64) :
    ∃ result, ArrayElementNumImpl.vector data offsets index [] = some result ∧
      result.length = offsets.length ∧
      ∀ i, i < offsets.length →
        (index < rowLength offsets i →
          rowStart offsets i + index < data.length ∧
          result[i]? = data[rowStart offsets i + index]?) ∧
        (rowLength offsets i ≤ index → result[i]? = some 0) := by
  obtain ⟨r, hr, hrl, _, hhigh⟩ := ArrayElementNumImpl_vectorLoop_spec data offsets index hmono
    hlast hsize offsets.length 0 (resize [] offsets.length) (by omega) (resize_length _ _)
  refine ⟨r, hr, hrl, fun i hi => ⟨fun h => ⟨?_, ((hhigh i (by omega) hi).1 h)⟩, fun h => ?_⟩⟩
  · have := offsets_bounds hmono hlast hi
    have := rowLength_add hmono hlast hi
    omega
  · rw [(hhigh i (by omega) hi).2 h, resize_nil_getElem? _ _ hi]

/-! ## Correctness of `ArrayHasNumImpl<T>::vector` -/

theorem ArrayHasNumImpl_scan_spec {T : Type} [BEq T] (data : List T) (value : T) (cur : Nat)
    (hsize : data.length < 2 ^ 64) :
    ∀ (n j : Nat), cur + j + n ≤ data.length →
      ∃ b, ArrayHasNumImpl.scan data value cur n j = some b ∧
        (b = true ↔ ∃ p, cur + j ≤ p ∧ p < cur + j + n ∧
          ∃ x, data[p]? = some x ∧ (x == value) = true) := by
  intro n
  induction n with
  | zero =>
    intro j _
    refine ⟨false, rfl, ?_⟩
    simp only [Bool.false_eq_true, false_iff, not_exists, not_and]
    intro p h1 h2
    omega
  | succ n ih =>
    intro j hj
    have hpos : cur + j < data.length := by omega
    rw [ArrayHasNumImpl.scan, add64_eq (by omega), List.getElem?_eq_getElem hpos]
    simp only
    by_cases hx : (data[cur + j] == value) = true
    · rw [if_pos hx]
      exact ⟨true, rfl, by
        simp only [true_iff]
        exact ⟨cur + j, le_refl _, by omega, data[cur + j],
          List.getElem?_eq_getElem hpos, hx⟩⟩
    · rw [if_neg hx]
      obtain ⟨b, hb, hiff⟩ := ih (j + 1) (by omega)
      refine ⟨b, hb, hiff.trans ⟨?_, ?_⟩⟩
      · rintro ⟨p, h1, h2, h3⟩
        exact ⟨p, by omega, by omega, h3⟩
      · rintro ⟨p, h1, h2, x, h3, h4⟩
        rcases Nat.eq_or_lt_of_le h1 with h | h
        · subst h
          rw [List.getElem?_eq_getElem hpos] at h3
          cases h3
          exact absurd h4 hx
        · exact ⟨p, by omega, by omega, x, h3, h4⟩

theorem ArrayHasNumImpl_vectorLoop_spec {T : Type} [BEq T] (data : List T) (offsets : List Nat)
    (value : T) (hmono : offsets.Pairwise (· ≤ ·))
    (hlast : offsets.getLast?.getD 0 ≤ data.length) (hsize : data.length < 2 ^ 64) :
    ∀ (n i : Nat) (result : List Nat), n + i = offsets.length →
      result.length = offsets.length →
      ∃ r, ArrayHasNumImpl.vectorLoop data offsets value n i (rowStart offsets i) result
          = some r ∧ r.length = offsets.length ∧
        (∀ j, j < i → r[j]? = result[j]?) ∧
        (∀ j, i ≤ j → j < offsets.length →
          (RowHasNum data offsets value j → r[j]? = some 1) ∧
          (¬ RowHasNum data offsets value j → r[j]? = result[j]?)) := by
  intro n
  induction n with
  | zero =>
    intro i result hn hlen
    exact ⟨result, rfl, hlen, fun _ _ => rfl, fun j h1 h2 => by omega⟩
  | succ n ih =>
    intro i result hn hlen
    have hi : i < offsets.length := by omega
    have hb := offsets_bounds hmono hlast hi
    have hadd := rowLength_add hmono hlast hi
    have hsub : sub64 (offsets.getD i 0) (rowStart offsets i) = rowLength offsets i := by
      rw [sub64_eq hb.1 (by omega)]
      rfl
    have hgetD := getD_of_lt hi
    rw [ArrayHasNumImpl.vectorLoop, List.getElem?_eq_getElem hi]
    simp only [← hgetD, hsub]
    obtain ⟨b, hb1, hb2⟩ := ArrayHasNumImpl_scan_spec data value (rowStart offsets i) hsize
      (rowLength offsets i) 0 (by omega)
    rw [hb1]
    simp only
    have hrow : b = true ↔ RowHasNum data offsets value i := by
      rw [hb2]
      unfold RowHasNum
      simp only [Nat.add_zero, hadd]
    obtain ⟨r, hr, hrl, hlow, hhigh⟩ := ih (i + 1) (if b = true then result.set i 1 else result)
      (by omega) (by split <;> simpa using hlen)
    rw [rowStart_succ] at hr
    refine ⟨r, hr, hrl, ?_, ?_⟩
    · intro j hj
      rw [hlow j (by omega)]
      split
      · rw [List.getElem?_set_ne (by omega)]
      · rfl
    · intro j hij hj
      rcases Nat.eq_or_lt_of_le hij with h | h
      · subst h
        rw [hlow i (by omega)]
        constructor
        · intro hh
          rw [if_pos (hrow.2 hh), List.getElem?_set_eq_of_lt _ (by omega)]
        · intro hh
          rw [if_neg (fun h' => hh (hrow.1 h'))]
      · have := hhigh j h hj
        refine ⟨this.1, fun h' => ?_⟩
        rw [this.2 h']
        split
        · rw [List.getElem?_set_ne (by omega)]
        · rfl

/-- Specification of `ArrayHasNumImpl<T>::vector` run on an empty result. -/
theorem ArrayHasNumImpl_vector_spec {T : Type} [BEq T] (data : List T) (offsets : List Nat)
    (value : T) (hmono : offsets.Pairwise (· ≤ ·))
    (hlast : offsets.getLast?.getD 0 ≤ data.length) (hsize : data.length < 2 ^ 64) :
    ∃ result, ArrayHasNumImpl.vector data offsets value [] = some result ∧
      result.length = offsets.length ∧
      ∀ i, i < offsets.length →
        (RowHasNum data offsets value i → result[i]? = some 1) ∧
        (¬ RowHasNum data offsets value i → result[i]? = some 0) := by
  obtain ⟨r, hr, hrl, _, hhigh⟩ := ArrayHasNumImpl_vectorLoop_spec data offsets value hmono
    hlast hsize offsets.length 0 (resize [] offsets.length) (by omega) (resize_length _ _)
  refine ⟨r, hr, hrl, fun i hi => ⟨(hhigh i (by omega) hi).1, fun h => ?_⟩⟩
  rw [(hhigh i (by omega) hi).2 h]
  exact resize_nil_getElem? _ _ hi

/-! ## The bytes-with-offsets codec -/

theorem strict_ge_index {l : List Nat} (h : l.Pairwise (· < ·)) :
    ∀ k (hk : k < l.length), k ≤ l[k] := by
  rw [List.pairwise_iff_getElem] at h
  intro k
  induction k with
  | zero => intro _; omega
  | succ k ih =>
    intro hk
    have h1 := ih (by omega)
    have h2 := h k (k + 1) (by omega) hk (by omega)
    omega

theorem strict_length_le {l : List Nat} {m : Nat} (h : l.Pairwise (· < ·))
    (hlast : l.getLast?.getD 0 ≤ m) : l.length ≤ m + 1 := by
  rcases Nat.eq_zero_or_pos l.length with h0 | h0
  · omega
  · have h1 := strict_ge_index h (l.length - 1) (by omega)
    rw [List.getLast?_eq_getElem?, List.getElem?_eq_getElem (by omega)] at hlast
    simp only [Option.getD_some] at hlast
    omega

theorem terminated_ge_index {l : List Nat} (h : l.Pairwise (· < ·))
    (hterm : ∀ k, k < l.length → rowStart l k < l.getD k 0) : ∀ k (hk : k < l.length), k + 1 ≤ l[k] := by
  rw [List.pairwise_iff_getElem] at h
  intro k
  induction k with
  | zero =>
    intro hk
    have := hterm 0 hk
    rw [getD_of_lt hk] at this
    omega
  | succ k ih =>
    intro hk
    have h1 := ih (by omega)
    have h2 := h k (k + 1) (by omega) hk (by omega)
    omega

theorem terminated_length_le {l : List Nat} {m : Nat} (h : l.Pairwise (· < ·))
    (hterm : ∀ k, k < l.length → rowStart l k < l.getD k 0) (hlast : l.getLast?.getD 0 ≤ m) : l.length ≤ m := by
  rcases Nat.eq_zero_or_pos l.length with h0 | h0
  · omega
  · have h1 := terminated_ge_index h hterm (l.length - 1) (by omega)
    rw [List.getLast?_eq_getElem?, List.getElem?_eq_getElem (by omega)] at hlast
    simp only [Option.getD_some] at hlast
    omega

theorem strict_mono_le {l : List Nat} (h : l.Pairwise (· < ·)) : l.Pairwise (· ≤ ·) :=
  h.imp (fun hab => Nat.le_of_lt hab)

theorem string_pos_eq (string_offsets : List Nat) (cur j : Nat)
    (h : cur + j < string_offsets.length) (hlen : string_offsets.length ≤ 2 ^ 64) :
    (if cur = 0 ∧ j = 0 then some 0 else string_offsets[sub64 (add64 cur j) 1]?)
      = some (rowStart string_offsets (cur + j)) := by
  by_cases h0 : cur = 0 ∧ j = 0
  · rw [if_pos h0]
    obtain ⟨rfl, rfl⟩ := h0
    rfl
  · rw [if_neg h0, add64_eq (by omega), sub64_eq (by omega) (by omega)]
    have hne : cur + j ≠ 0 := by omega
    simp only [rowStart, if_neg hne]
    rw [List.getElem?_eq_getElem (by omega), getD_of_lt (by omega)]

theorem string_end_eq (string_offsets : List Nat) (cur j : Nat)
    (h : cur + j < string_offsets.length) (hlen : string_offsets.length ≤ 2 ^ 64) :
    string_offsets[add64 cur j]? = some (string_offsets.getD (cur + j) 0) := by
  rw [add64_eq (by omega), List.getElem?_eq_getElem h, getD_of_lt h]

/-! ## Correctness of `ArrayHasStringImpl::vector` -/

theorem ArrayHasStringImpl_scan_spec (data string_offsets value : List Nat) (cur : Nat)
    (hso : string_offsets.Pairwise (· < ·))
    (hsolast : string_offsets.getLast?.getD 0 ≤ data.length)
    (hterm : ∀ k, k < string_offsets.length →
      rowStart string_offsets k < string_offsets.getD k 0)
    (hsize : data.length < 2 ^ 64) (hvalue : value.length < 2 ^ 64) :
    ∀ (n j : Nat), cur + j + n ≤ string_offsets.length →
      ∃ b, ArrayHasStringImpl.scan data string_offsets value cur n j = some b ∧
        (b = true ↔ ∃ k, cur + j ≤ k ∧ k < cur + j + n ∧
          StringEq data string_offsets value k) := by
  have hlen := terminated_length_le hso hterm hsolast
  intro n
  induction n with
  | zero =>
    intro j _
    refine ⟨false, rfl, ?_⟩
    simp only [Bool.false_eq_true, false_iff, not_exists, not_and]
    intro p h1 h2
    omega
  | succ n ih =>
    intro j hj
    have hk : cur + j < string_offsets.length := by omega
    have hb := offsets_bounds (strict_mono_le hso) hsolast hk
    have hadd := rowLength_add (strict_mono_le hso) hsolast hk
    have hne := hterm (cur + j) hk
    rw [ArrayHasStringImpl.scan, string_pos_eq _ _ _ hk (by omega),
      string_end_eq _ _ _ hk (by omega)]
    simp only
    rw [sub64_eq hb.1 (by omega)]
    obtain ⟨b, hb1, hiff⟩ := ih (j + 1) (by omega)
    have hrest : (∃ k, cur + j ≤ k ∧ k < cur + j + (n + 1) ∧
          StringEq data string_offsets value k) ↔
        (StringEq data string_offsets value (cur + j) ∨ b = true) := by
      rw [hiff]
      constructor
      · rintro ⟨k, h1, h2, h3⟩
        rcases Nat.eq_or_lt_of_le h1 with h | h
        · subst h
          exact Or.inl h3
        · exact Or.inr ⟨k, by omega, by omega, h3⟩
      · rintro (h | ⟨k, h1, h2, h3⟩)
        · exact ⟨cur + j, le_refl _, by omega, h⟩
        · exact ⟨k, by omega, by omega, h3⟩
    have hlenEq : string_offsets.getD (cur + j) 0 - rowStart string_offsets (cur + j)
        = add64 value.length 1 ↔ rowLength string_offsets (cur + j) - 1 = value.length := by
      unfold add64 rowLength
      omega
    by_cases hsz : string_offsets.getD (cur + j) 0 - rowStart string_offsets (cur + j)
        = add64 value.length 1
    · rw [if_pos hsz]
      have hl := hlenEq.1 hsz
      have hin : value.length ≤ value.length ∧
          rowStart string_offsets (cur + j) + value.length ≤ data.length := by
        constructor
        · exact le_refl _
        · omega
      rw [memcmp_eq, if_pos hin, List.take_length]
      by_cases heq : value = List.take value.length (List.drop (rowStart string_offsets (cur + j)) data)
      · rw [decide_eq_true heq]
        refine ⟨true, rfl, ?_⟩
        simp only [true_iff]
        rw [hrest]
        left
        refine ⟨hl, ?_⟩
        unfold stringContent
        rw [hl]
        exact heq.symm
      · rw [decide_eq_false heq]
        refine ⟨b, hb1, ?_⟩
        rw [hrest]
        constructor
        · exact Or.inr
        · rintro (h | h)
          · exfalso
            apply heq
            have := h.2
            unfold stringContent at this
            rw [hl] at this
            exact this.symm
          · exact h
    · rw [if_neg hsz]
      refine ⟨b, hb1, ?_⟩
      rw [hrest]
      constructor
      · exact Or.inr
      · rintro (h | h)
        · exact absurd (hlenEq.2 h.1) hsz
        · exact h

theorem ArrayHasStringImpl_vectorLoop_spec (data offsets string_offsets value : List Nat)
    (hmono : offsets.Pairwise (· ≤ ·))
    (hlast : offsets.getLast?.getD 0 ≤ string_offsets.length)
    (hso : string_offsets.Pairwise (· < ·))
    (hsolast : string_offsets.getLast?.getD 0 ≤ data.length)
    (hterm : ∀ k, k < string_offsets.length →
      rowStart string_offsets k < string_offsets.getD k 0)
    (hsize : data.length < 2 ^ 64) (hvalue : value.length < 2 ^ 64) :
    ∀ (n i : Nat) (result : List Nat), n + i = offsets.length →
      result.length = offsets.length →
      ∃ r, ArrayHasStringImpl.vectorLoop data offsets string_offsets value n i
          (rowStart offsets i) result = some r ∧ r.length = offsets.length ∧
        (∀ j, j < i → r[j]? = result[j]?) ∧
        (∀ j, i ≤ j → j < offsets.length →
          (RowHasString data offsets string_offsets value j → r[j]? = some 1) ∧
          (¬ RowHasString data offsets string_offsets value j → r[j]? = result[j]?)) := by
  have hsolen := terminated_length_le hso hterm hsolast
  intro n
  induction n with
  | zero =>
    intro i result hn hlen
    exact ⟨result, rfl, hlen, fun _ _ => rfl, fun j h1 h2 => by omega⟩
  | succ n ih =>
    intro i result hn hlen
    have hi : i < offsets.length := by omega
    have hb := offsets_bounds hmono hlast hi
    have hadd := rowLength_add hmono hlast hi
    have hsub : sub64 (offsets.getD i 0) (rowStart offsets i) = rowLength offsets i := by
      rw [sub64_eq hb.1 (by omega)]
      rfl
    have hgetD := getD_of_lt hi
    rw [ArrayHasStringImpl.vectorLoop, List.getElem?_eq_getElem hi]
    simp only [← hgetD, hsub]
    obtain ⟨b, hb1, hb2⟩ := ArrayHasStringImpl_scan_spec data string_offsets value
      (rowStart offsets i) hso hsolast hterm hsize hvalue (rowLength offsets i) 0 (by omega)
    rw [hb1]
    simp only
    have hrow : b = true ↔ RowHasString data offsets string_offsets value i := by
      rw [hb2]
      unfold RowHasString
      simp only [Nat.add_zero, hadd]
    obtain ⟨r, hr, hrl, hlow, hhigh⟩ := ih (i + 1) (if b = true then result.set i 1 else result)
      (by omega) (by split <;> simpa using hlen)
    rw [rowStart_succ] at hr
    refine ⟨r, hr, hrl, ?_, ?_⟩
    · intro j hj
      rw [hlow j (by omega)]
      split
      · rw [List.getElem?_set_ne (by omega)]
      · rfl
    · intro j hij hj
      rcases Nat.eq_or_lt_of_le hij with h | h
      · subst h
        rw [hlow i (by omega)]
        constructor
        · intro hh
          rw [if_pos (hrow.2 hh), List.getElem?_set_eq_of_lt _ (by omega)]
        · intro hh
          rw [if_neg (fun h' => hh (hrow.1 h'))]
      · have := hhigh j h hj
        refine ⟨this.1, fun h' => ?_⟩
        rw [this.2 h']
        split
        · rw [List.getElem?_set_ne (by omega)]
        · rfl

/-- Specification of `ArrayHasStringImpl::vector` run on an empty result. -/
theorem ArrayHasStringImpl_vector_spec (data offsets string_offsets value : List Nat)
    (hmono : offsets.Pairwise (· ≤ ·))
    (hlast : offsets.getLast?.getD 0 ≤ string_offsets.length)
    (hso : string_offsets.Pairwise (· < ·))
    (hsolast : string_offsets.getLast?.getD 0 ≤ data.length)
    (hterm : ∀ k, k < string_offsets.length →
      rowStart string_offsets k < string_offsets.getD k 0)
    (hsize : data.length < 2 ^ 64) (hvalue : value.length < 2 ^ 64) :
    ∃ result, ArrayHasStringImpl.vector data offsets string_offsets value [] = some result ∧
      result.length = offsets.length ∧
      ∀ i, i < offsets.length →
        (RowHasString data offsets string_offsets value i → result[i]? = some 1) ∧
        (¬ RowHasString data offsets string_offsets value i → result[i]? = some 0) := by
  obtain ⟨r, hr, hrl, _, hhigh⟩ := ArrayHasStringImpl_vectorLoop_spec data offsets string_offsets
    value hmono hlast hso hsolast hterm hsize hvalue offsets.length 0 (resize [] offsets.length)
    (by omega) (resize_length _ _)
  refine ⟨r, hr, hrl, fun i hi => ⟨(hhigh i (by omega) hi).1, fun h => ?_⟩⟩
  rw [(hhigh i (by omega) hi).2 h]
  exact resize_nil_getElem? _ _ hi

/-! ## Correctness of `ArrayElementStringImpl::vector` -/

theorem rowStart_mono {l : List Nat} (h : l.Pairwise (· ≤ ·)) {a b : Nat} (hab : a ≤ b)
    (hb : b ≤ l.length) : rowStart l a ≤ rowStart l b := by
  rw [List.pairwise_iff_getElem] at h
  unfold rowStart
  by_cases ha : a = 0
  · rw [if_pos ha]
    omega
  · rw [if_neg ha, if_neg (by omega), getD_of_lt (by omega), getD_of_lt (by omega)]
    rcases Nat.eq_or_lt_of_le hab with h1 | h1
    · subst h1
      exact le_refl _
    · exact h (a - 1) (b - 1) (by omega) (by omega) (by omega)

theorem rowStart_le {l : List Nat} {m : Nat} (h : l.Pairwise (· ≤ ·))
    (hlast : l.getLast?.getD 0 ≤ m) {b : Nat} (hb : b ≤ l.length) : rowStart l b ≤ m := by
  unfold rowStart
  split
  · omega
  · exact (offsets_bounds h hlast (show b - 1 < l.length by omega)).2

theorem resize_append (rd : List Nat) (n : Nat) :
    resize rd (rd.length + n) = rd ++ List.replicate n 0 := by
  unfold resize
  rw [List.take_of_length_le (by omega)]
  congr 2
  omega

theorem memcpy_append (rd data : List Nat) (pos n : Nat) (h : pos + n ≤ data.length) :
    memcpy (rd ++ List.replicate n 0) rd.length data pos n
      = some (rd ++ (data.drop pos).take n) := by
  unfold memcpy
  rw [if_pos ⟨h, by simp⟩]
  simp

theorem stringRange_length {data string_offsets : List Nat}
    (hso : string_offsets.Pairwise (· ≤ ·))
    (hsolast : string_offsets.getLast?.getD 0 ≤ data.length) {k : Nat}
    (hk : k < string_offsets.length) :
    (stringRange data string_offsets k).length = rowLength string_offsets k := by
  have hb := offsets_bounds hso hsolast hk
  have hadd := rowLength_add hso hsolast hk
  unfold stringRange
  rw [List.length_take, List.length_drop]
  omega

theorem ArrayElementStringImpl_vectorLoop_spec (data offsets string_offsets : List Nat)
    (index : Nat) (hmono : offsets.Pairwise (· ≤ ·))
    (hlast : offsets.getLast?.getD 0 ≤ string_offsets.length)
    (hso : string_offsets.Pairwise (· < ·))
    (hsolast : string_offsets.getLast?.getD 0 ≤ data.length)
    (hsize : data.length + offsets.length < 2 ^ 64) :
    ∀ (n i cro : Nat) (rd ro : List Nat), n + i = offsets.length →
      ro.length = offsets.length → rd.length = cro → rowStart ro i = cro →
      cro ≤ rowStart string_offsets (rowStart offsets i) + i →
      ∃ rd1 ro1, ArrayElementStringImpl.vectorLoop data offsets string_offsets index n i
          (rowStart offsets i) cro rd ro = some (rd1, ro1) ∧
        ro1.length = offsets.length ∧ rd <+: rd1 ∧
        (∀ j, j < i → ro1[j]? = ro[j]?) ∧
        rd1.length = rowStart ro1 offsets.length ∧
        (∀ j, i ≤ j → j < offsets.length →
          ro1.getD j 0 = rowStart ro1 j
            + (elementStringRow data offsets string_offsets index j).length ∧
          (rd1.drop (rowStart ro1 j)).take
              (elementStringRow data offsets string_offsets index j).length
            = elementStringRow data offsets string_offsets index j) := by
  have hsole := strict_mono_le hso
  have hsolen := strict_length_le hso hsolast
  intro n
  induction n with
  | zero =>
    intro i cro rd ro hn hro hrd hst _
    have hi : i = offsets.length := by omega
    subst hi
    exact ⟨rd, ro, rfl, hro, List.prefix_refl _, fun _ _ => rfl, by omega,
      fun j h1 h2 => by omega⟩
  | succ n ih =>
    intro i cro rd ro hn hro hrd hst hcro
    have hi : i < offsets.length := by omega
    have hb := offsets_bounds hmono hlast hi
    have hadd := rowLength_add hmono hlast hi
    have hsub : sub64 (offsets.getD i 0) (rowStart offsets i) = rowLength offsets i := by
      rw [sub64_eq hb.1 (by omega)]
      rfl
    have hgetD := getD_of_lt hi
    have hstart_le : rowStart string_offsets (rowStart offsets i)
        ≤ rowStart string_offsets (offsets.getD i 0) := rowStart_mono hsole hb.1 hb.2
    have hend_le : rowStart string_offsets (offsets.getD i 0) ≤ data.length :=
      rowStart_le hsole hsolast hb.2
    -- what the step appends, and the state it leaves
    have key : ∀ (bytes : List Nat),
        bytes = elementStringRow data offsets string_offsets index i →
        cro + bytes.length ≤ rowStart string_offsets (offsets.getD i 0) + (i + 1) →
        ∃ rd1 ro1, ArrayElementStringImpl.vectorLoop data offsets string_offsets index n (i + 1)
            (offsets.getD i 0) (cro + bytes.length) (rd ++ bytes)
            (ro.set i (cro + bytes.length)) = some (rd1, ro1) ∧
          ro1.length = offsets.length ∧ rd <+: rd1 ∧
          (∀ j, j < i → ro1[j]? = ro[j]?) ∧
          rd1.length = rowStart ro1 offsets.length ∧
          (∀ j, i ≤ j → j < offsets.length →
            ro1.getD j 0 = rowStart ro1 j
              + (elementStringRow data offsets string_offsets index j).length ∧
            (rd1.drop (rowStart ro1 j)).take
                (elementStringRow data offsets string_offsets index j).length
              = elementStringRow data offsets string_offsets index j) := by
      intro bytes hbytes hbound
      have hih := ih (i + 1) (cro + bytes.length) (rd ++ bytes) (ro.set i (cro + bytes.length))
        (by omega) (by simpa using hro) (by simp [hrd])
        (by
          rw [rowStart_succ, getD_of_lt (by simp; omega)]
          simp)
        (by rw [rowStart_succ]; exact hbound)
      rw [rowStart_succ] at hih
      obtain ⟨rd1, ro1, hrun, hlen1, hpre, hlow, hend, hhigh⟩ := hih
      refine ⟨rd1, ro1, hrun, hlen1, (List.prefix_append rd bytes).trans hpre, ?_, hend, ?_⟩
      · intro j hj
        rw [hlow j (by omega), List.getElem?_set_ne (by omega)]
      · intro j hij hj
        rcases Nat.eq_or_lt_of_le hij with h | h
        · subst h
          have h1 : ro1.getD i 0 = cro + bytes.length := by
            rw [List.getD_eq_getElem?_getD, hlow i (by omega),
              List.getElem?_set_eq_of_lt _ (by omega)]
            rfl
          have h2 : rowStart ro1 i = cro := by
            rw [← hst]
            unfold rowStart
            split
            · rfl
            · rw [List.getD_eq_getElem?_getD, List.getD_eq_getElem?_getD,
                hlow (i - 1) (by omega), List.getElem?_set_ne (by omega)]
          rw [h1, h2, ← hbytes]
          refine ⟨rfl, ?_⟩
          obtain ⟨t, ht⟩ := hpre
          rw [← ht, ← hrd, List.append_assoc, List.drop_left, List.take_left]
        · exact hhigh j h hj
    rw [ArrayElementStringImpl.vectorLoop, List.getElem?_eq_getElem hi]
    simp only [← hgetD, hsub]
    by_cases hidx : index < rowLength offsets i
    · have hk : rowStart offsets i + index < string_offsets.length := by omega
      have hkb := offsets_bounds hsole hsolast hk
      have hkadd := rowLength_add hsole hsolast hk
      have hk1 : rowStart string_offsets (rowStart offsets i)
          ≤ rowStart string_offsets (rowStart offsets i + index) :=
        rowStart_mono hsole (by omega) (by omega)
      have hk2 : rowStart string_offsets (rowStart offsets i + index + 1)
          ≤ rowStart string_offsets (offsets.getD i 0) :=
        rowStart_mono hsole (by omega) hb.2
      rw [rowStart_succ] at hk2
      rw [if_pos hidx, string_pos_eq _ _ _ hk (by omega), string_end_eq _ _ _ hk (by omega)]
      simp only
      rw [sub64_eq hkb.1 (by omega)]
      have hss : string_offsets.getD (rowStart offsets i + index) 0
          - rowStart string_offsets (rowStart offsets i + index)
          = rowLength string_offsets (rowStart offsets i + index) := rfl
      rw [hss, add64_eq (by omega), ← hrd, resize_append, memcpy_append _ _ _ _ (by omega)]
      simp only
      have hrow : elementStringRow data offsets string_offsets index i
          = stringRange data string_offsets (rowStart offsets i + index) := by
        unfold elementStringRow
        rw [if_pos hidx]
      have hlenr := stringRange_length hsole hsolast hk
      have := key (stringRange data string_offsets (rowStart offsets i + index)) hrow.symm
        (by omega)
      rw [hlenr, ← hrd] at this
      exact this
    · have hrow : elementStringRow data offsets string_offsets index i = [0] := by
        unfold elementStringRow
        rw [if_neg hidx]
      rw [if_neg hidx, add64_eq (by omega), ← hrd, resize_append]
      have := key [0] hrow.symm (by simp only [List.length_singleton]; omega)
      rw [← hrd] at this
      exact this

/-- Specification of `ArrayElementStringImpl::vector` run on empty result
buffers. -/
theorem ArrayElementStringImpl_vector_spec (data offsets string_offsets : List Nat)
    (index : Nat) (hmono : offsets.Pairwise (· ≤ ·))
    (hlast : offsets.getLast?.getD 0 ≤ string_offsets.length)
    (hso : string_offsets.Pairwise (· < ·))
    (hsolast : string_offsets.getLast?.getD 0 ≤ data.length)
    (hsize : data.length + offsets.length < 2 ^ 64) :
    ∃ result_data result_offsets,
      ArrayElementStringImpl.vector data offsets string_offsets index [] []
        = some (result_data, result_offsets) ∧
      result_offsets.length = offsets.length ∧
      result_data.length = rowStart result_offsets offsets.length ∧
      ∀ i, i < offsets.length →
        result_offsets.getD i 0 = rowStart result_offsets i
          + (elementStringRow data offsets string_offsets index i).length ∧
        (result_data.drop (rowStart result_offsets i)).take
            (elementStringRow data offsets string_offsets index i).length
          = elementStringRow data offsets string_offsets index i := by
  obtain ⟨rd1, ro1, hrun, hlen1, _, _, hend, hhigh⟩ :=
    ArrayElementStringImpl_vectorLoop_spec data offsets string_offsets index hmono hlast hso
      hsolast hsize offsets.length 0 0 [] (resize [] offsets.length) (by omega)
      (resize_length _ _) rfl rfl (by omega)
  exact ⟨rd1, ro1, hrun, hlen1, hend, fun i hi => hhigh i (by omega) hi⟩

/-! ## Plan-time checks -/

theorem FunctionArray.getReturnType.differs_iff (first : DataType) (rest : List DataType) :
    FunctionArray.getReturnType.differs first rest = true
      ↔ ∃ t ∈ rest, t.getName ≠ first.getName := by
  induction rest with
  | nil => simp [FunctionArray.getReturnType.differs]
  | cons t rest ih =>
    rw [FunctionArray.getReturnType.differs]
    by_cases h : t.getName ≠ first.getName
    · rw [if_pos h]
      simp only [true_iff]
      exact ⟨t, List.mem_cons_self _ _, h⟩
    · rw [if_neg h, ih]
      constructor
      · rintro ⟨u, hu, hne⟩
        exact ⟨u, List.mem_cons_of_mem _ hu, hne⟩
      · rintro ⟨u, hu, hne⟩
        rcases List.mem_cons.1 hu with rfl | hu
        · exact absurd hne h
        · exact ⟨u, hu, hne⟩

theorem unsigned_check_eq (second : DataType) :
    (!second.isNumeric || !startsWithUInt second.getName) = !second.isUnsignedInteger := by
  cases second with
  | number kind => cases kind <;> decide
  | string => decide
  | array nested => rfl

/-! ## Execution of `arrayElement` and `array` over a block -/

theorem Executed.assign_of_lt (block : Block) (result : Nat) (c : Column)
    (h : result < block.length) :
    (Executed.assign block result c).exception = none ∧
    Block.column (Executed.assign block result c).block result = some c ∧
    (Executed.assign block result c).block.length = block.length ∧
    ∀ p, p ≠ result → (Executed.assign block result c).block[p]? = block[p]? := by
  unfold Executed.assign Block.setColumn
  rw [List.getElem?_eq_getElem h]
  refine ⟨rfl, ?_, ?_, ?_⟩
  · simp only [Block.column]
    rw [List.getElem?_set_eq_of_lt _ h]
  · simp
  · intro p hp
    simp only
    rw [List.getElem?_set_ne (Ne.symm hp)]

theorem Executed.assign_setColumn {block block1 : Block} {result : Nat} {c1 : Column}
    (h : Block.setColumn block result c1 = some block1) (c2 : Column) :
    Executed.assign block1 result c2 = Executed.assign block result c2 := by
  unfold Block.setColumn at h
  cases hb : block[result]? with
  | none => rw [hb] at h; cases h
  | some elem =>
    rw [hb] at h
    cases h
    have hlt : result < block.length := by
      by_contra hge
      rw [List.getElem?_eq_none (by omega)] at hb
      cases hb
    unfold Executed.assign Block.setColumn
    rw [hb, List.getElem?_set_eq_of_lt _ hlt]
    simp

theorem Block.setColumn_of_lt (block : Block) (result : Nat) (c : Column)
    (h : result < block.length) : ∃ block1, Block.setColumn block result c = some block1 := by
  unfold Block.setColumn
  rw [List.getElem?_eq_getElem h]
  exact ⟨_, rfl⟩

theorem orElse_none_left {α : Type} (b : Option α) : ((none : Option α) <|> b) = b := by
  simp

theorem orElse_some_left {α : Type} (a : α) (b : Option α) : (some a <|> b) = some a := by
  simp

theorem FunctionArrayElement_executeNumber_other {block : Block} {a0 : Nat} (rest : List Nat)
    (result index : Nat) {T K : NumKind} {data : List Int} {offsets : List Nat}
    (h0 : Block.column block a0 = some (.array (.vector T data) offsets)) (hK : T ≠ K) :
    FunctionArrayElement.executeNumber K block (a0 :: rest) result index = none := by
  simp [FunctionArrayElement.executeNumber, h0, hK]

theorem FunctionArrayElement.executeNumber_match {block : Block} {a0 : Nat} (rest : List Nat)
    {result index : Nat} {T : NumKind} {data : List Int} {offsets : List Nat} {res : List Int}
    (h0 : Block.column block a0 = some (.array (.vector T data) offsets))
    (hres : result < block.length) (hne : result ≠ a0)
    (hrun : ArrayElementNumImpl.vector data offsets index [] = some res) :
    FunctionArrayElement.executeNumber T block (a0 :: rest) result index
      = some (Executed.assign block result (.vector T res)) := by
  obtain ⟨block1, hb1⟩ := Block.setColumn_of_lt block result (.vector T []) hres
  simp [FunctionArrayElement.executeNumber, h0, hb1, hne, hrun, Executed.assign_setColumn hb1]

theorem FunctionArrayElement.dispatch_number {block : Block} {a0 : Nat} (rest : List Nat)
    {result index : Nat} {T : NumKind} {data : List Int} {offsets : List Nat} {res : List Int}
    (h0 : Block.column block a0 = some (.array (.vector T data) offsets))
    (hres : result < block.length) (hne : result ≠ a0)
    (hrun : ArrayElementNumImpl.vector data offsets index [] = some res) :
    FunctionArrayElement.dispatch block (a0 :: rest) result index
      = some (Executed.assign block result (.vector T res)) := by
  have hm := FunctionArrayElement.executeNumber_match rest h0 hres hne hrun
  have ho := fun K (hK : T ≠ K) =>
    FunctionArrayElement_executeNumber_other rest result index h0 hK
  unfold FunctionArrayElement.dispatch
  cases T <;> simp [hm, ho]

theorem FunctionArrayElement.dispatch_const {block : Block} {a0 : Nat} {rest : List Nat}
    {result index s0 : Nat} {A : List Field}
    (h0 : Block.column block a0 = some (.const s0 (.array A))) :
    FunctionArrayElement.dispatch block (a0 :: rest) result index
      = (FunctionArrayElement.executeConst block (a0 :: rest) result index
        <|> FunctionArrayElement.executeString block (a0 :: rest) result index) := by
  have ho : ∀ K, FunctionArrayElement.executeNumber K block (a0 :: rest) result index = none := by
    intro K
    simp [FunctionArrayElement.executeNumber, h0]
  unfold FunctionArrayElement.dispatch
  simp only [ho, orElse_none_left]

theorem FunctionArrayElement.dispatch_string {block : Block} {a0 : Nat} (rest : List Nat)
    {result index : Nat} {data string_offsets offsets rd ro : List Nat}
    (h0 : Block.column block a0 = some (.array (.string data string_offsets) offsets))
    (hres : result < block.length) (hne : result ≠ a0)
    (hrun : ArrayElementStringImpl.vector data offsets string_offsets index [] []
      = some (rd, ro)) :
    FunctionArrayElement.dispatch block (a0 :: rest) result index
      = some (Executed.assign block result (.string rd ro)) := by
  have ho : ∀ K, FunctionArrayElement.executeNumber K block (a0 :: rest) result index = none := by
    intro K
    simp [FunctionArrayElement.executeNumber, h0]
  have hc : FunctionArrayElement.executeConst block (a0 :: rest) result index = none := by
    simp [FunctionArrayElement.executeConst, h0]
  obtain ⟨block1, hb1⟩ := Block.setColumn_of_lt block result (.string [] []) hres
  have hs : FunctionArrayElement.executeString block (a0 :: rest) result index
      = some (Executed.assign block result (.string rd ro)) := by
    simp [FunctionArrayElement.executeString, h0, hb1, hne, hrun,
      Executed.assign_setColumn hb1]
  unfold FunctionArrayElement.dispatch
  simp only [ho, hc, hs, orElse_none_left]

/-- With a constant unsigned index `k ≥ 1`, `execute` is the dispatch at the
0-based index `k - 1`. -/
theorem FunctionArrayElement.execute_index {block : Block} (a0 : Nat) {a1 : Nat} (result : Nat)
    {s k : Nat}
    (h1 : Block.column block a1 = some (.const s (.uint64 k))) (hk : 1 ≤ k) (hk64 : k < 2 ^ 64) :
    FunctionArrayElement.execute block [a0, a1] result
      = match FunctionArrayElement.dispatch block [a0, a1] result (k - 1) with
        | some done => done
        | none => .throw .UnsupportedColumnTypeError block := by
  have hk0 : k ≠ 0 := by omega
  simp [FunctionArrayElement.execute, h1, Column.isConst, Column.constValue, hk0,
    sub64_eq hk hk64]

theorem FunctionArrayElement.execute_zero {block : Block} {a0 a1 : Nat} {result s : Nat}
    (h1 : Block.column block a1 = some (.const s (.uint64 0))) :
    FunctionArrayElement.execute block [a0, a1] result = .throw .ZeroIndexError block := by
  simp [FunctionArrayElement.execute, h1, Column.isConst, Column.constValue]

theorem FunctionArray.execute.check_none_iff (block : Block) (arguments : List Nat) :
    FunctionArray.execute.check block arguments = none
      ↔ ∀ a ∈ arguments, ∃ c, Block.column block a = some c ∧ c.isConst = true := by
  induction arguments with
  | nil => simp [FunctionArray.execute.check]
  | cons a rest ih =>
    rw [FunctionArray.execute.check]
    cases hc : Block.column block a with
    | none =>
      simp only [reduceCtorEq, false_iff]
      intro h
      obtain ⟨c, hc1, _⟩ := h a (List.mem_cons_self _ _)
      rw [hc] at hc1
      cases hc1
    | some c =>
      simp only
      cases hconst : c.isConst with
      | false =>
        simp only [Bool.not_false, if_true, reduceCtorEq, false_iff]
        intro h
        obtain ⟨c1, hc1, hcc⟩ := h a (List.mem_cons_self _ _)
        rw [hc] at hc1
        cases hc1
        rw [hconst] at hcc
        cases hcc
      | true =>
        simp only [Bool.not_true, Bool.false_eq_true, if_false]
        rw [ih]
        constructor
        · intro h b hb
          rcases List.mem_cons.1 hb with rfl | hb
          · exact ⟨c, hc, hconst⟩
          · exact h b hb
        · intro h b hb
          exact h b (List.mem_cons_of_mem _ hb)

theorem FunctionArray.execute.check_nonconst_iff (block : Block) (arguments : List Nat)
    (hargs : ∀ a ∈ arguments, ∃ c, Block.column block a = some c) :
    FunctionArray.execute.check block arguments = some .NonConstantArgumentError
      ↔ ∃ a ∈ arguments, ∃ c, Block.column block a = some c ∧ c.isConst = false := by
  induction arguments with
  | nil => simp [FunctionArray.execute.check]
  | cons a rest ih =>
    rw [FunctionArray.execute.check]
    obtain ⟨c, hc⟩ := hargs a (List.mem_cons_self _ _)
    have ih1 := ih (fun b hb => hargs b (List.mem_cons_of_mem _ hb))
    rw [hc]
    simp only
    cases hconst : c.isConst with
    | false =>
      simp only [Bool.not_false, if_true, true_iff]
      exact ⟨a, List.mem_cons_self _ _, c, hc, hconst⟩
    | true =>
      simp only [Bool.not_true, Bool.false_eq_true, if_false]
      rw [ih1]
      constructor
      · rintro ⟨b, hb, h⟩
        exact ⟨b, List.mem_cons_of_mem _ hb, h⟩
      · rintro ⟨b, hb, c1, hc1, hcc⟩
        rcases List.mem_cons.1 hb with rfl | hb
        · rw [hc] at hc1
          cases hc1
          rw [hconst] at hcc
          cases hcc
        · exact ⟨b, hb, c1, hc1, hcc⟩

theorem FunctionArray.execute.fill_spec (block : Block) (arguments : List Nat)
    (hconst : ∀ a ∈ arguments, ∃ c, Block.column block a = some c ∧ c.isConst = true) :
    ∃ arr : List Field, FunctionArray.execute.fill block arguments = some arr ∧
      arr.length = arguments.length ∧
      ∀ (j a : Nat), arguments[j]? = some a →
        ∃ c, Block.column block a = some c ∧ c.constValue = arr[j]? := by
  induction arguments with
  | nil => exact ⟨[], rfl, rfl, fun j a h => by simp at h⟩
  | cons a rest ih =>
    obtain ⟨c, hc, hcc⟩ := hconst a (List.mem_cons_self _ _)
    obtain ⟨arr, harr, hlen, hget⟩ := ih (fun b hb => hconst b (List.mem_cons_of_mem _ hb))
    cases c with
    | vector kind data => simp [Column.isConst] at hcc
    | string data offsets => simp [Column.isConst] at hcc
    | array data offsets => simp [Column.isConst] at hcc
    | const s v =>
      refine ⟨v :: arr, ?_, by simp [hlen], ?_⟩
      · simp [FunctionArray.execute.fill, hc, Column.constValue, harr]
      · intro j b hj
        cases j with
        | zero =>
          simp only [List.getElem?_cons_zero, Option.some.injEq] at hj
          subst hj
          exact ⟨_, hc, by simp [Column.constValue]⟩
        | succ j =>
          simp only [List.getElem?_cons_succ] at hj
          simpa using hget j b hj

/-- Specification of `FunctionArray::execute` when every argument position
holds a column. -/
theorem FunctionArray.execute_spec (block : Block) (arguments : List Nat) (result : Nat)
    (hne : arguments ≠ [])
    (hargs : ∀ a ∈ arguments, ∃ c, Block.column block a = some c) :
    ((FunctionArray.execute block arguments result).exception = some .NonConstantArgumentError
      ↔ ∃ a ∈ arguments, ∃ c, Block.column block a = some c ∧ c.isConst = false) ∧
    ((∃ a ∈ arguments, ∃ c, Block.column block a = some c ∧ c.isConst = false) →
      FunctionArray.execute block arguments result = .throw .NonConstantArgumentError block) ∧
    ((¬ ∃ a ∈ arguments, ∃ c, Block.column block a = some c ∧ c.isConst = false) →
      ∃ (arr : List Field) (first : Column),
        (arguments[0]?).bind (Block.column block) = some first ∧
        FunctionArray.execute block arguments result
          = .assign block result (.const first.size (.array arr)) ∧
        arr.length = arguments.length ∧
        ∀ (j a : Nat), arguments[j]? = some a →
          ∃ c, Block.column block a = some c ∧ c.constValue = arr[j]?) := by
  have hcheck := FunctionArray.execute.check_nonconst_iff block arguments hargs
  by_cases hsome : ∃ a ∈ arguments, ∃ c, Block.column block a = some c ∧ c.isConst = false
  · have hrun : FunctionArray.execute block arguments result
        = .throw .NonConstantArgumentError block := by
      unfold FunctionArray.execute
      rw [hcheck.2 hsome]
    refine ⟨?_, fun _ => hrun, fun h => absurd hsome h⟩
    rw [hrun]
    exact ⟨fun _ => hsome, fun _ => rfl⟩
  · have hall : ∀ a ∈ arguments, ∃ c, Block.column block a = some c ∧ c.isConst = true := by
      intro a ha
      obtain ⟨c, hc⟩ := hargs a ha
      refine ⟨c, hc, ?_⟩
      cases hcc : c.isConst with
      | true => rfl
      | false => exact absurd ⟨a, ha, c, hc, hcc⟩ hsome
    obtain ⟨arr, harr, hlen, hget⟩ := FunctionArray.execute.fill_spec block arguments hall
    cases arguments with
    | nil => exact absurd rfl hne
    | cons a0 rest =>
      obtain ⟨c0, hc0⟩ := hargs a0 (List.mem_cons_self _ _)
      have hrun : FunctionArray.execute block (a0 :: rest) result
          = .assign block result (.const c0.size (.array arr)) := by
        unfold FunctionArray.execute
        rw [(FunctionArray.execute.check_none_iff block (a0 :: rest)).2 hall, harr]
        simp only [hc0]
      refine ⟨?_, fun h => absurd h hsome, fun _ => ⟨arr, c0, ?_, hrun, hlen, hget⟩⟩
      · rw [hrun]
        constructor
        · intro h
          unfold Executed.assign at h
          split at h <;> simp at h
        · intro h
          exact absurd h hsome
      · simp [hc0]

/-- The rows of the output of `ArrayElementStringImpl::vector`, read back
through the output's own offsets. -/
theorem ArrayElementStringImpl_vector_rows (data offsets string_offsets : List Nat)
    (index : Nat) (hmono : offsets.Pairwise (· ≤ ·))
    (hlast : offsets.getLast?.getD 0 ≤ string_offsets.length)
    (hso : string_offsets.Pairwise (· < ·))
    (hsolast : string_offsets.getLast?.getD 0 ≤ data.length)
    (hsize : data.length + offsets.length < 2 ^ 64) :
    ∃ result_data result_offsets,
      ArrayElementStringImpl.vector data offsets string_offsets index [] []
        = some (result_data, result_offsets) ∧
      result_offsets.length = offsets.length ∧
      ∀ i, i < offsets.length →
        rowStart result_offsets i ≤ result_offsets.getD i 0 ∧
        stringRange result_data result_offsets i
          = elementStringRow data offsets string_offsets index i := by
  obtain ⟨rd, ro, hrun, hlen, _, hrows⟩ := ArrayElementStringImpl_vector_spec data offsets
    string_offsets index hmono hlast hso hsolast hsize
  refine ⟨rd, ro, hrun, hlen, fun i hi => ?_⟩
  obtain ⟨h1, h2⟩ := hrows i hi
  refine ⟨by omega, ?_⟩
  unfold stringRange rowLength
  rw [h1, Nat.add_sub_cancel_left]
  exact h2

theorem FunctionArrayElement_execute_number_spec {block : Block} {a0 a1 result s k : Nat}
    {T : NumKind} {data : List Int} {offsets : List Nat}
    (h1 : Block.column block a1 = some (.const s (.uint64 k))) (hk : 1 ≤ k) (hk64 : k < 2 ^ 64)
    (h0 : Block.column block a0 = some (.array (.vector T data) offsets))
    (hmono : offsets.Pairwise (· ≤ ·)) (hlast : offsets.getLast?.getD 0 ≤ data.length)
    (hsize : data.length < 2 ^ 64) (hres : result < block.length) (hne : result ≠ a0) :
    ∃ res, (FunctionArrayElement.execute block [a0, a1] result).exception = none ∧
      Block.column (FunctionArrayElement.execute block [a0, a1] result).block result
        = some (.vector T res) ∧
      res.length = offsets.length ∧
      ∀ i, i < offsets.length →
        (k - 1 < rowLength offsets i →
          rowStart offsets i + (k - 1) < data.length ∧
          res[i]? = data[rowStart offsets i + (k - 1)]?) ∧
        (rowLength offsets i ≤ k - 1 → res[i]? = some 0) := by
  obtain ⟨res, hrun, hlen, hrows⟩ :=
    ArrayElementNumImpl_vector_spec data offsets (k - 1) hmono hlast hsize
  have hd := FunctionArrayElement.dispatch_number [a1] h0 hres hne hrun
  have he := FunctionArrayElement.execute_index a0 result h1 hk hk64
  rw [hd] at he
  have ha := Executed.assign_of_lt block result (.vector T res) hres
  rw [he]
  exact ⟨res, ha.1, ha.2.1, hlen, hrows⟩

theorem FunctionArrayElement.execute_string_spec {block : Block} {a0 a1 result s k : Nat}
    {data string_offsets offsets : List Nat}
    (h1 : Block.column block a1 = some (.const s (.uint64 k))) (hk : 1 ≤ k) (hk64 : k < 2 ^ 64)
    (h0 : Block.column block a0 = some (.array (.string data string_offsets) offsets))
    (hmono : offsets.Pairwise (· ≤ ·))
    (hlast : offsets.getLast?.getD 0 ≤ string_offsets.length)
    (hso : string_offsets.Pairwise (· < ·))
    (hsolast : string_offsets.getLast?.getD 0 ≤ data.length)
    (hsize : data.length + offsets.length < 2 ^ 64)
    (hres : result < block.length) (hne : result ≠ a0) :
    ∃ rd ro, (FunctionArrayElement.execute block [a0, a1] result).exception = none ∧
      Block.column (FunctionArrayElement.execute block [a0, a1] result).block result
        = some (.string rd ro) ∧
      ro.length = offsets.length ∧
      ∀ i, i < offsets.length →
        rowStart ro i ≤ ro.getD i 0 ∧
        stringRange rd ro i = elementStringRow data offsets string_offsets (k - 1) i := by
  obtain ⟨rd, ro, hrun, hlen, hrows⟩ := ArrayElementStringImpl_vector_rows data offsets
    string_offsets (k - 1) hmono hlast hso hsolast hsize
  have hd := FunctionArrayElement.dispatch_string [a1] h0 hres hne hrun
  have he := FunctionArrayElement.execute_index a0 result h1 hk hk64
  rw [hd] at he
  have ha := Executed.assign_of_lt block result (.string rd ro) hres
  rw [he]
  exact ⟨rd, ro, ha.1, ha.2.1, hlen, hrows⟩

theorem FunctionArrayElement_execute_const_spec {block : Block} {a0 a1 result s k s0 : Nat}
    {A : List Field}
    (h1 : Block.column block a1 = some (.const s (.uint64 k))) (hk : 1 ≤ k) (hk64 : k < 2 ^ 64)
    (h0 : Block.column block a0 = some (.const s0 (.array A))) :
    (A.length < k →
      FunctionArrayElement.execute block [a0, a1] result
        = .throw .IndexOutOfRangeError block) ∧
    (k ≤ A.length → result < block.length → ∀ first, Block.column block 0 = some first →
      ∃ value, A[k - 1]? = some value ∧
        (FunctionArrayElement.execute block [a0, a1] result).exception = none ∧
        Block.column (FunctionArrayElement.execute block [a0, a1] result).block result
          = some (.const first.size value)) := by
  have he := FunctionArrayElement.execute_index a0 result h1 hk hk64
  rw [FunctionArrayElement.dispatch_const h0] at he
  constructor
  · intro hlt
    have hnone : A[k - 1]? = none := List.getElem?_eq_none (by omega)
    have hc : FunctionArrayElement.executeConst block [a0, a1] result (k - 1)
        = some (.throw .IndexOutOfRangeError block) := by
      simp [FunctionArrayElement.executeConst, h0, hnone]
    rw [hc] at he
    simpa using he
  · intro hle hres first hfirst
    have hin : k - 1 < A.length := by omega
    have hsome : A[k - 1]? = some A[k - 1] := List.getElem?_eq_getElem hin
    have hc : FunctionArrayElement.executeConst block [a0, a1] result (k - 1)
        = some (.assign block result (.const first.size A[k - 1])) := by
      simp [FunctionArrayElement.executeConst, h0, hsome, hfirst,
        List.getElem?_eq_getElem hres, DataType.createConstColumn]
    rw [hc] at he
    have ha := Executed.assign_of_lt block result (.const first.size A[k - 1]) hres
    refine ⟨A[k - 1], hsome, ?_, ?_⟩
    · rw [he]
      simpa using ha.1
    · rw [he]
      simpa using ha.2.1

/-! ## Shapes of the outcomes of `arrayElement` -/

theorem ArrayElementNumImpl_vectorLoop_length {T : Type} (data : List T) (offsets : List Nat)
    (index : Nat) : ∀ (n i cur : Nat) (result r : List T),
      ArrayElementNumImpl.vectorLoop data offsets index n i cur result = some r →
      r.length = result.length := by
  intro n
  induction n with
  | zero =>
    intro i cur result r h
    simp only [ArrayElementNumImpl.vectorLoop, Option.some.injEq] at h
    rw [← h]
  | succ n ih =>
    intro i cur result r h
    rw [ArrayElementNumImpl.vectorLoop] at h
    split at h
    · cases h
    · simp only at h
      split at h
      · split at h
        · cases h
        · rw [ih _ _ _ _ h, List.length_set]
      · exact ih _ _ _ _ h

theorem ArrayElementNumImpl_vector_length {T : Type} [Zero T] {data : List T}
    {offsets : List Nat} {index : Nat} {r : List T}
    (h : ArrayElementNumImpl.vector data offsets index [] = some r) :
    r.length = offsets.length := by
  unfold ArrayElementNumImpl.vector at h
  rw [ArrayElementNumImpl_vectorLoop_length _ _ _ _ _ _ _ _ h, resize_length]

theorem ArrayElementStringImpl_vectorLoop_length (data offsets string_offsets : List Nat)
    (index : Nat) : ∀ (n i cur cro : Nat) (rd ro rd1 ro1 : List Nat),
      ArrayElementStringImpl.vectorLoop data offsets string_offsets index n i cur cro rd ro
        = some (rd1, ro1) →
      ro1.length = ro.length := by
  intro n
  induction n with
  | zero =>
    intro i cur cro rd ro rd1 ro1 h
    simp only [ArrayElementStringImpl.vectorLoop, Option.some.injEq, Prod.mk.injEq] at h
    rw [← h.2]
  | succ n ih =>
    intro i cur cro rd ro rd1 ro1 h
    rw [ArrayElementStringImpl.vectorLoop] at h
    split at h
    · cases h
    · simp only at h
      split at h
      · split at h
        · cases h
        · split at h
          · cases h
          · split at h
            · cases h
            · rw [ih _ _ _ _ _ _ _ h, List.length_set]
      · rw [ih _ _ _ _ _ _ _ h, List.length_set]

theorem ArrayElementStringImpl_vector_length {data offsets string_offsets : List Nat}
    {index : Nat} {rd ro : List Nat}
    (h : ArrayElementStringImpl.vector data offsets string_offsets index [] [] = some (rd, ro)) :
    ro.length = offsets.length := by
  unfold ArrayElementStringImpl.vector at h
  rw [ArrayElementStringImpl_vectorLoop_length _ _ _ _ _ _ _ _ _ _ _ _ h, resize_length]

theorem Block.setColumn_some_lt {block block1 : Block} {result : Nat} {c : Column}
    (h : Block.setColumn block result c = some block1) : result < block.length := by
  unfold Block.setColumn at h
  by_contra hge
  rw [List.getElem?_eq_none (by omega)] at h
  cases h

theorem FunctionArrayElement_executeNumber_cases {T : NumKind} {block : Block}
    {arguments : List Nat} {result index : Nat} {e : Executed}
    (h : FunctionArrayElement.executeNumber T block arguments result index = some e) :
    e.exception = some .Undefined ∨
    ∃ a0 data offsets res, arguments[0]? = some a0 ∧
      Block.column block a0 = some (.array (.vector T data) offsets) ∧
      ArrayElementNumImpl.vector data offsets index [] = some res ∧
      result < block.length ∧ result ≠ a0 ∧
      e = .assign block result (.vector T res) := by
  unfold FunctionArrayElement.executeNumber at h
  cases ha : arguments[0]? with
  | none =>
    simp only [ha, Option.some.injEq] at h
    subst h
    exact Or.inl rfl
  | some a0 =>
    simp only [ha] at h
    cases hc : Block.column block a0 with
    | none =>
      simp only [hc, Option.some.injEq] at h
      subst h
      exact Or.inl rfl
    | some c =>
      cases c with
      | vector kind data => simp [hc] at h
      | string data offsets => simp [hc] at h
      | const s v => simp [hc] at h
      | array nested offsets =>
        cases nested with
        | string data so => simp [hc] at h
        | const s v => simp [hc] at h
        | array d o => simp [hc] at h
        | vector kind data =>
          simp only [hc] at h
          by_cases hk : kind = T
          · subst hk
            simp only [if_true] at h
            cases hs : Block.setColumn block result (.vector kind []) with
            | none =>
              simp only [hs, Option.some.injEq] at h
              subst h
              exact Or.inl rfl
            | some block1 =>
              simp only [hs] at h
              by_cases hal : result = a0
              · simp only [hal, if_true, Option.some.injEq] at h
                subst h
                exact Or.inl rfl
              · simp only [if_neg hal] at h
                cases hr : ArrayElementNumImpl.vector data offsets index [] with
                | none =>
                  simp only [hr, Option.some.injEq] at h
                  subst h
                  exact Or.inl rfl
                | some res =>
                  simp only [hr, Option.some.injEq] at h
                  subst h
                  exact Or.inr ⟨a0, data, offsets, res, rfl, hc, hr,
                    Block.setColumn_some_lt hs, hal, Executed.assign_setColumn hs _⟩
          · simp [hk] at h

theorem FunctionArrayElement_executeString_cases {block : Block}
    {arguments : List Nat} {result index : Nat} {e : Executed}
    (h : FunctionArrayElement.executeString block arguments result index = some e) :
    e.exception = some .Undefined ∨
    ∃ a0 data string_offsets offsets rd ro, arguments[0]? = some a0 ∧
      Block.column block a0 = some (.array (.string data string_offsets) offsets) ∧
      ArrayElementStringImpl.vector data offsets string_offsets index [] [] = some (rd, ro) ∧
      result < block.length ∧ result ≠ a0 ∧
      e = .assign block result (.string rd ro) := by
  unfold FunctionArrayElement.executeString at h
  cases ha : arguments[0]? with
  | none =>
    simp only [ha, Option.some.injEq] at h
    subst h
    exact Or.inl rfl
  | some a0 =>
    simp only [ha] at h
    cases hc : Block.column block a0 with
    | none =>
      simp only [hc, Option.some.injEq] at h
      subst h
      exact Or.inl rfl
    | some c =>
      cases c with
      | vector kind data => simp [hc] at h
      | string data offsets => simp [hc] at h
      | const s v => simp [hc] at h
      | array nested offsets =>
        cases nested with
        | vector kind data => simp [hc] at h
        | const s v => simp [hc] at h
        | array d o => simp [hc] at h
        | string data so =>
          simp only [hc] at h
          cases hs : Block.setColumn block result (.string [] []) with
          | none =>
            simp only [hs, Option.some.injEq] at h
            subst h
            exact Or.inl rfl
          | some block1 =>
            simp only [hs] at h
            by_cases hal : result = a0
            · simp only [hal, if_true, Option.some.injEq] at h
              subst h
              exact Or.inl rfl
            · simp only [if_neg hal] at h
              cases hr : ArrayElementStringImpl.vector data offsets so index [] [] with
              | none =>
                simp only [hr, Option.some.injEq] at h
                subst h
                exact Or.inl rfl
              | some res =>
                obtain ⟨rd, ro⟩ := res
                simp only [hr, Option.some.injEq] at h
                subst h
                exact Or.inr ⟨a0, data, so, offsets, rd, ro, rfl, hc, hr,
                  Block.setColumn_some_lt hs, hal, Executed.assign_setColumn hs _⟩

theorem FunctionArrayElement_executeConst_cases {block : Block}
    {arguments : List Nat} {result index : Nat} {e : Executed}
    (h : FunctionArrayElement.executeConst block arguments result index = some e) :
    e = .throw .Undefined block ∨
    (∃ a0 s0 A, arguments[0]? = some a0 ∧ Block.column block a0 = some (.const s0 (.array A)) ∧
      A.length ≤ index ∧ e = .throw .IndexOutOfRangeError block) ∨
    ∃ a0 s0 A value first, arguments[0]? = some a0 ∧
      Block.column block a0 = some (.const s0 (.array A)) ∧
      A[index]? = some value ∧ Block.column block 0 = some first ∧
      result < block.length ∧
      e = .assign block result (.const first.size value) := by
  unfold FunctionArrayElement.executeConst at h
  cases ha : arguments[0]? with
  | none =>
    simp only [ha, Option.some.injEq] at h
    exact Or.inl h.symm
  | some a0 =>
    simp only [ha] at h
    cases hc : Block.column block a0 with
    | none =>
      simp only [hc, Option.some.injEq] at h
      exact Or.inl h.symm
    | some c =>
      cases c with
      | vector kind data => simp [hc] at h
      | string data offsets => simp [hc] at h
      | array nested offsets => simp [hc] at h
      | const s0 v =>
        cases v with
        | uint64 v => simp [hc] at h
        | int64 v => simp [hc] at h
        | float64 v => simp [hc] at h
        | string v => simp [hc] at h
        | array A =>
          simp only [hc] at h
          cases hv : A[index]? with
          | none =>
            simp only [hv, Option.some.injEq] at h
            refine Or.inr (Or.inl ⟨a0, s0, A, rfl, hc, ?_, h.symm⟩)
            by_contra hlt
            rw [List.getElem?_eq_getElem (by omega)] at hv
            cases hv
          | some value =>
            simp only [hv] at h
            cases hr : block[result]? with
            | none =>
              simp only [hr, Option.some.injEq] at h
              exact Or.inl h.symm
            | some res =>
              cases hf : Block.column block 0 with
              | none =>
                simp only [hr, hf, Option.some.injEq] at h
                exact Or.inl h.symm
              | some first =>
                simp only [hr, hf, Option.some.injEq, DataType.createConstColumn] at h
                refine Or.inr (Or.inr ⟨a0, s0, A, value, first, rfl, hc, hv, rfl, ?_, h.symm⟩)
                by_contra hge
                rw [List.getElem?_eq_none (by omega)] at hr
                cases hr

theorem orElse_eq_some {α : Type} {a b : Option α} {x : α} (h : (a <|> b) = some x) :
    a = some x ∨ b = some x := by
  cases a with
  | none => right; simpa using h
  | some y => left; simpa using h

theorem FunctionArrayElement_dispatch_cases {block : Block} {arguments : List Nat}
    {result index : Nat} {e : Executed}
    (h : FunctionArrayElement.dispatch block arguments result index = some e) :
    (∃ T, FunctionArrayElement.executeNumber T block arguments result index = some e) ∨
    FunctionArrayElement.executeConst block arguments result index = some e ∨
    FunctionArrayElement.executeString block arguments result index = some e := by
  unfold FunctionArrayElement.dispatch at h
  rcases orElse_eq_some h with h | h
  · exact Or.inl ⟨_, h⟩
  rcases orElse_eq_some h with h | h
  · exact Or.inl ⟨_, h⟩
  rcases orElse_eq_some h with h | h
  · exact Or.inl ⟨_, h⟩
  rcases orElse_eq_some h with h | h
  · exact Or.inl ⟨_, h⟩
  rcases orElse_eq_some h with h | h
  · exact Or.inl ⟨_, h⟩
  rcases orElse_eq_some h with h | h
  · exact Or.inl ⟨_, h⟩
  rcases orElse_eq_some h with h | h
  · exact Or.inl ⟨_, h⟩
  rcases orElse_eq_some h with h | h
  · exact Or.inl ⟨_, h⟩
  rcases orElse_eq_some h with h | h
  · exact Or.inl ⟨_, h⟩
  rcases orElse_eq_some h with h | h
  · exact Or.inl ⟨_, h⟩
  rcases orElse_eq_some h with h | h
  · exact Or.inr (Or.inl h)
  · exact Or.inr (Or.inr h)

/-- Every run of `FunctionArrayElement::execute` either throws and leaves the
block as it was, or has no defined outcome, or returns normally after assigning
the result column once; the result column is then one of three shapes. -/
theorem FunctionArrayElement_execute_shape (block : Block) (arguments : List Nat)
    (result : Nat) :
    (∃ x, FunctionArrayElement.execute block arguments result = .throw x block) ∨
    (FunctionArrayElement.execute block arguments result).exception = some .Undefined ∨
    ∃ a0 a1 c0 c1 c, arguments[0]? = some a0 ∧ arguments[1]? = some a1 ∧
      Block.column block a0 = some c0 ∧ Block.column block a1 = some c1 ∧
      result < block.length ∧
      FunctionArrayElement.execute block arguments result = .assign block result c ∧
      ((∃ T data offsets res, c0 = .array (.vector T data) offsets ∧ result ≠ a0 ∧
          c = .vector T res ∧ res.length = offsets.length) ∨
        (∃ data string_offsets offsets rd ro, c0 = .array (.string data string_offsets) offsets ∧
          result ≠ a0 ∧ c = .string rd ro ∧ ro.length = offsets.length) ∨
        (∃ s0 A value first, c0 = .const s0 (.array A) ∧ value ∈ A ∧
          Block.column block 0 = some first ∧ c = .const first.size value)) := by
  unfold FunctionArrayElement.execute
  cases ha1 : arguments[1]? with
  | none => exact Or.inl ⟨_, rfl⟩
  | some a1 =>
    simp only
    cases hc1 : Block.column block a1 with
    | none => exact Or.inl ⟨_, rfl⟩
    | some c1 =>
      simp only
      by_cases hconst : (!c1.isConst) = true
      · rw [if_pos hconst]
        exact Or.inl ⟨_, rfl⟩
      · rw [if_neg hconst]
        cases hv : c1.constValue with
        | none => exact Or.inl ⟨_, rfl⟩
        | some value =>
          cases value with
          | int64 v => exact Or.inl ⟨_, rfl⟩
          | float64 v => exact Or.inl ⟨_, rfl⟩
          | string v => exact Or.inl ⟨_, rfl⟩
          | array v => exact Or.inl ⟨_, rfl⟩
          | uint64 k =>
            simp only
            by_cases hk : k = 0
            · rw [if_pos hk]
              exact Or.inl ⟨_, rfl⟩
            · rw [if_neg hk]
              cases hd : FunctionArrayElement.dispatch block arguments result (sub64 k 1) with
              | none => exact Or.inl ⟨_, rfl⟩
              | some e =>
                simp only
                rcases FunctionArrayElement_dispatch_cases hd with ⟨T, h⟩ | h | h
                · rcases FunctionArrayElement_executeNumber_cases h with h | h
                  · exact Or.inr (Or.inl h)
                  · obtain ⟨a0, data, offsets, res, ha0, hc0, hrun, hres, hne, he⟩ := h
                    exact Or.inr (Or.inr ⟨a0, a1, _, c1, _, ha0, rfl, hc0, hc1, hres, he,
                      Or.inl ⟨T, data, offsets, res, rfl, hne, rfl,
                        ArrayElementNumImpl_vector_length hrun⟩⟩)
                · rcases FunctionArrayElement_executeConst_cases h with h | h | h
                  · exact Or.inl ⟨_, h⟩
                  · obtain ⟨_, _, _, _, _, _, he⟩ := h
                    exact Or.inl ⟨_, he⟩
                  · obtain ⟨a0, s0, A, value, first, ha0, hc0, hval, hfirst, hres, he⟩ := h
                    exact Or.inr (Or.inr ⟨a0, a1, _, c1, _, ha0, rfl, hc0, hc1, hres, he,
                      Or.inr (Or.inr ⟨s0, A, value, first, rfl, List.getElem?_mem hval,
                        hfirst, rfl⟩)⟩)
                · rcases FunctionArrayElement_executeString_cases h with h | h
                  · exact Or.inr (Or.inl h)
                  · obtain ⟨a0, data, so, offsets, rd, ro, ha0, hc0, hrun, hres, hne, he⟩ := h
                    exact Or.inr (Or.inr ⟨a0, a1, _, c1, _, ha0, rfl, hc0, hc1, hres, he,
                      Or.inr (Or.inl ⟨data, so, offsets, rd, ro, rfl, hne, rfl,
                        ArrayElementStringImpl_vector_length hrun⟩)⟩)

/-! ## Shapes of the outcomes of `has` -/

theorem ArrayHasNumImpl_vectorLoop_length {T : Type} [BEq T] (data : List T)
    (offsets : List Nat) (value : T) : ∀ (n i cur : Nat) (result r : List Nat),
      ArrayHasNumImpl.vectorLoop data offsets value n i cur result = some r →
      r.length = result.length := by
  intro n
  induction n with
  | zero =>
    intro i cur result r h
    simp only [ArrayHasNumImpl.vectorLoop, Option.some.injEq] at h
    rw [← h]
  | succ n ih =>
    intro i cur result r h
    rw [ArrayHasNumImpl.vectorLoop] at h
    split at h
    · cases h
    · simp only at h
      split at h
      · cases h
      · rw [ih _ _ _ _ h]
        split
        · rw [List.length_set]
        · rfl

theorem ArrayHasNumImpl_vector_length {T : Type} [BEq T] {data : List T}
    {offsets : List Nat} {value : T} {r : List Nat}
    (h : ArrayHasNumImpl.vector data offsets value [] = some r) :
    r.length = offsets.length := by
  unfold ArrayHasNumImpl.vector at h
  rw [ArrayHasNumImpl_vectorLoop_length _ _ _ _ _ _ _ _ h, resize_length]

theorem ArrayHasStringImpl_vectorLoop_length (data offsets string_offsets value : List Nat) :
    ∀ (n i cur : Nat) (result r : List Nat),
      ArrayHasStringImpl.vectorLoop data offsets string_offsets value n i cur result = some r →
      r.length = result.length := by
  intro n
  induction n with
  | zero =>
    intro i cur result r h
    simp only [ArrayHasStringImpl.vectorLoop, Option.some.injEq] at h
    rw [← h]
  | succ n ih =>
    intro i cur result r h
    rw [ArrayHasStringImpl.vectorLoop] at h
    split at h
    · cases h
    · simp only at h
      split at h
      · cases h
      · rw [ih _ _ _ _ h]
        split
        · rw [List.length_set]
        · rfl

theorem ArrayHasStringImpl_vector_length {data offsets string_offsets value : List Nat}
    {r : List Nat}
    (h : ArrayHasStringImpl.vector data offsets string_offsets value [] = some r) :
    r.length = offsets.length := by
  unfold ArrayHasStringImpl.vector at h
  rw [ArrayHasStringImpl_vectorLoop_length _ _ _ _ _ _ _ _ _ h, resize_length]

theorem FunctionHas_executeNumber_cases {toFloat32 : Nat → Nat} {T : NumKind} {block : Block}
    {arguments : List Nat} {result : Nat} {value : Field} {e : Executed}
    (h : FunctionHas.executeNumber toFloat32 T block arguments result value = some e) :
    e.exception = some .Undefined ∨
    (∃ a0 data offsets block1, arguments[0]? = some a0 ∧
      Block.column block a0 = some (.array (.vector T data) offsets) ∧
      Block.setColumn block result (.vector .UInt8 []) = some block1 ∧ result ≠ a0 ∧
      T.narrow toFloat32 value = none ∧ e = .throw .BadGet block1) ∨
    ∃ a0 data offsets needle res, arguments[0]? = some a0 ∧
      Block.column block a0 = some (.array (.vector T data) offsets) ∧
      T.narrow toFloat32 value = some needle ∧
      @ArrayHasNumImpl.vector Int ⟨T.eq⟩ data offsets needle [] = some res ∧
      result < block.length ∧ result ≠ a0 ∧
      e = .assign block result (.vector .UInt8 (res.map Int.ofNat)) := by
  unfold FunctionHas.executeNumber at h
  cases ha : arguments[0]? with
  | none =>
    simp only [ha, Option.some.injEq] at h
    subst h
    exact Or.inl rfl
  | some a0 =>
    simp only [ha] at h
    cases hc : Block.column block a0 with
    | none =>
      simp only [hc, Option.some.injEq] at h
      subst h
      exact Or.inl rfl
    | some c =>
      cases c with
      | vector kind data => simp [hc] at h
      | string data offsets => simp [hc] at h
      | const s v => simp [hc] at h
      | array nested offsets =>
        cases nested with
        | string data so => simp [hc] at h
        | const s v => simp [hc] at h
        | array d o => simp [hc] at h
        | vector kind data =>
          simp only [hc] at h
          by_cases hk : kind = T
          · subst hk
            simp only [if_true] at h
            cases hs : Block.setColumn block result (.vector .UInt8 []) with
            | none =>
              simp only [hs, Option.some.injEq] at h
              subst h
              exact Or.inl rfl
            | some block1 =>
              simp only [hs] at h
              by_cases hal : result = a0
              · simp only [hal, if_true, Option.some.injEq] at h
                subst h
                exact Or.inl rfl
              · simp only [if_neg hal] at h
                cases hn : kind.narrow toFloat32 value with
                | none =>
                  simp only [hn, Option.some.injEq] at h
                  subst h
                  exact Or.inr (Or.inl ⟨a0, data, offsets, block1, rfl, hc, rfl, hal, rfl, rfl⟩)
                | some needle =>
                  simp only [hn] at h
                  cases hr : @ArrayHasNumImpl.vector Int ⟨kind.eq⟩ data offsets needle [] with
                  | none =>
                    simp only [hr, Option.some.injEq] at h
                    subst h
                    exact Or.inl rfl
                  | some res =>
                    simp only [hr, Option.some.injEq] at h
                    subst h
                    exact Or.inr (Or.inr ⟨a0, data, offsets, needle, res, rfl, hc, rfl, hr,
                      Block.setColumn_some_lt hs, hal, Executed.assign_setColumn hs _⟩)
          · simp [hk] at h

theorem FunctionHas_executeString_cases {block : Block}
    {arguments : List Nat} {result : Nat} {value : Field} {e : Executed}
    (h : FunctionHas.executeString block arguments result value = some e) :
    e.exception = some .Undefined ∨
    (∃ a0 data string_offsets offsets block1, arguments[0]? = some a0 ∧
      Block.column block a0 = some (.array (.string data string_offsets) offsets) ∧
      Block.setColumn block result (.vector .UInt8 []) = some block1 ∧ result ≠ a0 ∧
      (∀ needle, value ≠ .string needle) ∧ e = .throw .BadGet block1) ∨
    ∃ a0 data string_offsets offsets needle res, arguments[0]? = some a0 ∧
      Block.column block a0 = some (.array (.string data string_offsets) offsets) ∧
      value = .string needle ∧
      ArrayHasStringImpl.vector data offsets string_offsets needle [] = some res ∧
      result < block.length ∧ result ≠ a0 ∧
      e = .assign block result (.vector .UInt8 (res.map Int.ofNat)) := by
  unfold FunctionHas.executeString at h
  cases ha : arguments[0]? with
  | none =>
    simp only [ha, Option.some.injEq] at h
    subst h
    exact Or.inl rfl
  | some a0 =>
    simp only [ha] at h
    cases hc : Block.column block a0 with
    | none =>
      simp only [hc, Option.some.injEq] at h
      subst h
      exact Or.inl rfl
    | some c =>
      cases c with
      | vector kind data => simp [hc] at h
      | string data offsets => simp [hc] at h
      | const s v => simp [hc] at h
      | array nested offsets =>
        cases nested with
        | vector kind data => simp [hc] at h
        | const s v => simp [hc] at h
        | array d o => simp [hc] at h
        | string data so =>
          simp only [hc] at h
          cases hs : Block.setColumn block result (.vector .UInt8 []) with
          | none =>
            simp only [hs, Option.some.injEq] at h
            subst h
            exact Or.inl rfl
          | some block1 =>
            simp only [hs] at h
            by_cases hal : result = a0
            · simp only [hal, if_true, Option.some.injEq] at h
              subst h
              exact Or.inl rfl
            · simp only [if_neg hal] at h
              cases value with
              | uint64 v =>
                exact Or.inr (Or.inl ⟨a0, data, so, offsets, block1, rfl, hc, rfl, hal,
                  (fun _ hh => Field.noConfusion hh), (Option.some.inj h).symm⟩)
              | int64 v =>
                exact Or.inr (Or.inl ⟨a0, data, so, offsets, block1, rfl, hc, rfl, hal,
                  (fun _ hh => Field.noConfusion hh), (Option.some.inj h).symm⟩)
              | float64 v =>
                exact Or.inr (Or.inl ⟨a0, data, so, offsets, block1, rfl, hc, rfl, hal,
                  (fun _ hh => Field.noConfusion hh), (Option.some.inj h).symm⟩)
              | array v =>
                exact Or.inr (Or.inl ⟨a0, data, so, offsets, block1, rfl, hc, rfl, hal,
                  (fun _ hh => Field.noConfusion hh), (Option.some.inj h).symm⟩)
              | string needle =>
                simp only at h
                cases hr : ArrayHasStringImpl.vector data offsets so needle [] with
                | none =>
                  simp only [hr, Option.some.injEq] at h
                  subst h
                  exact Or.inl rfl
                | some res =>
                  simp only [hr, Option.some.injEq] at h
                  subst h
                  exact Or.inr (Or.inr ⟨a0, data, so, offsets, needle, res, rfl, hc, rfl, hr,
                    Block.setColumn_some_lt hs, hal, Executed.assign_setColumn hs _⟩)

theorem FunctionHas_executeConst_cases {block : Block}
    {arguments : List Nat} {result : Nat} {value : Field} {e : Executed}
    (h : FunctionHas.executeConst block arguments result value = some e) :
    e = .throw .Undefined block ∨
    ∃ a0 s0 A first, arguments[0]? = some a0 ∧
      Block.column block a0 = some (.const s0 (.array A)) ∧
      Block.column block 0 = some first ∧ result < block.length ∧
      e = .assign block result
        (.const first.size (.uint64 (if FunctionHas.executeConst.found value A then 1 else 0))) := by
  unfold FunctionHas.executeConst at h
  cases ha : arguments[0]? with
  | none =>
    simp only [ha, Option.some.injEq] at h
    exact Or.inl h.symm
  | some a0 =>
    simp only [ha] at h
    cases hc : Block.column block a0 with
    | none =>
      simp only [hc, Option.some.injEq] at h
      exact Or.inl h.symm
    | some c =>
      cases c with
      | vector kind data => simp [hc] at h
      | string data offsets => simp [hc] at h
      | array nested offsets => simp [hc] at h
      | const s0 v =>
        cases v with
        | uint64 v => simp [hc] at h
        | int64 v => simp [hc] at h
        | float64 v => simp [hc] at h
        | string v => simp [hc] at h
        | array A =>
          simp only [hc] at h
          cases hr : block[result]? with
          | none =>
            simp only [hr, Option.some.injEq] at h
            exact Or.inl h.symm
          | some res =>
            cases hf : Block.column block 0 with
            | none =>
              simp only [hr, hf, Option.some.injEq] at h
              exact Or.inl h.symm
            | some first =>
              simp only [hr, hf, Option.some.injEq, DataType.createConstColumn] at h
              refine Or.inr ⟨a0, s0, A, first, rfl, hc, rfl, ?_, h.symm⟩
              by_contra hge
              rw [List.getElem?_eq_none (by omega)] at hr
              cases hr

theorem FunctionHas_dispatch_cases {toFloat32 : Nat → Nat} {block : Block}
    {arguments : List Nat} {result : Nat} {value : Field} {e : Executed}
    (h : FunctionHas.dispatch toFloat32 block arguments result value = some e) :
    (∃ T, FunctionHas.executeNumber toFloat32 T block arguments result value = some e) ∨
    FunctionHas.executeConst block arguments result value = some e ∨
    FunctionHas.executeString block arguments result value = some e := by
  unfold FunctionHas.dispatch at h
  rcases orElse_eq_some h with h | h
  · exact Or.inl ⟨_, h⟩
  rcases orElse_eq_some h with h | h
  · exact Or.inl ⟨_, h⟩
  rcases orElse_eq_some h with h | h
  · exact Or.inl ⟨_, h⟩
  rcases orElse_eq_some h with h | h
  · exact Or.inl ⟨_, h⟩
  rcases orElse_eq_some h with h | h
  · exact Or.inl ⟨_, h⟩
  rcases orElse_eq_some h with h | h
  · exact Or.inl ⟨_, h⟩
  rcases orElse_eq_some h with h | h
  · exact Or.inl ⟨_, h⟩
  rcases orElse_eq_some h with h | h
  · exact Or.inl ⟨_, h⟩
  rcases orElse_eq_some h with h | h
  · exact Or.inl ⟨_, h⟩
  rcases orElse_eq_some h with h | h
  · exact Or.inl ⟨_, h⟩
  rcases orElse_eq_some h with h | h
  · exact Or.inr (Or.inl h)
  · exact Or.inr (Or.inr h)

/-- Every run of `FunctionHas::execute` either throws and leaves the block as it
was, or has no defined outcome, or fails to extract the needle after the empty
result column was attached, or returns normally after assigning the result
column; the result column is then one of three shapes. -/
theorem FunctionHas_execute_shape (toFloat32 : Nat → Nat) (block : Block)
    (arguments : List Nat) (result : Nat) :
    (∃ x, x ≠ .BadGet ∧
      FunctionHas.execute toFloat32 block arguments result = .throw x block) ∨
    (FunctionHas.execute toFloat32 block arguments result).exception = some .Undefined ∨
    (∃ block1, Block.setColumn block result (.vector .UInt8 []) = some block1 ∧
      FunctionHas.execute toFloat32 block arguments result = .throw .BadGet block1) ∨
    ∃ a0 a1 c0 c1 c, arguments[0]? = some a0 ∧ arguments[1]? = some a1 ∧
      Block.column block a0 = some c0 ∧ Block.column block a1 = some c1 ∧
      result < block.length ∧
      FunctionHas.execute toFloat32 block arguments result = .assign block result c ∧
      ((∃ T data offsets res, c0 = .array (.vector T data) offsets ∧ result ≠ a0 ∧
          c = .vector .UInt8 res ∧ res.length = offsets.length) ∨
        (∃ data string_offsets offsets res, c0 = .array (.string data string_offsets) offsets ∧
          result ≠ a0 ∧ c = .vector .UInt8 res ∧ res.length = offsets.length) ∨
        (∃ s0 A bit first, c0 = .const s0 (.array A) ∧ (bit = 0 ∨ bit = 1) ∧
          Block.column block 0 = some first ∧ c = .const first.size (.uint64 bit))) := by
  unfold FunctionHas.execute
  cases ha1 : arguments[1]? with
  | none => exact Or.inl ⟨_, by decide, rfl⟩
  | some a1 =>
    simp only
    cases hc1 : Block.column block a1 with
    | none => exact Or.inl ⟨_, by decide, rfl⟩
    | some c1 =>
      simp only
      by_cases hconst : (!c1.isConst) = true
      · rw [if_pos hconst]
        exact Or.inl ⟨_, by decide, rfl⟩
      · rw [if_neg hconst]
        cases hv : c1.constValue with
        | none => exact Or.inl ⟨_, by decide, rfl⟩
        | some value =>
          simp only
          cases hd : FunctionHas.dispatch toFloat32 block arguments result value with
          | none => exact Or.inl ⟨_, by decide, rfl⟩
          | some e =>
            simp only
            rcases FunctionHas_dispatch_cases hd with ⟨T, h⟩ | h | h
            · rcases FunctionHas_executeNumber_cases h with h | h | h
              · exact Or.inr (Or.inl h)
              · obtain ⟨a0, data, offsets, block1, _, _, hs, _, _, he⟩ := h
                exact Or.inr (Or.inr (Or.inl ⟨block1, hs, he⟩))
              · obtain ⟨a0, data, offsets, needle, res, ha0, hc0, _, hrun, hres, hne, he⟩ := h
                exact Or.inr (Or.inr (Or.inr ⟨a0, a1, _, c1, _, ha0, rfl, hc0, hc1, hres, he,
                  Or.inl ⟨T, data, offsets, _, rfl, hne, rfl, by
                    rw [List.length_map]
                    exact @ArrayHasNumImpl_vector_length Int ⟨T.eq⟩ _ _ _ _ hrun⟩⟩))
            · rcases FunctionHas_executeConst_cases h with h | h
              · exact Or.inl ⟨_, by decide, h⟩
              · obtain ⟨a0, s0, A, first, ha0, hc0, hfirst, hres, he⟩ := h
                refine Or.inr (Or.inr (Or.inr ⟨a0, a1, _, c1, _, ha0, rfl, hc0, hc1, hres, he,
                  Or.inr (Or.inr ⟨s0, A, _, first, rfl, ?_, hfirst, rfl⟩)⟩))
                split
                · exact Or.inr rfl
                · exact Or.inl rfl
            · rcases FunctionHas_executeString_cases h with h | h | h
              · exact Or.inr (Or.inl h)
              · obtain ⟨a0, data, so, offsets, block1, _, _, hs, _, _, he⟩ := h
                exact Or.inr (Or.inr (Or.inl ⟨block1, hs, he⟩))
              · obtain ⟨a0, data, so, offsets, needle, res, ha0, hc0, _, hrun, hres, hne, he⟩ := h
                exact Or.inr (Or.inr (Or.inr ⟨a0, a1, _, c1, _, ha0, rfl, hc0, hc1, hres, he,
                  Or.inr (Or.inl ⟨data, so, offsets, _, rfl, hne, rfl, by
                    rw [List.length_map, ArrayHasStringImpl_vector_length hrun]⟩)⟩))

/-! ## `has` over a constant array -/

theorem FunctionHas.executeConst.found_iff (value : Field) (A : List Field) :
    FunctionHas.executeConst.found value A = true ↔ ∃ x ∈ A, Field.eq x value = true := by
  induction A with
  | nil => simp [FunctionHas.executeConst.found]
  | cons x rest ih =>
    rw [FunctionHas.executeConst.found]
    by_cases hx : Field.eq x value = true
    · rw [if_pos hx]
      simp only [true_iff]
      exact ⟨x, List.mem_cons_self _ _, hx⟩
    · rw [if_neg hx, ih]
      constructor
      · rintro ⟨y, hy, h⟩
        exact ⟨y, List.mem_cons_of_mem _ hy, h⟩
      · rintro ⟨y, hy, h⟩
        rcases List.mem_cons.1 hy with rfl | hy
        · exact absurd h hx
        · exact ⟨y, hy, h⟩

theorem Field.eq_false_of_which (x y : Field) (h : x.which ≠ y.which) : Field.eq x y = false := by
  cases x <;> cases y <;> first | rfl | exact absurd rfl h

theorem FunctionHas_execute_const_spec (toFloat32 : Nat → Nat) {block : Block}
    {a0 a1 result s s0 : Nat} {A : List Field} {value : Field} {first : Column}
    (h1 : Block.column block a1 = some (.const s value))
    (h0 : Block.column block a0 = some (.const s0 (.array A)))
    (hres : result < block.length) (hfirst : Block.column block 0 = some first) :
    FunctionHas.execute toFloat32 block [a0, a1] result
      = .assign block result
          (.const first.size (.uint64 (if FunctionHas.executeConst.found value A then 1 else 0))) := by
  have hn : ∀ T, FunctionHas.executeNumber toFloat32 T block [a0, a1] result value = none := by
    intro T
    simp [FunctionHas.executeNumber, h0]
  have hc : FunctionHas.executeConst block [a0, a1] result value
      = some (.assign block result (.const first.size
          (.uint64 (if FunctionHas.executeConst.found value A then 1 else 0)))) := by
    simp [FunctionHas.executeConst, h0, hfirst, List.getElem?_eq_getElem hres,
      DataType.createConstColumn]
  simp [FunctionHas.execute, h1, Column.isConst, Column.constValue, FunctionHas.dispatch, hn, hc]

/-! ## The block after an exception -/

theorem Executed.assign_block_of_exception {block : Block} {result : Nat} {c : Column}
    {x : Exception} (h : (Executed.assign block result c).exception = some x) :
    (Executed.assign block result c).block = block := by
  unfold Executed.assign at h ⊢
  cases hs : Block.setColumn block result c with
  | none => rfl
  | some b1 =>
    rw [hs] at h
    cases h

theorem FunctionArray.execute_block_of_exception {block : Block} {arguments : List Nat}
    {result : Nat} {x : Exception}
    (h : (FunctionArray.execute block arguments result).exception = some x) :
    (FunctionArray.execute block arguments result).block = block := by
  unfold FunctionArray.execute at h ⊢
  cases arguments with
  | nil =>
    cases hc : FunctionArray.execute.check block [] with
    | some e => rfl
    | none =>
      cases hf : FunctionArray.execute.fill block [] with
      | none => rfl
      | some arr => rfl
  | cons a0 rest =>
    cases hc : FunctionArray.execute.check block (a0 :: rest) with
    | some e => rfl
    | none =>
      cases hf : FunctionArray.execute.fill block (a0 :: rest) with
      | none => rfl
      | some arr =>
        cases h0 : Block.column block a0 with
        | none =>
          simp only [h0]
          rfl
        | some c0 =>
          simp only [hc, hf, h0] at h ⊢
          exact Executed.assign_block_of_exception h

theorem Block.column_setColumn {block block1 : Block} {result : Nat} {c : Column}
    (h : Block.setColumn block result c = some block1) : Block.column block1 result = some c := by
  have hlt := Block.setColumn_some_lt h
  unfold Block.setColumn at h
  rw [List.getElem?_eq_getElem hlt] at h
  simp only [Option.some.injEq] at h
  subst h
  simp [Block.column, List.getElem?_set_eq_of_lt _ hlt]

/-! ## The block after a normal return -/

theorem Executed.assign_frame {block : Block} {result : Nat} {c : Column}
    (h : (Executed.assign block result c).exception = none) :
    FrameKept block result (Executed.assign block result c).block := by
  have hlt : result < block.length := by
    by_contra hge
    unfold Executed.assign Block.setColumn at h
    rw [List.getElem?_eq_none (by omega)] at h
    cases h
  have ha := Executed.assign_of_lt block result c hlt
  refine ⟨ha.2.2.1, ha.2.2.2, block[result], c, List.getElem?_eq_getElem hlt, ?_⟩
  unfold Executed.assign Block.setColumn
  rw [List.getElem?_eq_getElem hlt]
  simp only
  rw [List.getElem?_set_eq_of_lt _ hlt]

theorem FunctionArray.execute_success {block : Block} {arguments : List Nat} {result : Nat}
    (h : (FunctionArray.execute block arguments result).exception = none) :
    ∃ c, FunctionArray.execute block arguments result = .assign block result c := by
  unfold FunctionArray.execute at h ⊢
  cases arguments with
  | nil =>
    cases hc : FunctionArray.execute.check block [] with
    | some e =>
      rw [hc] at h
      cases h
    | none =>
      cases hf : FunctionArray.execute.fill block [] with
      | none =>
        rw [hc, hf] at h
        cases h
      | some arr =>
        rw [hc, hf] at h
        cases h
  | cons a0 rest =>
    cases hc : FunctionArray.execute.check block (a0 :: rest) with
    | some e =>
      rw [hc] at h
      cases h
    | none =>
      cases hf : FunctionArray.execute.fill block (a0 :: rest) with
      | none =>
        rw [hc, hf] at h
        cases h
      | some arr =>
        cases h0 : Block.column block a0 with
        | none =>
          simp only [hc, hf, h0] at h
          cases h
        | some c0 =>
          simp only [h0]
          exact ⟨_, rfl⟩

/-! ## What a run observes of the block -/

theorem Executed.outcome_throw (x : Exception) (block : Block) (result : Nat) :
    (Executed.throw x block).outcome result = (some x, none) := rfl

theorem Executed.outcome_assign (block : Block) (result : Nat) (c : Column) :
    (Executed.assign block result c).outcome result
      = if result < block.length then (none, some c) else (some .Undefined, none) := by
  by_cases h : result < block.length
  · have ha := Executed.assign_of_lt block result c h
    rw [if_pos h]
    unfold Executed.outcome
    rw [ha.1]
    simp only
    rw [ha.2.1]
  · rw [if_neg h]
    unfold Executed.assign Block.setColumn
    rw [List.getElem?_eq_none (by omega)]
    rfl

theorem Block.setColumn_eq_none {block : Block} {result : Nat} (c : Column)
    (h : ¬ result < block.length) : Block.setColumn block result c = none := by
  unfold Block.setColumn
  rw [List.getElem?_eq_none (by omega)]

theorem FunctionArrayElement_dispatch_missing {block : Block} {a0 : Nat} (rest : List Nat)
    (result index : Nat) (h0 : Block.column block a0 = none) :
    FunctionArrayElement.dispatch block (a0 :: rest) result index
      = some (.throw .Undefined block) := by
  simp [FunctionArrayElement.dispatch, FunctionArrayElement.executeNumber, h0]

theorem FunctionArrayElement_dispatch_unsupported {block : Block} {a0 : Nat} (rest : List Nat)
    (result index : Nat) {c0 : Column} (h0 : Block.column block a0 = some c0)
    (hsupp : c0.supported = false) :
    FunctionArrayElement.dispatch block (a0 :: rest) result index = none := by
  cases c0 with
  | vector kind data =>
    simp [FunctionArrayElement.dispatch, FunctionArrayElement.executeNumber,
      FunctionArrayElement.executeConst, FunctionArrayElement.executeString, h0]
  | string data offsets =>
    simp [FunctionArrayElement.dispatch, FunctionArrayElement.executeNumber,
      FunctionArrayElement.executeConst, FunctionArrayElement.executeString, h0]
  | const s v =>
    cases v with
    | array A => simp [Column.supported] at hsupp
    | uint64 v =>
      simp [FunctionArrayElement.dispatch, FunctionArrayElement.executeNumber,
        FunctionArrayElement.executeConst, FunctionArrayElement.executeString, h0]
    | int64 v =>
      simp [FunctionArrayElement.dispatch, FunctionArrayElement.executeNumber,
        FunctionArrayElement.executeConst, FunctionArrayElement.executeString, h0]
    | float64 v =>
      simp [FunctionArrayElement.dispatch, FunctionArrayElement.executeNumber,
        FunctionArrayElement.executeConst, FunctionArrayElement.executeString, h0]
    | string v =>
      simp [FunctionArrayElement.dispatch, FunctionArrayElement.executeNumber,
        FunctionArrayElement.executeConst, FunctionArrayElement.executeString, h0]
  | array nested offsets =>
    cases nested with
    | vector kind data => simp [Column.supported] at hsupp
    | string data so => simp [Column.supported] at hsupp
    | const s v =>
      simp [FunctionArrayElement.dispatch, FunctionArrayElement.executeNumber,
        FunctionArrayElement.executeConst, FunctionArrayElement.executeString, h0]
    | array d o =>
      simp [FunctionArrayElement.dispatch, FunctionArrayElement.executeNumber,
        FunctionArrayElement.executeConst, FunctionArrayElement.executeString, h0]

theorem FunctionArrayElement_dispatch_number_outcome {block : Block} {a0 : Nat}
    (rest : List Nat) (result index : Nat) {T : NumKind} {data : List Int}
    {offsets : List Nat}
    (h0 : Block.column block a0 = some (.array (.vector T data) offsets)) :
    ∃ e, FunctionArrayElement.dispatch block (a0 :: rest) result index = some e ∧
      e.outcome result
        = if result < block.length ∧ result ≠ a0 then
            match ArrayElementNumImpl.vector data offsets index [] with
            | some res => (none, some (.vector T res))
            | none => (some .Undefined, none)
          else (some .Undefined, none) := by
  have ho := fun K (hK : T ≠ K) =>
    FunctionArrayElement_executeNumber_other rest result index h0 hK
  have hm : ∃ e, FunctionArrayElement.executeNumber T block (a0 :: rest) result index = some e ∧
      e.outcome result
        = if result < block.length ∧ result ≠ a0 then
            match ArrayElementNumImpl.vector data offsets index [] with
            | some res => (none, some (.vector T res))
            | none => (some .Undefined, none)
          else (some .Undefined, none) := by
    by_cases hres : result < block.length
    · obtain ⟨block1, hb1⟩ := Block.setColumn_of_lt block result (.vector T []) hres
      by_cases hne : result = a0
      · subst hne
        refine ⟨.throw .Undefined block1, ?_, ?_⟩
        · simp [FunctionArrayElement.executeNumber, h0, hb1]
        · simp [Executed.outcome_throw]
      · cases hrun : ArrayElementNumImpl.vector data offsets index [] with
        | none =>
          refine ⟨.throw .Undefined block1, ?_, ?_⟩
          · simp [FunctionArrayElement.executeNumber, h0, hb1, hne, hrun]
          · simp [Executed.outcome_throw, hne, hres]
        | some res =>
          refine ⟨.assign block result (.vector T res), ?_, ?_⟩
          · simp [FunctionArrayElement.executeNumber, h0, hb1, hne, hrun,
              Executed.assign_setColumn hb1]
          · simp [Executed.outcome_assign, hne, hres]
    · refine ⟨.throw .Undefined block, ?_, ?_⟩
      · simp [FunctionArrayElement.executeNumber, h0, Block.setColumn_eq_none _ hres]
      · simp [Executed.outcome_throw, hres]
  obtain ⟨e, he, hout⟩ := hm
  refine ⟨e, ?_, hout⟩
  unfold FunctionArrayElement.dispatch
  cases T <;> simp [he, ho]

theorem FunctionArrayElement_dispatch_string_outcome {block : Block} {a0 : Nat}
    (rest : List Nat) (result index : Nat) {data string_offsets offsets : List Nat}
    (h0 : Block.column block a0 = some (.array (.string data string_offsets) offsets)) :
    ∃ e, FunctionArrayElement.dispatch block (a0 :: rest) result index = some e ∧
      e.outcome result
        = if result < block.length ∧ result ≠ a0 then
            match ArrayElementStringImpl.vector data offsets string_offsets index [] [] with
            | some (rd, ro) => (none, some (.string rd ro))
            | none => (some .Undefined, none)
          else (some .Undefined, none) := by
  have ho : ∀ K, FunctionArrayElement.executeNumber K block (a0 :: rest) result index = none := by
    intro K
    simp [FunctionArrayElement.executeNumber, h0]
  have hc : FunctionArrayElement.executeConst block (a0 :: rest) result index = none := by
    simp [FunctionArrayElement.executeConst, h0]
  have hm : ∃ e, FunctionArrayElement.executeString block (a0 :: rest) result index = some e ∧
      e.outcome result
        = if result < block.length ∧ result ≠ a0 then
            match ArrayElementStringImpl.vector data offsets string_offsets index [] [] with
            | some (rd, ro) => (none, some (.string rd ro))
            | none => (some .Undefined, none)
          else (some .Undefined, none) := by
    by_cases hres : result < block.length
    · obtain ⟨block1, hb1⟩ := Block.setColumn_of_lt block result (.string [] []) hres
      by_cases hne : result = a0
      · subst hne
        refine ⟨.throw .Undefined block1, ?_, ?_⟩
        · simp [FunctionArrayElement.executeString, h0, hb1]
        · simp [Executed.outcome_throw]
      · cases hrun : ArrayElementStringImpl.vector data offsets string_offsets index [] [] with
        | none =>
          refine ⟨.throw .Undefined block1, ?_, ?_⟩
          · simp [FunctionArrayElement.executeString, h0, hb1, hne, hrun]
          · simp [Executed.outcome_throw, hne, hres]
        | some r =>
          obtain ⟨rd, ro⟩ := r
          refine ⟨.assign block result (.string rd ro), ?_, ?_⟩
          · simp [FunctionArrayElement.executeString, h0, hb1, hne, hrun,
              Executed.assign_setColumn hb1]
          · simp [Executed.outcome_assign, hne, hres]
    · refine ⟨.throw .Undefined block, ?_, ?_⟩
      · simp [FunctionArrayElement.executeString, h0, Block.setColumn_eq_none _ hres]
      · simp [Executed.outcome_throw, hres]
  obtain ⟨e, he, hout⟩ := hm
  refine ⟨e, ?_, hout⟩
  unfold FunctionArrayElement.dispatch
  simp [he, ho, hc]

theorem FunctionArrayElement_dispatch_const_outcome {block : Block} {a0 : Nat}
    (rest : List Nat) (result index : Nat) {s0 : Nat} {A : List Field}
    (h0 : Block.column block a0 = some (.const s0 (.array A))) :
    ∃ e, FunctionArrayElement.dispatch block (a0 :: rest) result index = some e ∧
      e.outcome result
        = match A[index]? with
          | none => (some .IndexOutOfRangeError, none)
          | some value =>
            match (Block.column block 0).map Column.size with
            | some n =>
              if result < block.length then (none, some (.const n value))
              else (some .Undefined, none)
            | none => (some .Undefined, none) := by
  rw [FunctionArrayElement.dispatch_const h0]
  cases hv : A[index]? with
  | none =>
    refine ⟨.throw .IndexOutOfRangeError block, ?_, rfl⟩
    simp [FunctionArrayElement.executeConst, h0, hv]
  | some value =>
    cases hf : Block.column block 0 with
    | none =>
      refine ⟨.throw .Undefined block, ?_, rfl⟩
      simp [FunctionArrayElement.executeConst, h0, hv, hf]
    | some first =>
      by_cases hres : result < block.length
      · refine ⟨.assign block result (.const first.size value), ?_, ?_⟩
        · simp [FunctionArrayElement.executeConst, h0, hv, hf, List.getElem?_eq_getElem hres,
            DataType.createConstColumn]
        · simp [Executed.outcome_assign, hres]
      · refine ⟨.throw .Undefined block, ?_, ?_⟩
        · simp [FunctionArrayElement.executeConst, h0, hv, hf,
            List.getElem?_eq_none (show block.length ≤ result by omega)]
        · simp [Executed.outcome_throw, hres]

theorem SameArguments.result_iff {b1 b2 : Block} {arguments : List Nat} {result : Nat}
    (h : SameArguments b1 b2 arguments result) : result < b1.length ↔ result < b2.length := by
  have h2 := h.2
  constructor
  · intro h1
    by_contra hge
    rw [List.getElem?_eq_getElem h1, List.getElem?_eq_none (by omega)] at h2
    cases h2
  · intro h1
    by_contra hge
    rw [List.getElem?_eq_getElem h1, List.getElem?_eq_none (by omega)] at h2
    cases h2

/-- The dispatch of `arrayElement` gives the same outcome on two blocks that
agree on the array argument and on the existence of the result position, unless
the array argument is a constant array, the columns at position 0 differ in row
count, and the run on the first block throws none of the function's errors. -/
theorem FunctionArrayElement_dispatch_outcome_agree (b1 b2 : Block) (a0 : Nat)
    (rest : List Nat) (result index : Nat)
    (h0 : Block.column b1 a0 = Block.column b2 a0)
    (hres : result < b1.length ↔ result < b2.length) :
    (match FunctionArrayElement.dispatch b1 (a0 :: rest) result index with
      | some done => done
      | none => Executed.throw .UnsupportedColumnTypeError b1).outcome result
    = (match FunctionArrayElement.dispatch b2 (a0 :: rest) result index with
      | some done => done
      | none => Executed.throw .UnsupportedColumnTypeError b2).outcome result ∨
    ((∃ s0 A, Block.column b1 a0 = some (.const s0 (.array A))) ∧
      (Block.column b1 0).map Column.size ≠ (Block.column b2 0).map Column.size ∧
      ∀ x, x ≠ Exception.Undefined →
        (match FunctionArrayElement.dispatch b1 (a0 :: rest) result index with
          | some done => done
          | none => Executed.throw .UnsupportedColumnTypeError b1).outcome result
        ≠ (some x, none)) := by
  cases hc0 : Block.column b1 a0 with
  | none =>
    rw [FunctionArrayElement_dispatch_missing rest result index hc0,
      FunctionArrayElement_dispatch_missing rest result index (h0 ▸ hc0)]
    exact Or.inl rfl
  | some c0 =>
    have hc0' : Block.column b2 a0 = some c0 := h0 ▸ hc0
    cases hsupp : c0.supported with
    | false =>
      rw [FunctionArrayElement_dispatch_unsupported rest result index hc0 hsupp,
        FunctionArrayElement_dispatch_unsupported rest result index hc0' hsupp]
      exact Or.inl rfl
    | true =>
      cases c0 with
      | vector kind data => simp [Column.supported] at hsupp
      | string data offsets => simp [Column.supported] at hsupp
      | const s v =>
        cases v with
        | uint64 v => simp [Column.supported] at hsupp
        | int64 v => simp [Column.supported] at hsupp
        | float64 v => simp [Column.supported] at hsupp
        | string v => simp [Column.supported] at hsupp
        | array A =>
          obtain ⟨e1, hd1, ho1⟩ :=
            FunctionArrayElement_dispatch_const_outcome rest result index hc0
          obtain ⟨e2, hd2, ho2⟩ :=
            FunctionArrayElement_dispatch_const_outcome rest result index hc0'
          rw [hd1, hd2]
          simp only
          rw [ho1, ho2]
          cases hv : A[index]? with
          | none => exact Or.inl rfl
          | some value =>
            simp only
            by_cases hsz : (Block.column b1 0).map Column.size
                = (Block.column b2 0).map Column.size
            · left
              rw [hsz]
              simp only [hres]
            · right
              refine ⟨⟨s, A, rfl⟩, hsz, fun x hx => ?_⟩
              cases (Block.column b1 0).map Column.size with
              | none =>
                intro h
                exact hx (Option.some.inj (Prod.mk.inj h).1).symm
              | some n =>
                simp only
                by_cases hlt : result < b1.length
                · rw [if_pos hlt]
                  intro h
                  cases (Prod.mk.inj h).1
                · rw [if_neg hlt]
                  intro h
                  exact hx (Option.some.inj (Prod.mk.inj h).1).symm
      | array nested offsets =>
        cases nested with
        | const s v => simp [Column.supported] at hsupp
        | array d o => simp [Column.supported] at hsupp
        | vector kind data =>
          obtain ⟨e1, hd1, ho1⟩ :=
            FunctionArrayElement_dispatch_number_outcome rest result index hc0
          obtain ⟨e2, hd2, ho2⟩ :=
            FunctionArrayElement_dispatch_number_outcome rest result index hc0'
          rw [hd1, hd2]
          simp only
          rw [ho1, ho2]
          left
          simp only [hres]
        | string data so =>
          obtain ⟨e1, hd1, ho1⟩ :=
            FunctionArrayElement_dispatch_string_outcome rest result index hc0
          obtain ⟨e2, hd2, ho2⟩ :=
            FunctionArrayElement_dispatch_string_outcome rest result index hc0'
          rw [hd1, hd2]
          simp only
          rw [ho1, ho2]
          left
          simp only [hres]

theorem FunctionArrayElement_execute_outcome_agree (b1 b2 : Block) (arguments : List Nat)
    (result : Nat) (hsame : SameArguments b1 b2 arguments result) :
    (FunctionArrayElement.execute b1 arguments result).outcome result
      = (FunctionArrayElement.execute b2 arguments result).outcome result ∨
    ((∃ a0 s0 A, arguments[0]? = some a0 ∧
        Block.column b1 a0 = some (.const s0 (.array A))) ∧
      (Block.column b1 0).map Column.size ≠ (Block.column b2 0).map Column.size ∧
      ∀ x, x ≠ Exception.Undefined →
        (FunctionArrayElement.execute b1 arguments result).outcome result ≠ (some x, none)) := by
  have hres := hsame.result_iff
  match arguments, hsame with
  | [], _ => exact Or.inl rfl
  | [_], _ => exact Or.inl rfl
  | a0 :: a1 :: rest, hsame =>
    have h0 : Block.column b1 a0 = Block.column b2 a0 := hsame.1 a0 (by simp)
    have h1 : Block.column b1 a1 = Block.column b2 a1 := hsame.1 a1 (by simp)
    unfold FunctionArrayElement.execute
    simp only [List.getElem?_cons_succ, List.getElem?_cons_zero]
    rw [← h1]
    cases hc1 : Block.column b1 a1 with
    | none => exact Or.inl rfl
    | some c1 =>
      simp only
      by_cases hconst : (!c1.isConst) = true
      · simp only [if_pos hconst]
        exact Or.inl rfl
      · simp only [if_neg hconst]
        cases hv : c1.constValue with
        | none => exact Or.inl rfl
        | some value =>
          cases value with
          | int64 v => exact Or.inl rfl
          | float64 v => exact Or.inl rfl
          | string v => exact Or.inl rfl
          | array v => exact Or.inl rfl
          | uint64 k =>
            simp only
            by_cases hk : k = 0
            · simp only [if_pos hk]
              exact Or.inl rfl
            · simp only [if_neg hk]
              rcases FunctionArrayElement_dispatch_outcome_agree b1 b2 a0 (a1 :: rest) result
                (sub64 k 1) h0 hres with h | ⟨⟨s0, A, hc⟩, hsz, hx⟩
              · exact Or.inl h
              · exact Or.inr ⟨⟨a0, s0, A, rfl, hc⟩, hsz, hx⟩

theorem FunctionHas_dispatch_missing (toFloat32 : Nat → Nat) {block : Block} {a0 : Nat}
    (rest : List Nat) (result : Nat) (value : Field) (h0 : Block.column block a0 = none) :
    FunctionHas.dispatch toFloat32 block (a0 :: rest) result value
      = some (.throw .Undefined block) := by
  simp [FunctionHas.dispatch, FunctionHas.executeNumber, h0]

theorem FunctionHas_dispatch_unsupported (toFloat32 : Nat → Nat) {block : Block} {a0 : Nat}
    (rest : List Nat) (result : Nat) (value : Field) {c0 : Column}
    (h0 : Block.column block a0 = some c0) (hsupp : c0.supported = false) :
    FunctionHas.dispatch toFloat32 block (a0 :: rest) result value = none := by
  cases c0 with
  | vector kind data =>
    simp [FunctionHas.dispatch, FunctionHas.executeNumber, FunctionHas.executeConst,
      FunctionHas.executeString, h0]
  | string data offsets =>
    simp [FunctionHas.dispatch, FunctionHas.executeNumber, FunctionHas.executeConst,
      FunctionHas.executeString, h0]
  | const s v =>
    cases v with
    | array A => simp [Column.supported] at hsupp
    | uint64 v =>
      simp [FunctionHas.dispatch, FunctionHas.executeNumber, FunctionHas.executeConst,
        FunctionHas.executeString, h0]
    | int64 v =>
      simp [FunctionHas.dispatch, FunctionHas.executeNumber, FunctionHas.executeConst,
        FunctionHas.executeString, h0]
    | float64 v =>
      simp [FunctionHas.dispatch, FunctionHas.executeNumber, FunctionHas.executeConst,
        FunctionHas.executeString, h0]
    | string v =>
      simp [FunctionHas.dispatch, FunctionHas.executeNumber, FunctionHas.executeConst,
        FunctionHas.executeString, h0]
  | array nested offsets =>
    cases nested with
    | vector kind data => simp [Column.supported] at hsupp
    | string data so => simp [Column.supported] at hsupp
    | const s v =>
      simp [FunctionHas.dispatch, FunctionHas.executeNumber, FunctionHas.executeConst,
        FunctionHas.executeString, h0]
    | array d o =>
      simp [FunctionHas.dispatch, FunctionHas.executeNumber, FunctionHas.executeConst,
        FunctionHas.executeString, h0]

theorem FunctionHas_executeNumber_other (toFloat32 : Nat → Nat) {block : Block} {a0 : Nat}
    (rest : List Nat) (result : Nat) (value : Field) {T K : NumKind} {data : List Int}
    {offsets : List Nat}
    (h0 : Block.column block a0 = some (.array (.vector T data) offsets)) (hK : T ≠ K) :
    FunctionHas.executeNumber toFloat32 K block (a0 :: rest) result value = none := by
  simp [FunctionHas.executeNumber, h0, hK]

theorem FunctionHas_dispatch_number_outcome (toFloat32 : Nat → Nat) {block : Block} {a0 : Nat}
    (rest : List Nat) (result : Nat) (value : Field) {T : NumKind} {data : List Int}
    {offsets : List Nat}
    (h0 : Block.column block a0 = some (.array (.vector T data) offsets)) :
    ∃ e, FunctionHas.dispatch toFloat32 block (a0 :: rest) result value = some e ∧
      FunctionHas.executeNumber toFloat32 T block (a0 :: rest) result value = some e ∧
      e.outcome result
        = if result < block.length ∧ result ≠ a0 then
            match T.narrow toFloat32 value with
            | none => (some .BadGet, none)
            | some needle =>
              match @ArrayHasNumImpl.vector Int ⟨T.eq⟩ data offsets needle [] with
              | some res => (none, some (.vector .UInt8 (res.map Int.ofNat)))
              | none => (some .Undefined, none)
          else (some .Undefined, none) := by
  have ho := fun K (hK : T ≠ K) =>
    FunctionHas_executeNumber_other toFloat32 rest result value h0 hK
  have hm : ∃ e, FunctionHas.executeNumber toFloat32 T block (a0 :: rest) result value = some e ∧
      e.outcome result
        = if result < block.length ∧ result ≠ a0 then
            match T.narrow toFloat32 value with
            | none => (some .BadGet, none)
            | some needle =>
              match @ArrayHasNumImpl.vector Int ⟨T.eq⟩ data offsets needle [] with
              | some res => (none, some (.vector .UInt8 (res.map Int.ofNat)))
              | none => (some .Undefined, none)
          else (some .Undefined, none) := by
    by_cases hres : result < block.length
    · obtain ⟨block1, hb1⟩ := Block.setColumn_of_lt block result (.vector .UInt8 []) hres
      by_cases hne : result = a0
      · subst hne
        refine ⟨.throw .Undefined block1, ?_, ?_⟩
        · simp [FunctionHas.executeNumber, h0, hb1]
        · simp [Executed.outcome_throw]
      · cases hn : T.narrow toFloat32 value with
        | none =>
          refine ⟨.throw .BadGet block1, ?_, ?_⟩
          · simp [FunctionHas.executeNumber, h0, hb1, hne, hn]
          · simp [Executed.outcome_throw, hne, hres]
        | some needle =>
          cases hrun : @ArrayHasNumImpl.vector Int ⟨T.eq⟩ data offsets needle [] with
          | none =>
            refine ⟨.throw .Undefined block1, ?_, ?_⟩
            · simp [FunctionHas.executeNumber, h0, hb1, hne, hn, hrun]
            · simp [Executed.outcome_throw, hne, hres, hrun]
          | some res =>
            refine ⟨.assign block result (.vector .UInt8 (res.map Int.ofNat)), ?_, ?_⟩
            · simp [FunctionHas.executeNumber, h0, hb1, hne, hn, hrun,
                Executed.assign_setColumn hb1]
            · simp [Executed.outcome_assign, hne, hres, hrun]
    · refine ⟨.throw .Undefined block, ?_, ?_⟩
      · simp [FunctionHas.executeNumber, h0, Block.setColumn_eq_none _ hres]
      · simp [Executed.outcome_throw, hres]
  obtain ⟨e, he, hout⟩ := hm
  refine ⟨e, ?_, he, hout⟩
  unfold FunctionHas.dispatch
  cases T <;> simp [he, ho]

theorem FunctionHas_dispatch_string_outcome (toFloat32 : Nat → Nat) {block : Block} {a0 : Nat}
    (rest : List Nat) (result : Nat) (value : Field) {data string_offsets offsets : List Nat}
    (h0 : Block.column block a0 = some (.array (.string data string_offsets) offsets)) :
    ∃ e, FunctionHas.dispatch toFloat32 block (a0 :: rest) result value = some e ∧
      e.outcome result
        = if result < block.length ∧ result ≠ a0 then
            match value with
            | .string needle =>
              match ArrayHasStringImpl.vector data offsets string_offsets needle [] with
              | some res => (none, some (.vector .UInt8 (res.map Int.ofNat)))
              | none => (some .Undefined, none)
            | _ => (some .BadGet, none)
          else (some .Undefined, none) := by
  have ho : ∀ K, FunctionHas.executeNumber toFloat32 K block (a0 :: rest) result value
      = none := by
    intro K
    simp [FunctionHas.executeNumber, h0]
  have hc : FunctionHas.executeConst block (a0 :: rest) result value = none := by
    simp [FunctionHas.executeConst, h0]
  have hm : ∃ e, FunctionHas.executeString block (a0 :: rest) result value = some e ∧
      e.outcome result
        = if result < block.length ∧ result ≠ a0 then
            match value with
            | .string needle =>
              match ArrayHasStringImpl.vector data offsets string_offsets needle [] with
              | some res => (none, some (.vector .UInt8 (res.map Int.ofNat)))
              | none => (some .Undefined, none)
            | _ => (some .BadGet, none)
          else (some .Undefined, none) := by
    by_cases hres : result < block.length
    · obtain ⟨block1, hb1⟩ := Block.setColumn_of_lt block result (.vector .UInt8 []) hres
      by_cases hne : result = a0
      · subst hne
        refine ⟨.throw .Undefined block1, ?_, ?_⟩
        · simp [FunctionHas.executeString, h0, hb1]
        · simp [Executed.outcome_throw]
      · cases value with
        | uint64 v =>
          refine ⟨.throw .BadGet block1, ?_, ?_⟩
          · simp [FunctionHas.executeString, h0, hb1, hne]
          · simp [Executed.outcome_throw, hne, hres]
        | int64 v =>
          refine ⟨.throw .BadGet block1, ?_, ?_⟩
          · simp [FunctionHas.executeString, h0, hb1, hne]
          · simp [Executed.outcome_throw, hne, hres]
        | float64 v =>
          refine ⟨.throw .BadGet block1, ?_, ?_⟩
          · simp [FunctionHas.executeString, h0, hb1, hne]
          · simp [Executed.outcome_throw, hne, hres]
        | array v =>
          refine ⟨.throw .BadGet block1, ?_, ?_⟩
          · simp [FunctionHas.executeString, h0, hb1, hne]
          · simp [Executed.outcome_throw, hne, hres]
        | string needle =>
          cases hrun : ArrayHasStringImpl.vector data offsets string_offsets needle [] with
          | none =>
            refine ⟨.throw .Undefined block1, ?_, ?_⟩
            · simp [FunctionHas.executeString, h0, hb1, hne, hrun]
            · simp [Executed.outcome_throw, hne, hres, hrun]
          | some res =>
            refine ⟨.assign block result (.vector .UInt8 (res.map Int.ofNat)), ?_, ?_⟩
            · simp [FunctionHas.executeString, h0, hb1, hne, hrun,
                Executed.assign_setColumn hb1]
            · simp [Executed.outcome_assign, hne, hres, hrun]
    · refine ⟨.throw .Undefined block, ?_, ?_⟩
      · simp [FunctionHas.executeString, h0, Block.setColumn_eq_none _ hres]
      · simp [Executed.outcome_throw, hres]
  obtain ⟨e, he, hout⟩ := hm
  refine ⟨e, ?_, hout⟩
  unfold FunctionHas.dispatch
  simp [he, ho, hc]

theorem FunctionHas_dispatch_const_outcome (toFloat32 : Nat → Nat) {block : Block} {a0 : Nat}
    (rest : List Nat) (result : Nat) (value : Field) {s0 : Nat} {A : List Field}
    (h0 : Block.column block a0 = some (.const s0 (.array A))) :
    ∃ e, FunctionHas.dispatch toFloat32 block (a0 :: rest) result value = some e ∧
      e.outcome result
        = match (Block.column block 0).map Column.size with
          | some n =>
            if result < block.length then
              (none, some (.const n
                (.uint64 (if FunctionHas.executeConst.found value A then 1 else 0))))
            else (some .Undefined, none)
          | none => (some .Undefined, none) := by
  have ho : ∀ K, FunctionHas.executeNumber toFloat32 K block (a0 :: rest) result value
      = none := by
    intro K
    simp [FunctionHas.executeNumber, h0]
  have hm : ∃ e, FunctionHas.executeConst block (a0 :: rest) result value = some e ∧
      e.outcome result
        = match (Block.column block 0).map Column.size with
          | some n =>
            if result < block.length then
              (none, some (.const n
                (.uint64 (if FunctionHas.executeConst.found value A then 1 else 0))))
            else (some .Undefined, none)
          | none => (some .Undefined, none) := by
    cases hf : Block.column block 0 with
    | none =>
      refine ⟨.throw .Undefined block, ?_, rfl⟩
      simp [FunctionHas.executeConst, h0, hf]
    | some first =>
      by_cases hres : result < block.length
      · refine ⟨.assign block result (.const first.size
          (.uint64 (if FunctionHas.executeConst.found value A then 1 else 0))), ?_, ?_⟩
        · simp [FunctionHas.executeConst, h0, hf, List.getElem?_eq_getElem hres,
            DataType.createConstColumn]
        · simp [Executed.outcome_assign, hres]
      · refine ⟨.throw .Undefined block, ?_, ?_⟩
        · simp [FunctionHas.executeConst, h0, hf,
            List.getElem?_eq_none (show block.length ≤ result by omega)]
        · simp [Executed.outcome_throw, hres]
  obtain ⟨e, he, hout⟩ := hm
  refine ⟨e, ?_, hout⟩
  unfold FunctionHas.dispatch
  simp [he, ho]

/-- The dispatch of `has` gives the same outcome on two blocks that agree on the
array argument and on the existence of the result position, unless the array
argument is a constant array, the columns at position 0 differ in row count, and
the run on the first block throws none of the function's errors. -/
theorem FunctionHas_dispatch_outcome_agree (toFloat32 : Nat → Nat) (b1 b2 : Block) (a0 : Nat)
    (rest : List Nat) (result : Nat) (value : Field)
    (h0 : Block.column b1 a0 = Block.column b2 a0)
    (hres : result < b1.length ↔ result < b2.length) :
    (match FunctionHas.dispatch toFloat32 b1 (a0 :: rest) result value with
      | some done => done
      | none => Executed.throw .UnsupportedColumnTypeError b1).outcome result
    = (match FunctionHas.dispatch toFloat32 b2 (a0 :: rest) result value with
      | some done => done
      | none => Executed.throw .UnsupportedColumnTypeError b2).outcome result ∨
    ((∃ s0 A, Block.column b1 a0 = some (.const s0 (.array A))) ∧
      (Block.column b1 0).map Column.size ≠ (Block.column b2 0).map Column.size ∧
      ∀ x, x ≠ Exception.Undefined →
        (match FunctionHas.dispatch toFloat32 b1 (a0 :: rest) result value with
          | some done => done
          | none => Executed.throw .UnsupportedColumnTypeError b1).outcome result
        ≠ (some x, none)) := by
  cases hc0 : Block.column b1 a0 with
  | none =>
    rw [FunctionHas_dispatch_missing toFloat32 rest result value hc0,
      FunctionHas_dispatch_missing toFloat32 rest result value (h0 ▸ hc0)]
    exact Or.inl rfl
  | some c0 =>
    have hc0' : Block.column b2 a0 = some c0 := h0 ▸ hc0
    cases hsupp : c0.supported with
    | false =>
      rw [FunctionHas_dispatch_unsupported toFloat32 rest result value hc0 hsupp,
        FunctionHas_dispatch_unsupported toFloat32 rest result value hc0' hsupp]
      exact Or.inl rfl
    | true =>
      cases c0 with
      | vector kind data => simp [Column.supported] at hsupp
      | string data offsets => simp [Column.supported] at hsupp
      | const s v =>
        cases v with
        | uint64 v => simp [Column.supported] at hsupp
        | int64 v => simp [Column.supported] at hsupp
        | float64 v => simp [Column.supported] at hsupp
        | string v => simp [Column.supported] at hsupp
        | array A =>
          obtain ⟨e1, hd1, ho1⟩ :=
            FunctionHas_dispatch_const_outcome toFloat32 rest result value hc0
          obtain ⟨e2, hd2, ho2⟩ :=
            FunctionHas_dispatch_const_outcome toFloat32 rest result value hc0'
          rw [hd1, hd2]
          simp only
          rw [ho1, ho2]
          by_cases hsz : (Block.column b1 0).map Column.size
              = (Block.column b2 0).map Column.size
          · left
            rw [hsz]
            simp only [hres]
          · right
            refine ⟨⟨s, A, rfl⟩, hsz, fun x hx => ?_⟩
            cases (Block.column b1 0).map Column.size with
            | none =>
              intro h
              exact hx (Option.some.inj (Prod.mk.inj h).1).symm
            | some n =>
              simp only
              by_cases hlt : result < b1.length
              · rw [if_pos hlt]
                intro h
                cases (Prod.mk.inj h).1
              · rw [if_neg hlt]
                intro h
                exact hx (Option.some.inj (Prod.mk.inj h).1).symm
      | array nested offsets =>
        cases nested with
        | const s v => simp [Column.supported] at hsupp
        | array d o => simp [Column.supported] at hsupp
        | vector kind data =>
          obtain ⟨e1, hd1, _, ho1⟩ :=
            FunctionHas_dispatch_number_outcome toFloat32 rest result value hc0
          obtain ⟨e2, hd2, _, ho2⟩ :=
            FunctionHas_dispatch_number_outcome toFloat32 rest result value hc0'
          rw [hd1, hd2]
          simp only
          rw [ho1, ho2]
          left
          simp only [hres]
        | string data so =>
          obtain ⟨e1, hd1, ho1⟩ :=
            FunctionHas_dispatch_string_outcome toFloat32 rest result value hc0
          obtain ⟨e2, hd2, ho2⟩ :=
            FunctionHas_dispatch_string_outcome toFloat32 rest result value hc0'
          rw [hd1, hd2]
          simp only
          rw [ho1, ho2]
          left
          simp only [hres]

theorem FunctionHas_execute_outcome_agree (toFloat32 : Nat → Nat) (b1 b2 : Block)
    (arguments : List Nat) (result : Nat) (hsame : SameArguments b1 b2 arguments result) :
    (FunctionHas.execute toFloat32 b1 arguments result).outcome result
      = (FunctionHas.execute toFloat32 b2 arguments result).outcome result ∨
    ((∃ a0 s0 A, arguments[0]? = some a0 ∧
        Block.column b1 a0 = some (.const s0 (.array A))) ∧
      (Block.column b1 0).map Column.size ≠ (Block.column b2 0).map Column.size ∧
      ∀ x, x ≠ Exception.Undefined →
        (FunctionHas.execute toFloat32 b1 arguments result).outcome result
          ≠ (some x, none)) := by
  have hres := hsame.result_iff
  match arguments, hsame with
  | [], _ => exact Or.inl rfl
  | [_], _ => exact Or.inl rfl
  | a0 :: a1 :: rest, hsame =>
    have h0 : Block.column b1 a0 = Block.column b2 a0 := hsame.1 a0 (by simp)
    have h1 : Block.column b1 a1 = Block.column b2 a1 := hsame.1 a1 (by simp)
    unfold FunctionHas.execute
    simp only [List.getElem?_cons_succ, List.getElem?_cons_zero]
    rw [← h1]
    cases hc1 : Block.column b1 a1 with
    | none => exact Or.inl rfl
    | some c1 =>
      simp only
      by_cases hconst : (!c1.isConst) = true
      · simp only [if_pos hconst]
        exact Or.inl rfl
      · simp only [if_neg hconst]
        cases hv : c1.constValue with
        | none => exact Or.inl rfl
        | some value =>
          rcases FunctionHas_dispatch_outcome_agree toFloat32 b1 b2 a0 (a1 :: rest) result
            value h0 hres with h | ⟨⟨s0, A, hc⟩, hsz, hx⟩
          · exact Or.inl h
          · exact Or.inr ⟨⟨a0, s0, A, rfl, hc⟩, hsz, hx⟩

theorem FunctionArray.execute_loops_agree (b1 b2 : Block) (arguments : List Nat)
    (h : ∀ a ∈ arguments, Block.column b1 a = Block.column b2 a) :
    FunctionArray.execute.check b1 arguments = FunctionArray.execute.check b2 arguments ∧
    FunctionArray.execute.fill b1 arguments = FunctionArray.execute.fill b2 arguments := by
  induction arguments with
  | nil => exact ⟨rfl, rfl⟩
  | cons a rest ih =>
    have ha := h a (List.mem_cons_self _ _)
    have ih1 := ih (fun b hb => h b (List.mem_cons_of_mem _ hb))
    constructor
    · rw [FunctionArray.execute.check, FunctionArray.execute.check, ha, ih1.1]
    · rw [FunctionArray.execute.fill, FunctionArray.execute.fill, ha, ih1.2]

theorem FunctionArray.execute_outcome_agree (b1 b2 : Block) (arguments : List Nat)
    (result : Nat) (hsame : SameArguments b1 b2 arguments result) :
    (FunctionArray.execute b1 arguments result).outcome result
      = (FunctionArray.execute b2 arguments result).outcome result := by
  have hres := hsame.result_iff
  obtain ⟨hcheck, hfill⟩ := FunctionArray.execute_loops_agree b1 b2 arguments hsame.1
  unfold FunctionArray.execute
  rw [← hcheck, ← hfill]
  cases hc : FunctionArray.execute.check b1 arguments with
  | some e => rfl
  | none =>
    cases hf : FunctionArray.execute.fill b1 arguments with
    | none => rfl
    | some arr =>
      match arguments, hsame with
      | [], _ => rfl
      | a0 :: rest, hsame =>
        have h0 : Block.column b1 a0 = Block.column b2 a0 := hsame.1 a0 (by simp)
        simp only
        rw [← h0]
        cases hc0 : Block.column b1 a0 with
        | none => rfl
        | some c0 =>
          simp only
          rw [Executed.outcome_assign, Executed.outcome_assign]
          simp only [hres]

/-! ## Well-formed output of `ArrayElementStringImpl::vector` -/

theorem pairwise_lt_of_rowStart_lt {l : List Nat}
    (h : ∀ i, i < l.length → rowStart l i < l.getD i 0) : (0 :: l).Pairwise (· < ·) := by
  have hadj : ∀ i (hi : i + 1 < l.length), l[i] < l[i + 1] := by
    intro i hi
    have := h (i + 1) hi
    rw [rowStart_succ, getD_of_lt (by omega), getD_of_lt hi] at this
    exact this
  have hall : ∀ j (hj : j < l.length) i (hi : i < l.length), i < j → l[i] < l[j] := by
    intro j
    induction j with
    | zero => intro _ i _ hij; omega
    | succ j ih =>
      intro hj i hi hij
      have h1 := hadj j hj
      rcases Nat.eq_or_lt_of_le (Nat.le_of_lt_succ hij) with heq | hlt
      · subst heq
        exact h1
      · exact lt_trans (ih (by omega) i hi hlt) h1
  rw [List.pairwise_cons]
  constructor
  · intro x hx
    obtain ⟨j, hj, rfl⟩ := List.getElem_of_mem hx
    have := h j hj
    rw [getD_of_lt hj] at this
    omega
  · rw [List.pairwise_iff_getElem]
    intro i j hi hj hij
    exact hall j hj i hi hij

theorem rowStart_lt_of_pairwise {l : List Nat} (h : (0 :: l).Pairwise (· < ·)) :
    l.Pairwise (· < ·) ∧ ∀ i, i < l.length → rowStart l i < l.getD i 0 := by
  rw [List.pairwise_cons] at h
  refine ⟨h.2, fun i hi => ?_⟩
  have h2 := h.2
  rw [List.pairwise_iff_getElem] at h2
  rw [getD_of_lt hi]
  unfold rowStart
  split
  · exact h.1 _ (List.getElem_mem _)
  · rw [getD_of_lt (by omega)]
    exact h2 (i - 1) i (by omega) hi (by omega)

theorem slice_getElem? (l : List Nat) (a n j : Nat) (hj : j < n) :
    ((l.drop a).take n)[j]? = l[a + j]? := by
  rw [List.getElem?_take_of_lt hj, List.getElem?_drop]

theorem elementStringRow_last {data offsets string_offsets : List Nat} (index : Nat) {i : Nat}
    (hmono : offsets.Pairwise (· ≤ ·))
    (hlast : offsets.getLast?.getD 0 ≤ string_offsets.length)
    (hso : (0 :: string_offsets).Pairwise (· < ·))
    (hsolast : string_offsets.getLast?.getD 0 ≤ data.length)
    (hi : i < offsets.length) :
    1 ≤ (elementStringRow data offsets string_offsets index i).length ∧
    (Terminated data string_offsets →
      (elementStringRow data offsets string_offsets index i)[
        (elementStringRow data offsets string_offsets index i).length - 1]? = some 0) := by
  obtain ⟨hso1, hpos⟩ := rowStart_lt_of_pairwise hso
  have hsole := strict_mono_le hso1
  unfold elementStringRow
  by_cases hidx : index < rowLength offsets i
  · rw [if_pos hidx]
    have hb := offsets_bounds hmono hlast hi
    have hadd := rowLength_add hmono hlast hi
    have hk : rowStart offsets i + index < string_offsets.length := by omega
    have hlen := stringRange_length hsole hsolast hk
    have hkpos := hpos _ hk
    have hkadd := rowLength_add hsole hsolast hk
    have hkb := offsets_bounds hsole hsolast hk
    rw [hlen]
    refine ⟨by omega, fun hterm => ?_⟩
    unfold stringRange
    rw [slice_getElem? _ _ _ _ (by omega)]
    have := (hterm _ hk).2
    rw [← this]
    congr 1
    omega
  · rw [if_neg hidx]
    exact ⟨by simp, fun _ => rfl⟩

/-- The output of `ArrayElementStringImpl::vector` is a well-formed
bytes-with-offsets column. -/
theorem ArrayElementStringImpl_vector_wellformed (data offsets string_offsets : List Nat)
    (index : Nat) (hmono : offsets.Pairwise (· ≤ ·))
    (hlast : offsets.getLast?.getD 0 ≤ string_offsets.length)
    (hso : (0 :: string_offsets).Pairwise (· < ·))
    (hsolast : string_offsets.getLast?.getD 0 ≤ data.length)
    (hsize : data.length + offsets.length < 2 ^ 64) :
    ∃ result_data result_offsets,
      ArrayElementStringImpl.vector data offsets string_offsets index [] []
        = some (result_data, result_offsets) ∧
      result_offsets.length = offsets.length ∧
      (0 :: result_offsets).Pairwise (· < ·) ∧
      result_offsets.getLast?.getD 0 = result_data.length ∧
      (Terminated data string_offsets → Terminated result_data result_offsets) := by
  obtain ⟨hso1, _⟩ := rowStart_lt_of_pairwise hso
  obtain ⟨rd, ro, hrun, hlen, hend, hrows⟩ := ArrayElementStringImpl_vector_spec data offsets
    string_offsets index hmono hlast hso1 hsolast hsize
  have hstep : ∀ i, i < ro.length → rowStart ro i < ro.getD i 0 := by
    intro i hi
    have h1 := (hrows i (by omega)).1
    have h2 := (elementStringRow_last index hmono hlast hso hsolast
      (show i < offsets.length by omega)).1
    omega
  refine ⟨rd, ro, hrun, hlen, pairwise_lt_of_rowStart_lt hstep, ?_, ?_⟩
  · rw [hend, ← hlen, List.getLast?_eq_getElem?]
    unfold rowStart
    split
    · rename_i h0
      have hnil : ro = [] := List.length_eq_zero.1 h0
      subst hnil
      rfl
    · rw [List.getD_eq_getElem?_getD]
  · intro hterm i hi
    refine ⟨hstep i hi, ?_⟩
    obtain ⟨h1, h2⟩ := hrows i (by omega)
    obtain ⟨h3, h4⟩ := elementStringRow_last index hmono hlast hso hsolast
      (show i < offsets.length by omega)
    have h5 := h4 hterm
    have h6 : ((rd.drop (rowStart ro i)).take
        (elementStringRow data offsets string_offsets index i).length)[
          (elementStringRow data offsets string_offsets index i).length - 1]? = some 0 := by
      rw [h2]
      exact h5
    rw [slice_getElem? _ _ _ _ (by omega)] at h6
    rw [← h6, h1]
    congr 1
    omega

/-! ## No wrap of `offsets[i] - current_offset` -/

theorem checkedSub_rowStart {offsets : List Nat} {m : Nat} (hmono : offsets.Pairwise (· ≤ ·))
    (hlast : offsets.getLast?.getD 0 ≤ m) {i : Nat} (hi : i < offsets.length) :
    checkedSub (offsets.getD i 0) (rowStart offsets i)
      = some (sub64 (offsets.getD i 0) (rowStart offsets i)) := by
  unfold checkedSub
  rw [if_pos (offsets_bounds hmono hlast hi).1]

theorem ArrayElementNumImpl_checkedLoop_eq {T : Type} (data : List T) (offsets : List Nat)
    (index : Nat) (hmono : offsets.Pairwise (· ≤ ·)) :
    ∀ (n i : Nat) (result : List T), n + i = offsets.length →
      ArrayElementNumImpl.checkedLoop data offsets index n i (rowStart offsets i) result
        = ArrayElementNumImpl.vectorLoop data offsets index n i (rowStart offsets i) result := by
  intro n
  induction n with
  | zero => intro i result _; rfl
  | succ n ih =>
    intro i result hn
    have hi : i < offsets.length := by omega
    have ih1 : ∀ r, ArrayElementNumImpl.checkedLoop data offsets index n (i + 1)
        (offsets.getD i 0) r
        = ArrayElementNumImpl.vectorLoop data offsets index n (i + 1) (offsets.getD i 0) r := by
      intro r
      have := ih (i + 1) r (by omega)
      rwa [rowStart_succ] at this
    rw [ArrayElementNumImpl.checkedLoop, ArrayElementNumImpl.vectorLoop,
      List.getElem?_eq_getElem hi]
    simp only [← getD_of_lt hi, checkedSub_rowStart hmono (le_refl _) hi, ih1]

theorem ArrayHasNumImpl_checkedLoop_eq {T : Type} [BEq T] (data : List T) (offsets : List Nat)
    (value : T) (hmono : offsets.Pairwise (· ≤ ·)) :
    ∀ (n i : Nat) (result : List Nat), n + i = offsets.length →
      ArrayHasNumImpl.checkedLoop data offsets value n i (rowStart offsets i) result
        = ArrayHasNumImpl.vectorLoop data offsets value n i (rowStart offsets i) result := by
  intro n
  induction n with
  | zero => intro i result _; rfl
  | succ n ih =>
    intro i result hn
    have hi : i < offsets.length := by omega
    have ih1 : ∀ r, ArrayHasNumImpl.checkedLoop data offsets value n (i + 1)
        (offsets.getD i 0) r
        = ArrayHasNumImpl.vectorLoop data offsets value n (i + 1) (offsets.getD i 0) r := by
      intro r
      have := ih (i + 1) r (by omega)
      rwa [rowStart_succ] at this
    rw [ArrayHasNumImpl.checkedLoop, ArrayHasNumImpl.vectorLoop, List.getElem?_eq_getElem hi]
    simp only [← getD_of_lt hi, checkedSub_rowStart hmono (le_refl _) hi, ih1]

theorem ArrayHasStringImpl_checkedLoop_eq (data offsets string_offsets value : List Nat)
    (hmono : offsets.Pairwise (· ≤ ·)) :
    ∀ (n i : Nat) (result : List Nat), n + i = offsets.length →
      ArrayHasStringImpl.checkedLoop data offsets string_offsets value n i
          (rowStart offsets i) result
        = ArrayHasStringImpl.vectorLoop data offsets string_offsets value n i
          (rowStart offsets i) result := by
  intro n
  induction n with
  | zero => intro i result _; rfl
  | succ n ih =>
    intro i result hn
    have hi : i < offsets.length := by omega
    have ih1 : ∀ r, ArrayHasStringImpl.checkedLoop data offsets string_offsets value n (i + 1)
        (offsets.getD i 0) r
        = ArrayHasStringImpl.vectorLoop data offsets string_offsets value n (i + 1)
          (offsets.getD i 0) r := by
      intro r
      have := ih (i + 1) r (by omega)
      rwa [rowStart_succ] at this
    rw [ArrayHasStringImpl.checkedLoop, ArrayHasStringImpl.vectorLoop,
      List.getElem?_eq_getElem hi]
    simp only [← getD_of_lt hi, checkedSub_rowStart hmono (le_refl _) hi, ih1]

theorem ArrayElementStringImpl_checkedLoop_eq (data offsets string_offsets : List Nat)
    (index : Nat) (hmono : offsets.Pairwise (· ≤ ·)) :
    ∀ (n i cro : Nat) (rd ro : List Nat), n + i = offsets.length →
      ArrayElementStringImpl.checkedLoop data offsets string_offsets index n i
          (rowStart offsets i) cro rd ro
        = ArrayElementStringImpl.vectorLoop data offsets string_offsets index n i
          (rowStart offsets i) cro rd ro := by
  intro n
  induction n with
  | zero => intro i cro rd ro _; rfl
  | succ n ih =>
    intro i cro rd ro hn
    have hi : i < offsets.length := by omega
    have ih1 : ∀ c r1 r2, ArrayElementStringImpl.checkedLoop data offsets string_offsets index n
        (i + 1) (offsets.getD i 0) c r1 r2
        = ArrayElementStringImpl.vectorLoop data offsets string_offsets index n (i + 1)
          (offsets.getD i 0) c r1 r2 := by
      intro c r1 r2
      have := ih (i + 1) c r1 r2 (by omega)
      rwa [rowStart_succ] at this
    rw [ArrayElementStringImpl.checkedLoop, ArrayElementStringImpl.vectorLoop,
      List.getElem?_eq_getElem hi]
    simp only [← getD_of_lt hi, checkedSub_rowStart hmono (le_refl _) hi, ih1]

/-! ## The needle of `has` on a per-row numeric column -/

theorem Executed.outcome_success {e : Executed} {result : Nat} {c : Column}
    (h : e.outcome result = (none, some c)) :
    e.exception = none ∧ Block.column e.block result = some c := by
  unfold Executed.outcome at h
  cases hx : e.exception with
  | some x => rw [hx] at h; cases h
  | none =>
    rw [hx] at h
    simp only [Prod.mk.injEq, true_and] at h
    exact ⟨rfl, h⟩

theorem FunctionHas_execute_number_spec (toFloat32 : Nat → Nat) {block : Block}
    {a0 a1 result s : Nat} {T : NumKind} {data : List Int} {offsets : List Nat}
    {value : Field} {needle : Int}
    (h1 : Block.column block a1 = some (.const s value))
    (h0 : Block.column block a0 = some (.array (.vector T data) offsets))
    (hn : T.narrow toFloat32 value = some needle)
    (hmono : offsets.Pairwise (· ≤ ·)) (hlast : offsets.getLast?.getD 0 ≤ data.length)
    (hsize : data.length < 2 ^ 64) (hres : result < block.length) (hne : result ≠ a0) :
    ∃ res : List Nat, (FunctionHas.execute toFloat32 block [a0, a1] result).exception = none ∧
      Block.column (FunctionHas.execute toFloat32 block [a0, a1] result).block result
        = some (.vector .UInt8 (res.map Int.ofNat)) ∧
      res.length = offsets.length ∧
      ∀ i, i < offsets.length →
        (@RowHasNum Int ⟨T.eq⟩ data offsets needle i → res[i]? = some 1) ∧
        (¬ @RowHasNum Int ⟨T.eq⟩ data offsets needle i → res[i]? = some 0) := by
  obtain ⟨res, hrun, hlen, hrows⟩ :=
    @ArrayHasNumImpl_vector_spec Int ⟨T.eq⟩ data offsets needle hmono hlast hsize
  obtain ⟨e, hd, _, ho⟩ := FunctionHas_dispatch_number_outcome toFloat32 [a1] result value h0
  have he : FunctionHas.execute toFloat32 block [a0, a1] result = e := by
    simp [FunctionHas.execute, h1, Column.isConst, Column.constValue, hd]
  rw [if_pos ⟨hres, hne⟩, hn] at ho
  simp only [hrun] at ho
  rw [he]
  obtain ⟨hx, hc⟩ := Executed.outcome_success ho
  exact ⟨res, hx, hc, hlen, hrows⟩

theorem NumKind.narrow_toField_integer (toFloat32 : Nat → Nat) (T : NumKind) (v : Int)
    (hT : T.isUnsigned = true ∨ T.isSigned = true) (hv : T.nearest.holds v) :
    ∃ needle, T.narrow toFloat32 (T.toField v) = some needle ∧
      T.holds needle ∧ needle % 2 ^ T.width = v % 2 ^ T.width ∧
      (needle = v ↔ T.holds v) ∧
      (T.isUnsigned = true → needle = v % 2 ^ T.width) := by
  cases T <;>
    simp [NumKind.isUnsigned, NumKind.isSigned, NumKind.nearest, NumKind.holds, NumKind.width,
      NumKind.narrow, NumKind.toField] at hT hv ⊢ <;>
    omega

theorem RowHasNum_integer {T : NumKind} (hT : T.isUnsigned = true ∨ T.isSigned = true)
    (data : List Int) (offsets : List Nat) (needle : Int) (i : Nat) :
    @RowHasNum Int ⟨T.eq⟩ data offsets needle i
      ↔ ∃ j, rowStart offsets i ≤ j ∧ j < offsets.getD i 0 ∧ data[j]? = some needle := by
  have heq : ∀ x, T.eq x needle = true ↔ x = needle := by
    intro x
    unfold NumKind.eq
    rcases hT with h | h <;> simp [h]
  unfold RowHasNum
  constructor
  · rintro ⟨j, h1, h2, x, hx, hxe⟩
    exact ⟨j, h1, h2, by rw [hx, (heq x).1 hxe]⟩
  · rintro ⟨j, h1, h2, hx⟩
    exact ⟨j, h1, h2, needle, hx, (heq needle).2 rfl⟩

/-! ## The per-row column of `n` copies of a sequence -/

theorem repeatedData_length (n : Nat) (A : List Int) :
    (repeatedData n A).length = n * A.length := by
  simp [repeatedData]

theorem repeatedData_getElem? (A : List Int) {j : Nat} (hj : j < A.length) :
    ∀ (n i : Nat), i < n → (repeatedData n A)[i * A.length + j]? = A[j]? := by
  intro n
  induction n with
  | zero => intro i hi; omega
  | succ n ih =>
    intro i hi
    have hrep : repeatedData (n + 1) A = A ++ repeatedData n A := by
      simp [repeatedData, List.replicate_succ]
    rw [hrep]
    cases i with
    | zero =>
      rw [Nat.zero_mul, Nat.zero_add, List.getElem?_append_left hj]
    | succ i =>
      rw [List.getElem?_append_right (by rw [Nat.succ_mul]; omega)]
      have : (i + 1) * A.length + j - A.length = i * A.length + j := by
        rw [Nat.succ_mul]; omega
      rw [this]
      exact ih i (by omega)

theorem repeatedOffsets_length (n len : Nat) : (repeatedOffsets n len).length = n := by
  simp [repeatedOffsets]

theorem repeatedOffsets_getD {n len i : Nat} (hi : i < n) :
    (repeatedOffsets n len).getD i 0 = (i + 1) * len := by
  simp [repeatedOffsets, List.getD, List.getElem?_range hi]

theorem repeatedOffsets_rowStart {n len i : Nat} (hi : i < n) :
    rowStart (repeatedOffsets n len) i = i * len := by
  cases i with
  | zero => simp [rowStart]
  | succ i => rw [rowStart_succ, repeatedOffsets_getD (by omega)]

theorem repeatedOffsets_rowLength {n len i : Nat} (hi : i < n) :
    rowLength (repeatedOffsets n len) i = len := by
  unfold rowLength
  rw [repeatedOffsets_getD hi, repeatedOffsets_rowStart hi, Nat.succ_mul]
  omega

theorem repeatedOffsets_pairwise (n len : Nat) :
    (repeatedOffsets n len).Pairwise (· ≤ ·) := by
  rw [List.pairwise_iff_getElem]
  intro i j hi hj hij
  rw [repeatedOffsets_length] at hi hj
  rw [← getD_of_lt (by rw [repeatedOffsets_length]; exact hi),
    ← getD_of_lt (by rw [repeatedOffsets_length]; exact hj),
    repeatedOffsets_getD hi, repeatedOffsets_getD hj]
  exact Nat.mul_le_mul_right _ (by omega)

theorem repeatedOffsets_getLast (n : Nat) (A : List Int) :
    (repeatedOffsets n A.length).getLast?.getD 0 ≤ (repeatedData n A).length := by
  rw [repeatedData_length, List.getLast?_eq_getElem?, repeatedOffsets_length]
  cases n with
  | zero => simp [repeatedOffsets]
  | succ n =>
    have h := @repeatedOffsets_getD (n + 1) A.length n (by omega)
    rw [List.getD_eq_getElem?_getD] at h
    rw [Nat.add_sub_cancel, h]

/-! ## `has` and `arrayElement` on the two representations of a repeated row -/

theorem NumKind.toField_eq {T : NumKind} {a v : Int} (ha : T.holds a) (hv : T.holds v) :
    Field.eq (T.toField a) (T.toField v) = T.eq a v := by
  cases T <;>
    simp [NumKind.isUnsigned, NumKind.isSigned, NumKind.holds, NumKind.width,
      NumKind.toField, Field.eq, NumKind.eq] at ha hv ⊢ <;>
    omega

theorem NumKind.narrow_toField (toFloat32 : Nat → Nat) {T : NumKind} {v : Int}
    (hv : T.holds v) (hf : T = .Float32 → toFloat32 v.toNat = v.toNat) :
    T.narrow toFloat32 (T.toField v) = some v := by
  cases T <;>
    simp [NumKind.isUnsigned, NumKind.isSigned, NumKind.holds, NumKind.width,
      NumKind.toField, NumKind.narrow] at hv hf ⊢ <;>
    omega

theorem found_toField_iff {T : NumKind} {A : List Int} {v : Int} (hA : ∀ a ∈ A, T.holds a)
    (hv : T.holds v) :
    FunctionHas.executeConst.found (T.toField v) (A.map T.toField) = true
      ↔ ∃ j, j < A.length ∧ ∃ x, A[j]? = some x ∧ T.eq x v = true := by
  rw [FunctionHas.executeConst.found_iff]
  constructor
  · rintro ⟨f, hf, he⟩
    obtain ⟨a, ha, rfl⟩ := List.mem_map.1 hf
    rw [NumKind.toField_eq (hA a ha) hv] at he
    obtain ⟨j, hj, hja⟩ := List.getElem_of_mem ha
    exact ⟨j, hj, a, by rw [List.getElem?_eq_getElem hj, hja], he⟩
  · rintro ⟨j, hj, x, hx, he⟩
    have hmem : x ∈ A := List.getElem?_mem hx
    refine ⟨T.toField x, List.mem_map.2 ⟨x, hmem, rfl⟩, ?_⟩
    rw [NumKind.toField_eq (hA x hmem) hv]
    exact he

theorem RowHasNum_repeated {T : NumKind} (A : List Int) (v : Int) {n i : Nat} (hi : i < n) :
    @RowHasNum Int ⟨T.eq⟩ (repeatedData n A) (repeatedOffsets n A.length) v i
      ↔ ∃ j, j < A.length ∧ ∃ x, A[j]? = some x ∧ T.eq x v = true := by
  unfold RowHasNum
  rw [repeatedOffsets_rowStart hi, repeatedOffsets_getD hi]
  constructor
  · rintro ⟨j, h1, h2, x, hx, he⟩
    have hlt : j - i * A.length < A.length := by
      rw [Nat.succ_mul] at h2
      omega
    refine ⟨j - i * A.length, hlt, x, ?_, he⟩
    rw [← repeatedData_getElem? A hlt n i hi]
    rw [show i * A.length + (j - i * A.length) = j by omega]
    exact hx
  · rintro ⟨j, hj, x, hx, he⟩
    refine ⟨i * A.length + j, by omega, by rw [Nat.succ_mul]; omega, x, ?_, he⟩
    rw [repeatedData_getElem? A hj n i hi]
    exact hx

theorem FunctionHas_execute_repeated_agree (toFloat32 : Nat → Nat) {T : NumKind}
    {A : List Int} {n : Nat} {v : Int} {bc br : Block} {a0 a1 result s : Nat}
    {first : Column}
    (hA : ∀ a ∈ A, T.holds a) (hv : T.holds v)
    (hf : T = .Float32 → toFloat32 v.toNat = v.toNat) (hsize : n * A.length < 2 ^ 64)
    (hc0 : Block.column bc a0 = some (Column.constArray T n A))
    (hr0 : Block.column br a0 = some (Column.perRow T n A))
    (hc1 : Block.column bc a1 = some (.const s (T.toField v)))
    (hr1 : Block.column br a1 = some (.const s (T.toField v)))
    (hresc : result < bc.length) (hresr : result < br.length) (hne : result ≠ a0)
    (hfirst : Block.column bc 0 = some first) (hfn : first.size = n) :
    AgreeRows n (FunctionHas.execute toFloat32 bc [a0, a1] result)
      (FunctionHas.execute toFloat32 br [a0, a1] result) result := by
  have hconst := FunctionHas_execute_const_spec toFloat32 hc1 hc0 hresc hfirst
  have ha := Executed.assign_of_lt bc result (.const first.size (.uint64
    (if FunctionHas.executeConst.found (T.toField v) (A.map T.toField) then 1 else 0))) hresc
  obtain ⟨res, hx, hcol, hlen, hrows⟩ := FunctionHas_execute_number_spec toFloat32 hr1 hr0
    (NumKind.narrow_toField toFloat32 hv hf) (repeatedOffsets_pairwise n A.length)
    (repeatedOffsets_getLast n A) (by rw [repeatedData_length]; exact hsize) hresr hne
  rw [repeatedOffsets_length] at hlen hrows
  rw [hconst]
  refine ⟨ha.1, hx, _, _, ha.2.1, hcol, hfn, by simp [Column.size, hlen], fun i hi => ?_⟩
  obtain ⟨hyes, hno⟩ := hrows i hi
  rw [RowHasNum_repeated A v hi] at hyes hno
  by_cases h : ∃ j, j < A.length ∧ ∃ x, A[j]? = some x ∧ T.eq x v = true
  · refine ⟨.uint64 1, ?_, ?_⟩
    · simp [Column.rowValue, hfn, hi, (found_toField_iff hA hv).2 h]
    · simp [Column.rowValue, hyes h, NumKind.toField, NumKind.isUnsigned]
  · have hnf : FunctionHas.executeConst.found (T.toField v) (A.map T.toField) = false := by
      cases hfd : FunctionHas.executeConst.found (T.toField v) (A.map T.toField) with
      | false => rfl
      | true => exact absurd ((found_toField_iff hA hv).1 hfd) h
    refine ⟨.uint64 0, ?_, ?_⟩
    · simp [Column.rowValue, hfn, hi, hnf]
    · simp [Column.rowValue, hno h, NumKind.toField, NumKind.isUnsigned]

theorem FunctionArrayElement_execute_repeated_agree {T : NumKind}
    {A : List Int} {n k : Nat} {bc br : Block} {a0 a2 result s : Nat}
    {first : Column}
    (hk1 : 1 ≤ k) (hk : k ≤ A.length) (hk64 : k < 2 ^ 64) (hsize : n * A.length < 2 ^ 64)
    (hc0 : Block.column bc a0 = some (Column.constArray T n A))
    (hr0 : Block.column br a0 = some (Column.perRow T n A))
    (hc2 : Block.column bc a2 = some (.const s (.uint64 k)))
    (hr2 : Block.column br a2 = some (.const s (.uint64 k)))
    (hresc : result < bc.length) (hresr : result < br.length) (hne : result ≠ a0)
    (hfirst : Block.column bc 0 = some first) (hfn : first.size = n) :
    AgreeRows n (FunctionArrayElement.execute bc [a0, a2] result)
      (FunctionArrayElement.execute br [a0, a2] result) result := by
  obtain ⟨value, hval, hxc, hcc⟩ := (FunctionArrayElement_execute_const_spec hc2 hk1 hk64
    hc0).2 (by rw [List.length_map]; exact hk) hresc first hfirst
  obtain ⟨res, hx, hcol, hlen, hrows⟩ := FunctionArrayElement_execute_number_spec hr2 hk1 hk64
    hr0 (repeatedOffsets_pairwise n A.length) (repeatedOffsets_getLast n A)
    (by rw [repeatedData_length]; exact hsize) hresr hne
  rw [repeatedOffsets_length] at hlen hrows
  refine ⟨hxc, hx, _, _, hcc, hcol, hfn, by simp [Column.size, hlen], fun i hi => ?_⟩
  have hrow := ((hrows i hi).1 (by rw [repeatedOffsets_rowLength hi]; omega)).2
  rw [repeatedOffsets_rowStart hi, repeatedData_getElem? A (show k - 1 < A.length by omega) n i
    hi] at hrow
  refine ⟨value, ?_, ?_⟩
  · simp [Column.rowValue, hfn, hi]
  · rw [List.getElem?_map] at hval
    simp only [Column.rowValue, hrow]
    exact hval

/-! ## Properties of the specification -/

/-- C1: `ArrayElementNumImpl::vector` on an empty result buffer, for
non-decreasing offsets whose last entry is at most `data.size()` (a size that
fits `size_t`): the kernel raises nothing and, for every row `i`, the output
holds `data[start_i + index]` when `index < L_i` and `0` when `index ≥ L_i`. -/
theorem C1_ArrayElementNumImpl_vector {T : Type} [Zero T] (data : List T)
    (offsets : List Nat) (index : Nat) (hmono : offsets.Pairwise (· ≤ ·))
    (hlast : offsets.getLast?.getD 0 ≤ data.length) (hsize : data.length < 2 ^ 64) :
    ∃ result, ArrayElementNumImpl.vector data offsets index [] = some result ∧
      result.length = offsets.length ∧
      ∀ i, i < offsets.length →
        (index < rowLength offsets i →
          rowStart offsets i + index < data.length ∧
          result[i]? = data[rowStart offsets i + index]?) ∧
        (rowLength offsets i ≤ index → result[i]? = some 0) :=
  ArrayElementNumImpl_vector_spec data offsets index hmono hlast hsize

/-- C1 at the rows `[10, 20, 30]`, `[]`, `[40]` and the 0-based index 1. -/
theorem C1_ArrayElementNumImpl_vector_witness :
    ([3, 3, 4] : List Nat).Pairwise (· ≤ ·) ∧
    ([3, 3, 4] : List Nat).getLast?.getD 0 ≤ ([10, 20, 30, 40] : List Int).length ∧
    ([10, 20, 30, 40] : List Int).length < 2 ^ 64 ∧
    ∃ result, ArrayElementNumImpl.vector ([10, 20, 30, 40] : List Int) [3, 3, 4] 1 []
        = some result ∧
      result.length = ([3, 3, 4] : List Nat).length ∧
      ∀ i, i < ([3, 3, 4] : List Nat).length →
        (1 < rowLength [3, 3, 4] i →
          rowStart [3, 3, 4] i + 1 < ([10, 20, 30, 40] : List Int).length ∧
          result[i]? = ([10, 20, 30, 40] : List Int)[rowStart [3, 3, 4] i + 1]?) ∧
        (rowLength [3, 3, 4] i ≤ 1 → result[i]? = some 0) :=
  ⟨by decide, by decide, by decide,
    C1_ArrayElementNumImpl_vector ([10, 20, 30, 40] : List Int) [3, 3, 4] 1
      (by decide) (by decide) (by decide)⟩

/-- C2: `ArrayHasNumImpl::vector` on an empty result buffer, for non-decreasing
offsets whose last entry is at most `data.size()`: for every row `i` the output
is 0 or 1; it is 1 exactly when some position `j` with `start_i ≤ j < offsets[i]`
has `data[j] == value`, and is 0 exactly when there is none. -/
theorem C2_ArrayHasNumImpl_vector {T : Type} [BEq T] (data : List T) (offsets : List Nat)
    (value : T) (hmono : offsets.Pairwise (· ≤ ·))
    (hlast : offsets.getLast?.getD 0 ≤ data.length) (hsize : data.length < 2 ^ 64) :
    ∃ result, ArrayHasNumImpl.vector data offsets value [] = some result ∧
      result.length = offsets.length ∧
      ∀ i, i < offsets.length →
        (result[i]? = some 0 ∨ result[i]? = some 1) ∧
        (result[i]? = some 1 ↔
          ∃ j, rowStart offsets i ≤ j ∧ j < offsets.getD i 0 ∧
            ∃ x, data[j]? = some x ∧ (x == value) = true) ∧
        (result[i]? = some 0 ↔
          ¬ ∃ j, rowStart offsets i ≤ j ∧ j < offsets.getD i 0 ∧
            ∃ x, data[j]? = some x ∧ (x == value) = true) := by
  obtain ⟨result, hrun, hlen, hrows⟩ :=
    ArrayHasNumImpl_vector_spec data offsets value hmono hlast hsize
  refine ⟨result, hrun, hlen, fun i hi => ?_⟩
  obtain ⟨hyes, hno⟩ := hrows i hi
  unfold RowHasNum at hyes hno
  by_cases h : ∃ j, rowStart offsets i ≤ j ∧ j < offsets.getD i 0 ∧
      ∃ x, data[j]? = some x ∧ (x == value) = true
  · rw [hyes h]
    exact ⟨Or.inr rfl, ⟨fun _ => h, fun _ => rfl⟩,
      ⟨fun e => by simp at e, fun hn => absurd h hn⟩⟩
  · rw [hno h]
    exact ⟨Or.inl rfl, ⟨fun e => by simp at e, fun hp => absurd hp h⟩,
      ⟨fun _ => h, fun _ => rfl⟩⟩

/-- C2 at the rows `[10, 20, 30]`, `[]`, `[40]` and the needle 30. -/
theorem C2_ArrayHasNumImpl_vector_witness :
    ([3, 3, 4] : List Nat).Pairwise (· ≤ ·) ∧
    ([3, 3, 4] : List Nat).getLast?.getD 0 ≤ ([10, 20, 30, 40] : List Int).length ∧
    ([10, 20, 30, 40] : List Int).length < 2 ^ 64 ∧
    ∃ result, ArrayHasNumImpl.vector ([10, 20, 30, 40] : List Int) [3, 3, 4] 30 []
        = some result ∧
      result.length = ([3, 3, 4] : List Nat).length ∧
      ∀ i, i < ([3, 3, 4] : List Nat).length →
        (result[i]? = some 0 ∨ result[i]? = some 1) ∧
        (result[i]? = some 1 ↔
          ∃ j, rowStart [3, 3, 4] i ≤ j ∧ j < ([3, 3, 4] : List Nat).getD i 0 ∧
            ∃ x, ([10, 20, 30, 40] : List Int)[j]? = some x ∧ (x == 30) = true) ∧
        (result[i]? = some 0 ↔
          ¬ ∃ j, rowStart [3, 3, 4] i ≤ j ∧ j < ([3, 3, 4] : List Nat).getD i 0 ∧
            ∃ x, ([10, 20, 30, 40] : List Int)[j]? = some x ∧ (x == 30) = true) :=
  ⟨by decide, by decide, by decide,
    C2_ArrayHasNumImpl_vector ([10, 20, 30, 40] : List Int) [3, 3, 4] 30
      (by decide) (by decide) (by decide)⟩

/-- C3: `ArrayHasStringImpl::vector` on an empty result buffer, for a
well-formed array-of-strings column (array offsets non-decreasing and within
the nested strings, string offsets strictly increasing and within the bytes,
every string's range ending in the terminator byte) and a needle `value`: for
every row `i` the output is 1 exactly when some string of the row has content
length (range length minus 1) `value.size()` and content bytes `value`, and 0
otherwise; `has(["ab"], "a")` is 0 and `has(["ab","cd"], "cd")` is 1. -/
theorem C3_ArrayHasStringImpl_vector (data offsets string_offsets value : List Nat)
    (hmono : offsets.Pairwise (· ≤ ·))
    (hlast : offsets.getLast?.getD 0 ≤ string_offsets.length)
    (hso : string_offsets.Pairwise (· < ·))
    (hsolast : string_offsets.getLast?.getD 0 ≤ data.length)
    (hterm : Terminated data string_offsets)
    (hsize : data.length < 2 ^ 64) (hvalue : value.length < 2 ^ 64) :
    (∃ result, ArrayHasStringImpl.vector data offsets string_offsets value [] = some result ∧
      result.length = offsets.length ∧
      ∀ i, i < offsets.length →
        (result[i]? = some 1 ↔
          ∃ k, rowStart offsets i ≤ k ∧ k < offsets.getD i 0 ∧
            rowLength string_offsets k - 1 = value.length ∧
            stringContent data string_offsets k = value) ∧
        (result[i]? = some 0 ↔
          ¬ ∃ k, rowStart offsets i ≤ k ∧ k < offsets.getD i 0 ∧
            rowLength string_offsets k - 1 = value.length ∧
            stringContent data string_offsets k = value)) ∧
    ArrayHasStringImpl.vector [97, 98, 0] [1] [3] [97] [] = some [0] ∧
    ArrayHasStringImpl.vector [97, 98, 0, 99, 100, 0] [2] [3, 6] [99, 100] [] = some [1] := by
  refine ⟨?_, by decide, by decide⟩
  obtain ⟨result, hrun, hlen, hrows⟩ := ArrayHasStringImpl_vector_spec data offsets
    string_offsets value hmono hlast hso hsolast (fun k hk => (hterm k hk).1) hsize hvalue
  refine ⟨result, hrun, hlen, fun i hi => ?_⟩
  obtain ⟨hyes, hno⟩ := hrows i hi
  unfold RowHasString StringEq at hyes hno
  by_cases h : ∃ k, rowStart offsets i ≤ k ∧ k < offsets.getD i 0 ∧
      rowLength string_offsets k - 1 = value.length ∧
      stringContent data string_offsets k = value
  · rw [hyes h]
    exact ⟨⟨fun _ => h, fun _ => rfl⟩, ⟨fun e => by simp at e, fun hn => absurd h hn⟩⟩
  · rw [hno h]
    exact ⟨⟨fun e => by simp at e, fun hp => absurd hp h⟩, ⟨fun _ => h, fun _ => rfl⟩⟩

/-- C3 at the column `[["ab", "cd"]]` and the needle `"cd"`. -/
theorem C3_ArrayHasStringImpl_vector_witness :
    ([2] : List Nat).Pairwise (· ≤ ·) ∧
    ([2] : List Nat).getLast?.getD 0 ≤ ([3, 6] : List Nat).length ∧
    ([3, 6] : List Nat).Pairwise (· < ·) ∧
    ([3, 6] : List Nat).getLast?.getD 0 ≤ ([97, 98, 0, 99, 100, 0] : List Nat).length ∧
    Terminated [97, 98, 0, 99, 100, 0] [3, 6] ∧
    ([97, 98, 0, 99, 100, 0] : List Nat).length < 2 ^ 64 ∧
    ([99, 100] : List Nat).length < 2 ^ 64 ∧
    ∃ result, ArrayHasStringImpl.vector [97, 98, 0, 99, 100, 0] [2] [3, 6] [99, 100] []
        = some result ∧
      ∀ i, i < ([2] : List Nat).length →
        (result[i]? = some 1 ↔
          ∃ k, rowStart [2] i ≤ k ∧ k < ([2] : List Nat).getD i 0 ∧
            rowLength [3, 6] k - 1 = ([99, 100] : List Nat).length ∧
            stringContent [97, 98, 0, 99, 100, 0] [3, 6] k = [99, 100]) :=
  have hterm : Terminated [97, 98, 0, 99, 100, 0] [3, 6] := by
    intro k hk
    have hk2 : k < 2 := hk
    interval_cases k <;> decide
  ⟨by decide, by decide, by decide, by decide, hterm, by decide, by decide,
    (C3_ArrayHasStringImpl_vector [97, 98, 0, 99, 100, 0] [2] [3, 6] [99, 100]
      (by decide) (by decide) (by decide) (by decide) hterm (by decide) (by decide)).1.imp
      (fun _ h => ⟨h.1, fun i hi => (h.2.2 i hi).1⟩)⟩

/-- C4: `ArrayElementStringImpl::vector` on empty result buffers, for a
well-formed array-of-strings column (array offsets non-decreasing and within
the nested strings, string offsets strictly increasing and within the bytes;
input bytes plus one byte per row fit `size_t`): for every row `i` the `i`-th
output string, read through the output offsets, is byte for byte the full range
of the nested string number `start_i + index` when `index < L_i`, and is the
single byte 0 when `index ≥ L_i`. -/
theorem C4_ArrayElementStringImpl_vector (data offsets string_offsets : List Nat)
    (index : Nat) (hmono : offsets.Pairwise (· ≤ ·))
    (hlast : offsets.getLast?.getD 0 ≤ string_offsets.length)
    (hso : string_offsets.Pairwise (· < ·))
    (hsolast : string_offsets.getLast?.getD 0 ≤ data.length)
    (hsize : data.length + offsets.length < 2 ^ 64) :
    ∃ result_data result_offsets,
      ArrayElementStringImpl.vector data offsets string_offsets index [] []
        = some (result_data, result_offsets) ∧
      result_offsets.length = offsets.length ∧
      ∀ i, i < offsets.length →
        rowStart result_offsets i ≤ result_offsets.getD i 0 ∧
        (index < rowLength offsets i →
          stringRange result_data result_offsets i
            = stringRange data string_offsets (rowStart offsets i + index)) ∧
        (rowLength offsets i ≤ index → stringRange result_data result_offsets i = [0]) := by
  obtain ⟨rd, ro, hrun, hlen, hrows⟩ := ArrayElementStringImpl_vector_rows data offsets
    string_offsets index hmono hlast hso hsolast hsize
  refine ⟨rd, ro, hrun, hlen, fun i hi => ?_⟩
  obtain ⟨h1, h2⟩ := hrows i hi
  unfold elementStringRow at h2
  refine ⟨h1, fun h => ?_, fun h => ?_⟩
  · rw [h2, if_pos h]
  · rw [h2, if_neg (by omega)]

/-- C4 at the column `[["ab", "cd"], []]` and the 0-based index 1. -/
theorem C4_ArrayElementStringImpl_vector_witness :
    ([2, 2] : List Nat).Pairwise (· ≤ ·) ∧
    ([2, 2] : List Nat).getLast?.getD 0 ≤ ([3, 6] : List Nat).length ∧
    ([3, 6] : List Nat).Pairwise (· < ·) ∧
    ([3, 6] : List Nat).getLast?.getD 0 ≤ ([97, 98, 0, 99, 100, 0] : List Nat).length ∧
    ([97, 98, 0, 99, 100, 0] : List Nat).length + ([2, 2] : List Nat).length < 2 ^ 64 ∧
    ∃ result_data result_offsets,
      ArrayElementStringImpl.vector [97, 98, 0, 99, 100, 0] [2, 2] [3, 6] 1 [] []
        = some (result_data, result_offsets) ∧
      result_offsets.length = ([2, 2] : List Nat).length ∧
      ∀ i, i < ([2, 2] : List Nat).length →
        rowStart result_offsets i ≤ result_offsets.getD i 0 ∧
        (1 < rowLength [2, 2] i →
          stringRange result_data result_offsets i
            = stringRange [97, 98, 0, 99, 100, 0] [3, 6] (rowStart [2, 2] i + 1)) ∧
        (rowLength [2, 2] i ≤ 1 → stringRange result_data result_offsets i = [0]) :=
  ⟨by decide, by decide, by decide, by decide, by decide,
    C4_ArrayElementStringImpl_vector [97, 98, 0, 99, 100, 0] [2, 2] [3, 6] 1
      (by decide) (by decide) (by decide) (by decide) (by decide)⟩

/-- C5: `FunctionArrayElement::execute` with a constant index column holding
the unsigned value `k`: for `k = 0` it throws `ZeroIndexError`
(`ZERO_ARRAY_OR_TUPLE_INDEX`) and leaves the block as it was, whatever the array
position holds; for `k ≥ 1` and a well-formed per-row numeric array column it
returns normally with a numeric result column whose row `i` is the element at
position `k - 1` from the row's start whenever `k ≤ L_i`.  On the row
`[10, 20, 30]`: `k = 1` gives 10, `k = 3` gives 30, `k = 0` fails. -/
theorem C5_FunctionArrayElement_execute_one_based (block : Block) (a0 a1 result s k : Nat)
    (h1 : Block.column block a1 = some (.const s (.uint64 k))) :
    (k = 0 →
      FunctionArrayElement.execute block [a0, a1] result = .throw .ZeroIndexError block) ∧
    Exception.code .ZeroIndexError = some .ZERO_ARRAY_OR_TUPLE_INDEX ∧
    (1 ≤ k → k < 2 ^ 64 → ∀ (T : NumKind) (data : List Int) (offsets : List Nat),
      Block.column block a0 = some (.array (.vector T data) offsets) →
      offsets.Pairwise (· ≤ ·) → offsets.getLast?.getD 0 ≤ data.length →
      data.length < 2 ^ 64 → result < block.length → result ≠ a0 →
      ∃ res, (FunctionArrayElement.execute block [a0, a1] result).exception = none ∧
        Block.column (FunctionArrayElement.execute block [a0, a1] result).block result
          = some (.vector T res) ∧
        res.length = offsets.length ∧
        ∀ i, i < offsets.length → k ≤ rowLength offsets i →
          rowStart offsets i + (k - 1) < data.length ∧
          res[i]? = data[rowStart offsets i + (k - 1)]?) ∧
    Block.column (FunctionArrayElement.execute (blockRow_10_20_30 1) [0, 1] 2).block 2
      = some (.vector .UInt8 [10]) ∧
    Block.column (FunctionArrayElement.execute (blockRow_10_20_30 3) [0, 1] 2).block 2
      = some (.vector .UInt8 [30]) ∧
    FunctionArrayElement.execute (blockRow_10_20_30 0) [0, 1] 2
      = .throw .ZeroIndexError (blockRow_10_20_30 0) := by
  refine ⟨?_, rfl, ?_, rfl, rfl, rfl⟩
  · rintro rfl
    exact FunctionArrayElement.execute_zero h1
  · intro hk hk64 T data offsets h0 hmono hlast hsize hres hne
    obtain ⟨res, hex, hcol, hlen, hrows⟩ :=
      FunctionArrayElement_execute_number_spec h1 hk hk64 h0 hmono hlast hsize hres hne
    exact ⟨res, hex, hcol, hlen, fun i hi hle => (hrows i hi).1 (by omega)⟩

/-- C5 at the row `[10, 20, 30]` and `k = 3`. -/
theorem C5_FunctionArrayElement_execute_one_based_witness :
    Block.column (blockRow_10_20_30 3) 1 = some (.const 1 (.uint64 3)) ∧
    ∃ res, (FunctionArrayElement.execute (blockRow_10_20_30 3) [0, 1] 2).exception = none ∧
      Block.column (FunctionArrayElement.execute (blockRow_10_20_30 3) [0, 1] 2).block 2
        = some (.vector .UInt8 res) ∧
      res.length = ([3] : List Nat).length ∧
      ∀ i, i < ([3] : List Nat).length → 3 ≤ rowLength [3] i →
        rowStart [3] i + (3 - 1) < ([10, 20, 30] : List Int).length ∧
        res[i]? = ([10, 20, 30] : List Int)[rowStart [3] i + (3 - 1)]? :=
  ⟨rfl, (C5_FunctionArrayElement_execute_one_based (blockRow_10_20_30 3) 0 1 2 1 3 rfl).2.2.1
    (by decide) (by decide) .UInt8 [10, 20, 30] [3] rfl (by decide) (by decide) (by decide)
    (by decide) (by decide)⟩

/-- C6: the out-of-range asymmetry of `arrayElement` for a constant 1-based
index `k ≥ 1`.  On a constant-array column with literal sequence `A`, `execute`
throws `IndexOutOfRangeError` when `k` exceeds the length of `A` and otherwise
yields a constant column whose value is `A[k-1]`; on a well-formed per-row
numeric or string array column it never throws, and every row shorter than `k`
holds the default value (0, or the empty string with its terminator).  For
length 2 and `k = 5`: the constant array fails, the per-row columns give 0 and
the empty string. -/
theorem C6_arrayElement_out_of_range_asymmetry (block : Block) (a0 a1 result s k : Nat)
    (h1 : Block.column block a1 = some (.const s (.uint64 k))) (hk : 1 ≤ k) (hk64 : k < 2 ^ 64) :
    (∀ (s0 : Nat) (A : List Field), Block.column block a0 = some (.const s0 (.array A)) →
      (A.length < k →
        FunctionArrayElement.execute block [a0, a1] result
          = .throw .IndexOutOfRangeError block) ∧
      (k ≤ A.length → result < block.length → ∀ first, Block.column block 0 = some first →
        ∃ value, A[k - 1]? = some value ∧
          (FunctionArrayElement.execute block [a0, a1] result).exception = none ∧
          Block.column (FunctionArrayElement.execute block [a0, a1] result).block result
            = some (.const first.size value))) ∧
    (∀ (T : NumKind) (data : List Int) (offsets : List Nat),
      Block.column block a0 = some (.array (.vector T data) offsets) →
      offsets.Pairwise (· ≤ ·) → offsets.getLast?.getD 0 ≤ data.length →
      data.length < 2 ^ 64 → result < block.length → result ≠ a0 →
      ∃ res, (FunctionArrayElement.execute block [a0, a1] result).exception = none ∧
        Block.column (FunctionArrayElement.execute block [a0, a1] result).block result
          = some (.vector T res) ∧
        res.length = offsets.length ∧
        ∀ i, i < offsets.length → rowLength offsets i < k → res[i]? = some 0) ∧
    (∀ (data string_offsets offsets : List Nat),
      Block.column block a0 = some (.array (.string data string_offsets) offsets) →
      offsets.Pairwise (· ≤ ·) → offsets.getLast?.getD 0 ≤ string_offsets.length →
      string_offsets.Pairwise (· < ·) → string_offsets.getLast?.getD 0 ≤ data.length →
      data.length + offsets.length < 2 ^ 64 → result < block.length → result ≠ a0 →
      ∃ rd ro, (FunctionArrayElement.execute block [a0, a1] result).exception = none ∧
        Block.column (FunctionArrayElement.execute block [a0, a1] result).block result
          = some (.string rd ro) ∧
        ro.length = offsets.length ∧
        ∀ i, i < offsets.length → rowLength offsets i < k →
          rowStart ro i ≤ ro.getD i 0 ∧ stringRange rd ro i = [0]) ∧
    FunctionArrayElement.execute (blockConst_7_8 5) [0, 1] 2
      = .throw .IndexOutOfRangeError (blockConst_7_8 5) ∧
    Block.column (FunctionArrayElement.execute (blockConst_7_8 2) [0, 1] 2).block 2
      = some (.const 1 (.uint64 8)) ∧
    (FunctionArrayElement.execute (blockRow_7_8 5) [0, 1] 2).exception = none ∧
    Block.column (FunctionArrayElement.execute (blockRow_7_8 5) [0, 1] 2).block 2
      = some (.vector .UInt8 [0]) ∧
    (FunctionArrayElement.execute (blockRow_ab_cd 5) [0, 1] 2).exception = none ∧
    Block.column (FunctionArrayElement.execute (blockRow_ab_cd 5) [0, 1] 2).block 2
      = some (.string [0] [1]) := by
  refine ⟨?_, ?_, ?_, rfl, rfl, rfl, rfl, rfl, rfl⟩
  · intro s0 A h0
    exact FunctionArrayElement_execute_const_spec h1 hk hk64 h0
  · intro T data offsets h0 hmono hlast hsize hres hne
    obtain ⟨res, hex, hcol, hlen, hrows⟩ :=
      FunctionArrayElement_execute_number_spec h1 hk hk64 h0 hmono hlast hsize hres hne
    exact ⟨res, hex, hcol, hlen, fun i hi hlt => (hrows i hi).2 (by omega)⟩
  · intro data string_offsets offsets h0 hmono hlast hso hsolast hsize hres hne
    obtain ⟨rd, ro, hex, hcol, hlen, hrows⟩ :=
      FunctionArrayElement.execute_string_spec h1 hk hk64 h0 hmono hlast hso hsolast hsize
        hres hne
    refine ⟨rd, ro, hex, hcol, hlen, fun i hi hlt => ⟨(hrows i hi).1, ?_⟩⟩
    rw [(hrows i hi).2]
    unfold elementStringRow
    rw [if_neg (by omega)]

/-- C6 at the constant array `[7, 8]` and `k = 5`. -/
theorem C6_arrayElement_out_of_range_asymmetry_witness :
    Block.column (blockConst_7_8 5) 1 = some (.const 1 (.uint64 5)) ∧ 1 ≤ 5 ∧ 5 < 2 ^ 64 ∧
    FunctionArrayElement.execute (blockConst_7_8 5) [0, 1] 2
      = .throw .IndexOutOfRangeError (blockConst_7_8 5) :=
  ⟨rfl, by decide, by decide,
    ((C6_arrayElement_out_of_range_asymmetry (blockConst_7_8 5) 0 1 2 1 5 rfl (by decide)
      (by decide)).1 1 [.uint64 7, .uint64 8] rfl).1 (by decide)⟩

/-- C7: `FunctionArray::execute` on a non-empty argument list whose positions
all hold columns: it throws `NonConstantArgumentError` (`ILLEGAL_COLUMN`)
exactly when some argument column is not constant; otherwise it returns
normally and the result position holds a constant-array column whose row count
is that of the first argument's column and whose literal sequence has one entry
per argument, the `j`-th being the value of the `j`-th argument's column at row
0.  `array(1, 2, 3)` over a block of 5 rows yields `[1, 2, 3]` with row count
5. -/
theorem C7_FunctionArray_execute (block : Block) (arguments : List Nat) (result : Nat)
    (hne : arguments ≠ [])
    (hargs : ∀ a ∈ arguments, ∃ c, Block.column block a = some c)
    (hres : result < block.length) :
    ((FunctionArray.execute block arguments result).exception
        = some .NonConstantArgumentError
      ↔ ∃ a ∈ arguments, ∃ c, Block.column block a = some c ∧ c.isConst = false) ∧
    Exception.code .NonConstantArgumentError = some .ILLEGAL_COLUMN ∧
    ((¬ ∃ a ∈ arguments, ∃ c, Block.column block a = some c ∧ c.isConst = false) →
      ∃ (arr : List Field) (first : Column),
        (arguments[0]?).bind (Block.column block) = some first ∧
        (FunctionArray.execute block arguments result).exception = none ∧
        Block.column (FunctionArray.execute block arguments result).block result
          = some (.const first.size (.array arr)) ∧
        arr.length = arguments.length ∧
        ∀ (j a : Nat), arguments[j]? = some a →
          ∃ c, Block.column block a = some c ∧ c.constValue = arr[j]?) ∧
    (FunctionArray.execute blockArray_1_2_3 [0, 1, 2] 3).exception = none ∧
    Block.column (FunctionArray.execute blockArray_1_2_3 [0, 1, 2] 3).block 3
      = some (.const 5 (.array [.uint64 1, .uint64 2, .uint64 3])) := by
  obtain ⟨hiff, _, hok⟩ := FunctionArray.execute_spec block arguments result hne hargs
  refine ⟨hiff, rfl, ?_, rfl, rfl⟩
  intro hall
  obtain ⟨arr, first, hfirst, hrun, hlen, hget⟩ := hok hall
  have ha := Executed.assign_of_lt block result (.const first.size (.array arr)) hres
  rw [hrun]
  exact ⟨arr, first, hfirst, ha.1, ha.2.1, hlen, hget⟩

/-- C7 at `array(1, 2, 3)` over a block of 5 rows. -/
theorem C7_FunctionArray_execute_witness :
    ([0, 1, 2] : List Nat) ≠ [] ∧
    (∀ a ∈ ([0, 1, 2] : List Nat), ∃ c, Block.column blockArray_1_2_3 a = some c) ∧
    3 < blockArray_1_2_3.length ∧
    ((FunctionArray.execute blockArray_1_2_3 [0, 1, 2] 3).exception
        = some .NonConstantArgumentError
      ↔ ∃ a ∈ ([0, 1, 2] : List Nat), ∃ c,
          Block.column blockArray_1_2_3 a = some c ∧ c.isConst = false) :=
  have hargs : ∀ a ∈ ([0, 1, 2] : List Nat), ∃ c, Block.column blockArray_1_2_3 a = some c := by
    intro a ha
    simp only [List.mem_cons, List.mem_singleton, List.not_mem_nil, or_false] at ha
    rcases ha with rfl | rfl | rfl
    · exact ⟨_, rfl⟩
    · exact ⟨_, rfl⟩
    · exact ⟨_, rfl⟩
  ⟨by decide, hargs, by decide,
    (C7_FunctionArray_execute blockArray_1_2_3 [0, 1, 2] 3 (by decide) hargs (by decide)).1⟩

/-- C8: `FunctionArray::getReturnType` fails with `ArgumentCountError`
(`NUMBER_OF_ARGUMENTS_DOESNT_MATCH`) exactly on the empty list; on a non-empty
list it fails with `TypeMismatchError` (`ILLEGAL_TYPE_OF_ARGUMENT`) exactly when
some argument's type name differs from the first argument's; and it returns a
type exactly when neither holds, that type being array-of-(first argument's
type). -/
theorem C8_FunctionArray_getReturnType (arguments : List DataType) :
    (FunctionArray.getReturnType arguments = .error .ArgumentCountError ↔ arguments = []) ∧
    (FunctionArray.getReturnType arguments = .error .TypeMismatchError ↔
      ∃ first rest, arguments = first :: rest ∧
        ∃ t ∈ first :: rest, t.getName ≠ first.getName) ∧
    (∀ type, FunctionArray.getReturnType arguments = .ok type ↔
      ∃ first rest, arguments = first :: rest ∧
        (∀ t ∈ first :: rest, t.getName = first.getName) ∧ type = .array first) ∧
    Exception.code .ArgumentCountError = some .NUMBER_OF_ARGUMENTS_DOESNT_MATCH ∧
    Exception.code .TypeMismatchError = some .ILLEGAL_TYPE_OF_ARGUMENT := by
  refine ⟨?_, ?_, ?_, rfl, rfl⟩
  · cases arguments with
    | nil => simp [FunctionArray.getReturnType]
    | cons first rest =>
      simp only [FunctionArray.getReturnType, reduceCtorEq, iff_false]
      split <;> simp
  · cases arguments with
    | nil => simp [FunctionArray.getReturnType]
    | cons first rest =>
      simp only [FunctionArray.getReturnType]
      by_cases h : FunctionArray.getReturnType.differs first rest = true
      · rw [if_pos h]
        simp only [true_iff]
        obtain ⟨t, ht, hne⟩ := (FunctionArray.getReturnType.differs_iff first rest).1 h
        exact ⟨first, rest, rfl, t, List.mem_cons_of_mem _ ht, hne⟩
      · rw [if_neg h]
        simp only [reduceCtorEq, false_iff]
        rintro ⟨f, r, heq, t, ht, hne⟩
        cases heq
        apply h
        rw [FunctionArray.getReturnType.differs_iff]
        rcases List.mem_cons.1 ht with rfl | ht
        · exact absurd rfl hne
        · exact ⟨t, ht, hne⟩
  · intro type
    cases arguments with
    | nil => simp [FunctionArray.getReturnType]
    | cons first rest =>
      simp only [FunctionArray.getReturnType]
      by_cases h : FunctionArray.getReturnType.differs first rest = true
      · rw [if_pos h]
        simp only [reduceCtorEq, false_iff]
        rintro ⟨f, r, heq, hall, _⟩
        cases heq
        obtain ⟨t, ht, hne⟩ := (FunctionArray.getReturnType.differs_iff first rest).1 h
        exact hne (hall t (List.mem_cons_of_mem _ ht))
      · rw [if_neg h]
        have hall : ∀ t ∈ first :: rest, t.getName = first.getName := by
          intro t ht
          rcases List.mem_cons.1 ht with rfl | ht
          · rfl
          · by_contra hne
            exact h ((FunctionArray.getReturnType.differs_iff first rest).2 ⟨t, ht, hne⟩)
        constructor
        · intro heq
          cases heq
          exact ⟨first, rest, rfl, hall, rfl⟩
        · rintro ⟨f, r, heq, _, rfl⟩
          cases heq
          rfl

/-- C9: `FunctionHas::getReturnType` succeeds exactly when there are two
arguments, the first an array type whose nested type name equals the type name
of the second; on success it returns `UInt8`; a wrong count fails with
`ArgumentCountError` and every other failure with `TypeMismatchError`; so
`(Array(UInt8), Int64)` fails with `TypeMismatchError`. -/
theorem C9_FunctionHas_getReturnType (arguments : List DataType) :
    (∀ type, FunctionHas.getReturnType arguments = .ok type ↔
      type = .number .UInt8 ∧ ∃ nested second, arguments = [.array nested, second] ∧
        nested.getName = second.getName) ∧
    (FunctionHas.getReturnType arguments = .error .ArgumentCountError ↔
      arguments.length ≠ 2) ∧
    (FunctionHas.getReturnType arguments = .error .TypeMismatchError ↔
      arguments.length = 2 ∧ ¬ ∃ nested second, arguments = [.array nested, second] ∧
        nested.getName = second.getName) ∧
    FunctionHas.getReturnType [.array (.number .UInt8), .number .Int64]
      = .error .TypeMismatchError := by
  refine ⟨?_, ?_, ?_, by rfl⟩
  · intro type
    match arguments with
    | [] => simp [FunctionHas.getReturnType]
    | [_] => simp [FunctionHas.getReturnType]
    | _ :: _ :: _ :: _ => simp [FunctionHas.getReturnType]
    | [first, second] =>
      cases first with
      | number kind => simp [FunctionHas.getReturnType, DataType.asArray]
      | string => simp [FunctionHas.getReturnType, DataType.asArray]
      | array nested =>
        simp only [FunctionHas.getReturnType, DataType.asArray]
        by_cases h : nested.getName ≠ second.getName
        · rw [if_pos h]
          simp only [reduceCtorEq, false_iff]
          rintro ⟨_, n, s2, heq, hn⟩
          cases heq
          exact h hn
        · rw [if_neg h]
          constructor
          · intro heq
            cases heq
            exact ⟨rfl, nested, second, rfl, not_not.1 h⟩
          · rintro ⟨rfl, _⟩
            rfl
  · match arguments with
    | [] => simp [FunctionHas.getReturnType]
    | [_] => simp [FunctionHas.getReturnType]
    | _ :: _ :: _ :: _ => simp [FunctionHas.getReturnType]
    | [first, second] =>
      cases first with
      | number kind => simp [FunctionHas.getReturnType, DataType.asArray]
      | string => simp [FunctionHas.getReturnType, DataType.asArray]
      | array nested =>
        simp only [FunctionHas.getReturnType, DataType.asArray]
        split <;> simp
  · match arguments with
    | [] => simp [FunctionHas.getReturnType]
    | [_] => simp [FunctionHas.getReturnType]
    | _ :: _ :: _ :: _ => simp [FunctionHas.getReturnType]
    | [first, second] =>
      cases first with
      | number kind => simp [FunctionHas.getReturnType, DataType.asArray]
      | string => simp [FunctionHas.getReturnType, DataType.asArray]
      | array nested =>
        simp only [FunctionHas.getReturnType, DataType.asArray]
        by_cases h : nested.getName ≠ second.getName
        · rw [if_pos h]
          simp only [List.length_cons, List.length_nil, true_and, true_iff]
          rintro ⟨n, s2, heq, hn⟩
          cases heq
          exact h hn
        · rw [if_neg h]
          simp only [reduceCtorEq, false_iff, not_and, not_not]
          intro _
          exact ⟨nested, second, rfl, not_not.1 h⟩

/-- C10: `FunctionArrayElement::getReturnType` fails with `ArgumentCountError`
exactly when the number of arguments is not 2; with two arguments it fails with
`TypeMismatchError` exactly when the first is not an array type or the second is
not an unsigned-integer type (so a signed integer, a float and a string are
rejected); and for `Array(T)` with an unsigned-integer second argument it
returns exactly `T`. -/
theorem C10_FunctionArrayElement_getReturnType (arguments : List DataType) :
    (FunctionArrayElement.getReturnType arguments = .error .ArgumentCountError ↔
      arguments.length ≠ 2) ∧
    (∀ first second,
      (FunctionArrayElement.getReturnType [first, second] = .error .TypeMismatchError ↔
        first.asArray = none ∨ second.isUnsignedInteger = false)) ∧
    (∀ T second type,
      (FunctionArrayElement.getReturnType [.array T, second] = .ok type ↔
        second.isUnsignedInteger = true ∧ type = T)) ∧
    (∀ T, FunctionArrayElement.getReturnType [.array T, .number .Int32]
        = .error .TypeMismatchError ∧
      FunctionArrayElement.getReturnType [.array T, .number .Float64]
        = .error .TypeMismatchError ∧
      FunctionArrayElement.getReturnType [.array T, .string]
        = .error .TypeMismatchError) := by
  have hcheck := unsigned_check_eq
  refine ⟨?_, ?_, ?_, ?_⟩
  · match arguments with
    | [] => simp [FunctionArrayElement.getReturnType]
    | [_] => simp [FunctionArrayElement.getReturnType]
    | _ :: _ :: _ :: _ => simp [FunctionArrayElement.getReturnType]
    | [first, second] =>
      simp only [FunctionArrayElement.getReturnType]
      split
      · simp
      · split <;> simp
  · intro first second
    cases first with
    | number kind => simp [FunctionArrayElement.getReturnType, DataType.asArray]
    | string => simp [FunctionArrayElement.getReturnType, DataType.asArray]
    | array nested =>
      simp only [FunctionArrayElement.getReturnType, DataType.asArray, hcheck]
      cases second.isUnsignedInteger <;> simp
  · intro T second type
    simp only [FunctionArrayElement.getReturnType, DataType.asArray, hcheck]
    cases second.isUnsignedInteger
    · simp
    · simp only [Bool.not_true, Bool.false_eq_true, if_false, true_and]
      constructor
      · intro h
        cases h
        rfl
      · rintro rfl
        rfl
  · intro T
    simp only [FunctionArrayElement.getReturnType, DataType.asArray, hcheck]
    exact ⟨rfl, rfl, rfl⟩

/-- C11, as stated, fails: over a block whose position 0 holds a column of 3
rows while the constant array `[7, 8]` and the constant index at positions 1 and
2 have 5 rows, `arrayElement` and `has` return normally with a result column of
3 rows, not the 5 rows of the array argument column. -/
theorem C11_row_count_counterexample :
    Block.column (blockBehind (some (.vector .UInt8 [1, 2, 3]))) 1
      = some (.const 5 (.array [.uint64 7, .uint64 8])) ∧
    Block.column (blockBehind (some (.vector .UInt8 [1, 2, 3]))) 2
      = some (.const 5 (.uint64 1)) ∧
    (FunctionArrayElement.execute (blockBehind (some (.vector .UInt8 [1, 2, 3])))
      [1, 2] 3).exception = none ∧
    Block.column (FunctionArrayElement.execute (blockBehind (some (.vector .UInt8 [1, 2, 3])))
      [1, 2] 3).block 3 = some (.const 3 (.uint64 7)) ∧
    (FunctionHas.execute id (blockBehind (some (.vector .UInt8 [1, 2, 3])))
      [1, 2] 3).exception = none ∧
    Block.column (FunctionHas.execute id (blockBehind (some (.vector .UInt8 [1, 2, 3])))
      [1, 2] 3).block 3 = some (.const 3 (.uint64 0)) ∧
    (Column.const 3 (.uint64 7)).size ≠ (Column.const 5 (.array [.uint64 7, .uint64 8])).size ∧
    (Column.const 3 (.uint64 0)).size ≠ (Column.const 5 (.array [.uint64 7, .uint64 8])).size :=
  ⟨rfl, rfl, rfl, rfl, rfl, rfl, by decide, by decide⟩

/-- C11, amended: every run of `arrayElement` or `has` that returns normally
leaves at the result position a column whose row count is `offsets.size()`, the
row count of the array argument column, for a per-row (numeric or string) array
argument and, for a constant-array argument, the row count of the column at
block position 0, from which the code reads it; this is the repeat count of the
constant array whenever the column at position 0 has that row count, and in a
block whose columns share one row count it is the row count of the array
argument column and of the constant index or needle column. -/
theorem C11_row_count_preservation (toFloat32 : Nat → Nat) (block : Block)
    (arguments : List Nat) (result : Nat) :
    ((FunctionArrayElement.execute block arguments result).exception = none →
      RowCountPreserved block arguments result
        (FunctionArrayElement.execute block arguments result)) ∧
    ((FunctionHas.execute toFloat32 block arguments result).exception = none →
      RowCountPreserved block arguments result
        (FunctionHas.execute toFloat32 block arguments result)) := by
  constructor
  · intro hok
    rcases FunctionArrayElement_execute_shape block arguments result with ⟨x, hx⟩ | hu | h
    · rw [hx] at hok
      cases hok
    · rw [hu] at hok
      cases hok
    · obtain ⟨a0, a1, c0, c1, c, ha0, ha1, hc0, hc1, hres, he, hshape⟩ := h
      have hcol := (Executed.assign_of_lt block result c hres).2.1
      rw [he]
      refine ⟨a0, a1, c0, c1, c, ha0, ha1, hc0, hc1, hcol, ?_, ?_, ?_, ?_⟩
      · intro nested offsets hc
        rcases hshape with ⟨T, data, o, res, h1, _, h2, h3⟩ | ⟨data, so, o, rd, ro, h1, _, h2, h3⟩ |
          ⟨s0, A, v, first, h1, _, _, _⟩
        · rw [h1] at hc
          cases hc
          rw [h2]
          exact h3
        · rw [h1] at hc
          cases hc
          rw [h2]
          exact h3
        · rw [h1] at hc
          cases hc
      · intro s0 A hc
        rcases hshape with ⟨T, data, o, res, h1, _, _, _⟩ | ⟨data, so, o, rd, ro, h1, _, _, _⟩ |
          ⟨s1, A1, v, first, h1, _, hf, h2⟩
        · rw [h1] at hc
          cases hc
        · rw [h1] at hc
          cases hc
        · exact ⟨first, hf, by rw [h2]; rfl⟩
      · intro hfirst
        rcases hshape with ⟨T, data, o, res, e1, _, e2, e3⟩ |
          ⟨data, so, o, rd, ro, e1, _, e2, e3⟩ | ⟨s1, A1, v, first, e1, _, hf, e2⟩
        · rw [e1, e2]
          exact e3
        · rw [e1, e2]
          exact e3
        · rw [e2]
          exact hfirst first hf
      · intro n hrows
        have h0 := hrows a0 c0 hc0
        have h1 := hrows a1 c1 hc1
        have hn : c.size = n := by
          rcases hshape with ⟨T, data, o, res, e1, _, e2, e3⟩ |
            ⟨data, so, o, rd, ro, e1, _, e2, e3⟩ | ⟨s1, A1, v, first, e1, _, hf, e2⟩
          · rw [e1] at h0
            rw [e2, ← h0]
            exact e3
          · rw [e1] at h0
            rw [e2, ← h0]
            exact e3
          · rw [e2]
            exact hrows 0 first hf
        exact ⟨by rw [hn, h0], by rw [hn, h1], hn⟩
  · intro hok
    rcases FunctionHas_execute_shape toFloat32 block arguments result with
      ⟨x, _, hx⟩ | hu | ⟨b1, _, hb⟩ | h
    · rw [hx] at hok
      cases hok
    · rw [hu] at hok
      cases hok
    · rw [hb] at hok
      cases hok
    · obtain ⟨a0, a1, c0, c1, c, ha0, ha1, hc0, hc1, hres, he, hshape⟩ := h
      have hcol := (Executed.assign_of_lt block result c hres).2.1
      rw [he]
      refine ⟨a0, a1, c0, c1, c, ha0, ha1, hc0, hc1, hcol, ?_, ?_, ?_, ?_⟩
      · intro nested offsets hc
        rcases hshape with ⟨T, data, o, res, h1, _, h2, h3⟩ | ⟨data, so, o, res, h1, _, h2, h3⟩ |
          ⟨s0, A, v, first, h1, _, _, _⟩
        · rw [h1] at hc
          cases hc
          rw [h2]
          exact h3
        · rw [h1] at hc
          cases hc
          rw [h2]
          exact h3
        · rw [h1] at hc
          cases hc
      · intro s0 A hc
        rcases hshape with ⟨T, data, o, res, h1, _, _, _⟩ | ⟨data, so, o, res, h1, _, _, _⟩ |
          ⟨s1, A1, v, first, h1, _, hf, h2⟩
        · rw [h1] at hc
          cases hc
        · rw [h1] at hc
          cases hc
        · exact ⟨first, hf, by rw [h2]; rfl⟩
      · intro hfirst
        rcases hshape with ⟨T, data, o, res, e1, _, e2, e3⟩ |
          ⟨data, so, o, res, e1, _, e2, e3⟩ | ⟨s1, A1, v, first, e1, _, hf, e2⟩
        · rw [e1, e2]
          exact e3
        · rw [e1, e2]
          exact e3
        · rw [e2]
          exact hfirst first hf
      · intro n hrows
        have h0 := hrows a0 c0 hc0
        have h1 := hrows a1 c1 hc1
        have hn : c.size = n := by
          rcases hshape with ⟨T, data, o, res, e1, _, e2, e3⟩ |
            ⟨data, so, o, res, e1, _, e2, e3⟩ | ⟨s1, A1, v, first, e1, _, hf, e2⟩
          · rw [e1] at h0
            rw [e2, ← h0]
            exact e3
          · rw [e1] at h0
            rw [e2, ← h0]
            exact e3
          · rw [e2]
            exact hrows 0 first hf
        exact ⟨by rw [hn, h0], by rw [hn, h1], hn⟩

/-- C11 amended, at `has([1, 2, 3], 2)` over the constant array, a block of one
row. -/
theorem C11_row_count_preservation_witness :
    (∀ p col, Block.column (blockHasConst_1_2_3 (.uint64 2)) p = some col → col.size = 1) ∧
    (FunctionHas.execute id (blockHasConst_1_2_3 (.uint64 2)) [0, 1] 2).exception = none ∧
    RowCountPreserved (blockHasConst_1_2_3 (.uint64 2)) [0, 1] 2
      (FunctionHas.execute id (blockHasConst_1_2_3 (.uint64 2)) [0, 1] 2) :=
  have hrows : ∀ p col,
      Block.column (blockHasConst_1_2_3 (.uint64 2)) p = some col → col.size = 1 := by
    intro p col h
    match p, h with
    | 0, h =>
      simp only [Block.column, blockHasConst_1_2_3, List.getElem?_cons_zero,
        Option.some.injEq] at h
      rw [← h]
      rfl
    | 1, h =>
      simp only [Block.column, blockHasConst_1_2_3, List.getElem?_cons_succ,
        List.getElem?_cons_zero, Option.some.injEq] at h
      rw [← h]
      rfl
    | 2, h => simp [Block.column, blockHasConst_1_2_3] at h
    | p + 3, h => simp [Block.column, blockHasConst_1_2_3] at h
  ⟨hrows, rfl,
    (C11_row_count_preservation id (blockHasConst_1_2_3 (.uint64 2)) [0, 1] 2).2 rfl⟩

/-- C12: error precedence in `execute` of `arrayElement` and `has`.  When the
second argument's column is not constant, both throw `NonConstantArgumentError`
and leave the block as it was, whatever the first position holds.  When it is
constant (for `arrayElement`: an unsigned value other than 0) and the first
argument's column is none of the supported representations, each of the ten
numeric specializations, the constant-array one and the string one declines,
and the call throws `UnsupportedColumnTypeError`.  An array of arrays and a
plain numeric column are such columns. -/
theorem C12_error_precedence (toFloat32 : Nat → Nat) (block : Block) (a0 a1 result : Nat)
    (c1 : Column) (h1 : Block.column block a1 = some c1) :
    (c1.isConst = false →
      FunctionArrayElement.execute block [a0, a1] result
        = .throw .NonConstantArgumentError block ∧
      FunctionHas.execute toFloat32 block [a0, a1] result
        = .throw .NonConstantArgumentError block) ∧
    (∀ c0 value, c1.constValue = some value → Block.column block a0 = some c0 →
      c0.supported = false →
      ((∀ T, FunctionHas.executeNumber toFloat32 T block [a0, a1] result value = none) ∧
        FunctionHas.executeConst block [a0, a1] result value = none ∧
        FunctionHas.executeString block [a0, a1] result value = none ∧
        FunctionHas.execute toFloat32 block [a0, a1] result
          = .throw .UnsupportedColumnTypeError block) ∧
      (∀ k, value = .uint64 k → k ≠ 0 →
        (∀ T, FunctionArrayElement.executeNumber T block [a0, a1] result (sub64 k 1) = none) ∧
        FunctionArrayElement.executeConst block [a0, a1] result (sub64 k 1) = none ∧
        FunctionArrayElement.executeString block [a0, a1] result (sub64 k 1) = none ∧
        FunctionArrayElement.execute block [a0, a1] result
          = .throw .UnsupportedColumnTypeError block)) ∧
    FunctionArrayElement.execute (blockNested (.uint64 1)) [0, 1] 2
      = .throw .UnsupportedColumnTypeError (blockNested (.uint64 1)) ∧
    FunctionHas.execute toFloat32 (blockNested (.uint64 1)) [0, 1] 2
      = .throw .UnsupportedColumnTypeError (blockNested (.uint64 1)) ∧
    FunctionArrayElement.execute (blockPlain (.uint64 1)) [0, 1] 2
      = .throw .UnsupportedColumnTypeError (blockPlain (.uint64 1)) ∧
    FunctionHas.execute toFloat32 (blockPlain (.uint64 1)) [0, 1] 2
      = .throw .UnsupportedColumnTypeError (blockPlain (.uint64 1)) ∧
    FunctionArrayElement.execute blockNonConstant [0, 1] 2
      = .throw .NonConstantArgumentError blockNonConstant := by
  refine ⟨?_, ?_, rfl, rfl, rfl, rfl, rfl⟩
  · intro hconst
    constructor
    · simp [FunctionArrayElement.execute, h1, hconst]
    · simp [FunctionHas.execute, h1, hconst]
  · intro c0 value hval h0 hsupp
    have hconst : c1.isConst = true := by
      cases c1 with
      | const s v => rfl
      | vector kind data => simp [Column.constValue] at hval
      | string data offsets => simp [Column.constValue] at hval
      | array data offsets => simp [Column.constValue] at hval
    have hn : ∀ T, FunctionHas.executeNumber toFloat32 T block [a0, a1] result value = none := by
      intro T
      cases c0 with
      | vector kind data => simp [FunctionHas.executeNumber, h0]
      | string data offsets => simp [FunctionHas.executeNumber, h0]
      | const s v => simp [FunctionHas.executeNumber, h0]
      | array nested offsets =>
        cases nested with
        | vector kind data => simp [Column.supported] at hsupp
        | string data so => simp [Column.supported] at hsupp
        | const s v => simp [FunctionHas.executeNumber, h0]
        | array d o => simp [FunctionHas.executeNumber, h0]
    have hc : FunctionHas.executeConst block [a0, a1] result value = none := by
      cases c0 with
      | vector kind data => simp [FunctionHas.executeConst, h0]
      | string data offsets => simp [FunctionHas.executeConst, h0]
      | array nested offsets => simp [FunctionHas.executeConst, h0]
      | const s v =>
        cases v with
        | array A => simp [Column.supported] at hsupp
        | uint64 v => simp [FunctionHas.executeConst, h0]
        | int64 v => simp [FunctionHas.executeConst, h0]
        | float64 v => simp [FunctionHas.executeConst, h0]
        | string v => simp [FunctionHas.executeConst, h0]
    have hs : FunctionHas.executeString block [a0, a1] result value = none := by
      cases c0 with
      | vector kind data => simp [FunctionHas.executeString, h0]
      | string data offsets => simp [FunctionHas.executeString, h0]
      | const s v => simp [FunctionHas.executeString, h0]
      | array nested offsets =>
        cases nested with
        | vector kind data => simp [Column.supported] at hsupp
        | string data so => simp [Column.supported] at hsupp
        | const s v => simp [FunctionHas.executeString, h0]
        | array d o => simp [FunctionHas.executeString, h0]
    refine ⟨⟨hn, hc, hs, ?_⟩, ?_⟩
    · simp [FunctionHas.execute, h1, hconst, hval, FunctionHas.dispatch, hn, hc, hs]
    · intro k hk hk0
      have hn2 : ∀ T, FunctionArrayElement.executeNumber T block [a0, a1] result (sub64 k 1)
          = none := by
        intro T
        cases c0 with
        | vector kind data => simp [FunctionArrayElement.executeNumber, h0]
        | string data offsets => simp [FunctionArrayElement.executeNumber, h0]
        | const s v => simp [FunctionArrayElement.executeNumber, h0]
        | array nested offsets =>
          cases nested with
          | vector kind data => simp [Column.supported] at hsupp
          | string data so => simp [Column.supported] at hsupp
          | const s v => simp [FunctionArrayElement.executeNumber, h0]
          | array d o => simp [FunctionArrayElement.executeNumber, h0]
      have hc2 : FunctionArrayElement.executeConst block [a0, a1] result (sub64 k 1) = none := by
        cases c0 with
        | vector kind data => simp [FunctionArrayElement.executeConst, h0]
        | string data offsets => simp [FunctionArrayElement.executeConst, h0]
        | array nested offsets => simp [FunctionArrayElement.executeConst, h0]
        | const s v =>
          cases v with
          | array A => simp [Column.supported] at hsupp
          | uint64 v => simp [FunctionArrayElement.executeConst, h0]
          | int64 v => simp [FunctionArrayElement.executeConst, h0]
          | float64 v => simp [FunctionArrayElement.executeConst, h0]
          | string v => simp [FunctionArrayElement.executeConst, h0]
      have hs2 : FunctionArrayElement.executeString block [a0, a1] result (sub64 k 1)
          = none := by
        cases c0 with
        | vector kind data => simp [FunctionArrayElement.executeString, h0]
        | string data offsets => simp [FunctionArrayElement.executeString, h0]
        | const s v => simp [FunctionArrayElement.executeString, h0]
        | array nested offsets =>
          cases nested with
          | vector kind data => simp [Column.supported] at hsupp
          | string data so => simp [Column.supported] at hsupp
          | const s v => simp [FunctionArrayElement.executeString, h0]
          | array d o => simp [FunctionArrayElement.executeString, h0]
      refine ⟨hn2, hc2, hs2, ?_⟩
      subst hk
      simp [FunctionArrayElement.execute, h1, hconst, hval, hk0,
        FunctionArrayElement.dispatch, hn2, hc2, hs2]

/-- C12 at a block whose second argument is a per-row column. -/
theorem C12_error_precedence_witness :
    Block.column blockNonConstant 1 = some (.vector .UInt8 [1]) ∧
    (Column.vector .UInt8 [1]).isConst = false ∧
    FunctionArrayElement.execute blockNonConstant [0, 1] 2
      = .throw .NonConstantArgumentError blockNonConstant ∧
    FunctionHas.execute id blockNonConstant [0, 1] 2
      = .throw .NonConstantArgumentError blockNonConstant :=
  ⟨rfl, rfl, (C12_error_precedence id blockNonConstant 0 1 2 _ rfl).1 rfl⟩

/-- C13: `has` over a constant-array column with literal sequence `A` and needle
`v` returns normally with a constant column whose single value is 1 exactly when
some entry of `A` equals `v` under the equality of scalar values, and 0
otherwise; entries of another kind than `v` are not equal to it; `has([1,2,3], 2)`
is 1 and `has([1,2,3], 5)` is 0. -/
theorem C13_FunctionHas_executeConst (toFloat32 : Nat → Nat) (block : Block)
    (a0 a1 result s s0 : Nat) (A : List Field) (v : Field) (first : Column)
    (h1 : Block.column block a1 = some (.const s v))
    (h0 : Block.column block a0 = some (.const s0 (.array A)))
    (hres : result < block.length) (hfirst : Block.column block 0 = some first) :
    (∃ bit, (FunctionHas.execute toFloat32 block [a0, a1] result).exception = none ∧
      Block.column (FunctionHas.execute toFloat32 block [a0, a1] result).block result
        = some (.const first.size (.uint64 bit)) ∧
      (bit = 1 ↔ ∃ x ∈ A, Field.eq x v = true) ∧
      (bit = 0 ↔ ¬ ∃ x ∈ A, Field.eq x v = true)) ∧
    (∀ x y : Field, x.which ≠ y.which → Field.eq x y = false) ∧
    Block.column (FunctionHas.execute toFloat32 (blockHasConst_1_2_3 (.uint64 2)) [0, 1] 2).block 2
      = some (.const 1 (.uint64 1)) ∧
    Block.column (FunctionHas.execute toFloat32 (blockHasConst_1_2_3 (.uint64 5)) [0, 1] 2).block 2
      = some (.const 1 (.uint64 0)) ∧
    Block.column (FunctionHas.execute toFloat32 (blockHasConst_1_2_3 (.int64 2)) [0, 1] 2).block 2
      = some (.const 1 (.uint64 0)) := by
  refine ⟨?_, Field.eq_false_of_which, rfl, rfl, rfl⟩
  have he := FunctionHas_execute_const_spec toFloat32 h1 h0 hres hfirst
  have ha := Executed.assign_of_lt block result
    (.const first.size (.uint64 (if FunctionHas.executeConst.found v A then 1 else 0))) hres
  rw [he]
  refine ⟨_, ha.1, ha.2.1, ?_, ?_⟩
  · rw [← FunctionHas.executeConst.found_iff]
    split <;> simp_all
  · rw [← FunctionHas.executeConst.found_iff]
    split <;> simp_all

/-- C13 at `has([1, 2, 3], 2)`. -/
theorem C13_FunctionHas_executeConst_witness :
    Block.column (blockHasConst_1_2_3 (.uint64 2)) 1 = some (.const 1 (.uint64 2)) ∧
    Block.column (blockHasConst_1_2_3 (.uint64 2)) 0
      = some (.const 1 (.array [.uint64 1, .uint64 2, .uint64 3])) ∧
    2 < (blockHasConst_1_2_3 (.uint64 2)).length ∧
    ∃ bit, (FunctionHas.execute id (blockHasConst_1_2_3 (.uint64 2)) [0, 1] 2).exception = none ∧
      Block.column (FunctionHas.execute id (blockHasConst_1_2_3 (.uint64 2)) [0, 1] 2).block 2
        = some (.const (Column.const 1 (.array [.uint64 1, .uint64 2, .uint64 3])).size
            (.uint64 bit)) ∧
      (bit = 1 ↔ ∃ x ∈ [Field.uint64 1, .uint64 2, .uint64 3], Field.eq x (.uint64 2) = true) ∧
      (bit = 0 ↔ ¬ ∃ x ∈ [Field.uint64 1, .uint64 2, .uint64 3], Field.eq x (.uint64 2) = true) :=
  ⟨rfl, rfl, by decide,
    (C13_FunctionHas_executeConst id (blockHasConst_1_2_3 (.uint64 2)) 0 1 2 1 1 _ _ _
      rfl rfl (by decide) rfl).1⟩

/-- C14, as stated, fails: `has` over a per-row `UInt8` array with a needle held
as a signed value cannot extract the needle and throws, and the result position,
empty before the call, then holds the empty result column attached before the
extraction. -/
theorem C14_atomicity_counterexample :
    (FunctionHas.execute id (blockHasRow_1_2_3 (.int64 2)) [0, 1] 2).exception = some .BadGet ∧
    Block.column (blockHasRow_1_2_3 (.int64 2)) 2 = none ∧
    Block.column (FunctionHas.execute id (blockHasRow_1_2_3 (.int64 2)) [0, 1] 2).block 2
      = some (.vector .UInt8 []) ∧
    Block.column (FunctionHas.execute id (blockHasRow_1_2_3 (.int64 2)) [0, 1] 2).block 2
      ≠ Block.column (blockHasRow_1_2_3 (.int64 2)) 2 :=
  ⟨rfl, rfl, rfl, fun h => Option.noConfusion h⟩

/-- C14, amended: every execution of `array`, `arrayElement` or `has` that
throws `NonConstantArgumentError`, `ZeroIndexError`, `IndexOutOfRangeError` or
`UnsupportedColumnTypeError` leaves the whole block, and so the column at the
result position, as it was before the call; when `has` fails to extract the
needle, the result position holds the empty result column that the per-row
paths attach before extracting the needle and running the kernel. -/
theorem C14_atomicity_of_listed_errors (toFloat32 : Nat → Nat) (block : Block)
    (arguments : List Nat) (result : Nat) (x : Exception)
    (hx : x = .NonConstantArgumentError ∨ x = .ZeroIndexError ∨ x = .IndexOutOfRangeError ∨
      x = .UnsupportedColumnTypeError) :
    ((FunctionArray.execute block arguments result).exception = some x →
      (FunctionArray.execute block arguments result).block = block) ∧
    ((FunctionArrayElement.execute block arguments result).exception = some x →
      (FunctionArrayElement.execute block arguments result).block = block) ∧
    ((FunctionHas.execute toFloat32 block arguments result).exception = some x →
      (FunctionHas.execute toFloat32 block arguments result).block = block) ∧
    ((FunctionHas.execute toFloat32 block arguments result).exception = some .BadGet →
      Block.column (FunctionHas.execute toFloat32 block arguments result).block result
        = some (.vector .UInt8 [])) := by
  have hxu : x ≠ .Undefined := by
    rcases hx with rfl | rfl | rfl | rfl <;> decide
  refine ⟨FunctionArray.execute_block_of_exception, ?_, ?_, ?_⟩
  · intro h
    rcases FunctionArrayElement_execute_shape block arguments result with ⟨y, hy⟩ | hu | hs
    · rw [hy]
      rfl
    · rw [hu] at h
      exact absurd (Option.some.inj h).symm hxu
    · obtain ⟨_, _, _, _, c, _, _, _, _, hres, he, _⟩ := hs
      rw [he] at h
      rw [(Executed.assign_of_lt block result c hres).1] at h
      cases h
  · intro h
    rcases FunctionHas_execute_shape toFloat32 block arguments result with
      ⟨y, _, hy⟩ | hu | ⟨b1, _, hb⟩ | hs
    · rw [hy]
      rfl
    · rw [hu] at h
      exact absurd (Option.some.inj h).symm hxu
    · rw [hb] at h
      have : x = .BadGet := (Option.some.inj h).symm
      rcases hx with rfl | rfl | rfl | rfl <;> cases this
    · obtain ⟨_, _, _, _, c, _, _, _, _, hres, he, _⟩ := hs
      rw [he] at h
      rw [(Executed.assign_of_lt block result c hres).1] at h
      cases h
  · intro h
    rcases FunctionHas_execute_shape toFloat32 block arguments result with
      ⟨y, hne, hy⟩ | hu | ⟨b1, hset, hb⟩ | hs
    · rw [hy] at h
      exact absurd (Option.some.inj h) hne
    · rw [hu] at h
      cases h
    · rw [hb]
      exact Block.column_setColumn hset
    · obtain ⟨_, _, _, _, c, _, _, _, _, hres, he, _⟩ := hs
      rw [he] at h
      rw [(Executed.assign_of_lt block result c hres).1] at h
      cases h

/-- C14 amended, at the constant array `[7, 8]` and the index 5. -/
theorem C14_atomicity_of_listed_errors_witness :
    (FunctionArrayElement.execute (blockConst_7_8 5) [0, 1] 2).exception
      = some .IndexOutOfRangeError ∧
    (FunctionArrayElement.execute (blockConst_7_8 5) [0, 1] 2).block = blockConst_7_8 5 :=
  ⟨rfl, (C14_atomicity_of_listed_errors id (blockConst_7_8 5) [0, 1] 2 .IndexOutOfRangeError
    (Or.inr (Or.inr (Or.inl rfl)))).2.1 rfl⟩

/-- C15, as stated, fails: two blocks hold the same constant array and index at
the argument positions 1 and 2 and the same type at the result position 3, and
differ only at position 0, which is no argument; `arrayElement` and `has` return
a result of 5 rows on the first and of 3 rows on the second, and have no defined
outcome on a third whose position 0 holds no column. -/
theorem C15_kernels_read_only_arguments_counterexample :
    SameArguments (blockBehind (some (.vector .UInt8 [1, 2, 3, 4, 5])))
      (blockBehind (some (.vector .UInt8 [1, 2, 3]))) [1, 2] 3 ∧
    SameArguments (blockBehind (some (.vector .UInt8 [1, 2, 3, 4, 5])))
      (blockBehind none) [1, 2] 3 ∧
    (FunctionArrayElement.execute (blockBehind (some (.vector .UInt8 [1, 2, 3, 4, 5])))
        [1, 2] 3).outcome 3 = (none, some (.const 5 (.uint64 7))) ∧
    (FunctionArrayElement.execute (blockBehind (some (.vector .UInt8 [1, 2, 3])))
        [1, 2] 3).outcome 3 = (none, some (.const 3 (.uint64 7))) ∧
    (FunctionArrayElement.execute (blockBehind none) [1, 2] 3).outcome 3
      = (some .Undefined, none) ∧
    (FunctionHas.execute id (blockBehind (some (.vector .UInt8 [1, 2, 3, 4, 5])))
        [1, 2] 3).outcome 3 = (none, some (.const 5 (.uint64 0))) ∧
    (FunctionHas.execute id (blockBehind (some (.vector .UInt8 [1, 2, 3])))
        [1, 2] 3).outcome 3 = (none, some (.const 3 (.uint64 0))) ∧
    (FunctionHas.execute id (blockBehind none) [1, 2] 3).outcome 3
      = (some .Undefined, none) ∧
    (FunctionArrayElement.execute (blockBehind (some (.vector .UInt8 [1, 2, 3, 4, 5])))
        [1, 2] 3).outcome 3
      ≠ (FunctionArrayElement.execute (blockBehind (some (.vector .UInt8 [1, 2, 3])))
        [1, 2] 3).outcome 3 := by
  have hsame : ∀ f g : Option Column, SameArguments (blockBehind f) (blockBehind g) [1, 2] 3 := by
    intro f g
    refine ⟨fun a ha => ?_, rfl⟩
    simp only [List.mem_cons, List.mem_singleton, List.not_mem_nil, or_false] at ha
    rcases ha with rfl | rfl <;> rfl
  refine ⟨hsame _ _, hsame _ _, rfl, rfl, rfl, rfl, rfl, rfl, ?_⟩
  intro h
  have h5 : (FunctionArrayElement.execute (blockBehind (some (.vector .UInt8 [1, 2, 3, 4, 5])))
      [1, 2] 3).outcome 3 = (none, some (.const 5 (.uint64 7))) := rfl
  have h3 : (FunctionArrayElement.execute (blockBehind (some (.vector .UInt8 [1, 2, 3])))
      [1, 2] 3).outcome 3 = (none, some (.const 3 (.uint64 7))) := rfl
  rw [h5, h3] at h
  simp at h

/-- C15, amended: for any two blocks that hold the same columns at the positions
listed in `arguments` and the same declared type at the result position, `array`
produces the same outcome on both (the same exception, or the same result
column, row count included).  So do `arrayElement` and `has` whenever the array
argument is not a constant array; when it is a constant array they do so
provided the columns at block position 0 have the same row count, which the
constant-array path reads to size its result.  Whatever position 0 holds, an
error of the function thrown on one block is thrown on the other. -/
theorem C15_kernels_read_arguments_and_first_row_count (toFloat32 : Nat → Nat)
    (b1 b2 : Block) (arguments : List Nat) (result : Nat)
    (hsame : SameArguments b1 b2 arguments result) :
    (FunctionArray.execute b1 arguments result).outcome result
      = (FunctionArray.execute b2 arguments result).outcome result ∧
    ((∀ a0 s0 A, arguments[0]? = some a0 →
        Block.column b1 a0 = some (.const s0 (.array A)) →
        (Block.column b1 0).map Column.size = (Block.column b2 0).map Column.size) →
      (FunctionArrayElement.execute b1 arguments result).outcome result
        = (FunctionArrayElement.execute b2 arguments result).outcome result ∧
      (FunctionHas.execute toFloat32 b1 arguments result).outcome result
        = (FunctionHas.execute toFloat32 b2 arguments result).outcome result) ∧
    (∀ x, x ≠ Exception.Undefined →
      ((FunctionArrayElement.execute b1 arguments result).outcome result = (some x, none) →
        (FunctionArrayElement.execute b2 arguments result).outcome result = (some x, none)) ∧
      ((FunctionHas.execute toFloat32 b1 arguments result).outcome result = (some x, none) →
        (FunctionHas.execute toFloat32 b2 arguments result).outcome result
          = (some x, none))) := by
  have he := FunctionArrayElement_execute_outcome_agree b1 b2 arguments result hsame
  have hh := FunctionHas_execute_outcome_agree toFloat32 b1 b2 arguments result hsame
  refine ⟨FunctionArray.execute_outcome_agree b1 b2 arguments result hsame,
    fun hfirst => ⟨?_, ?_⟩, fun x hx => ⟨fun h => ?_, fun h => ?_⟩⟩
  · rcases he with h | ⟨⟨a0, s0, A, ha, hc⟩, hsz, _⟩
    · exact h
    · exact absurd (hfirst a0 s0 A ha hc) hsz
  · rcases hh with h | ⟨⟨a0, s0, A, ha, hc⟩, hsz, _⟩
    · exact h
    · exact absurd (hfirst a0 s0 A ha hc) hsz
  · rcases he with h2 | ⟨_, _, hno⟩
    · rw [← h2]
      exact h
    · exact absurd h (hno x hx)
  · rcases hh with h2 | ⟨_, _, hno⟩
    · rw [← h2]
      exact h
    · exact absurd h (hno x hx)

/-- C15 amended, at two blocks with a per-row array argument that differ at
position 0: five rows on the one, no column on the other. -/
theorem C15_kernels_read_arguments_and_first_row_count_witness :
    SameArguments (blockBehindPerRow (some (.vector .UInt8 [1, 2, 3, 4, 5])))
      (blockBehindPerRow none) [1, 2] 3 ∧
    (∀ a0 s0 A, ([1, 2] : List Nat)[0]? = some a0 →
      Block.column (blockBehindPerRow (some (.vector .UInt8 [1, 2, 3, 4, 5]))) a0
        = some (.const s0 (.array A)) →
      (Block.column (blockBehindPerRow (some (.vector .UInt8 [1, 2, 3, 4, 5]))) 0).map
          Column.size
        = (Block.column (blockBehindPerRow none) 0).map Column.size) ∧
    (FunctionArrayElement.execute (blockBehindPerRow (some (.vector .UInt8 [1, 2, 3, 4, 5])))
        [1, 2] 3).outcome 3
      = (FunctionArrayElement.execute (blockBehindPerRow none) [1, 2] 3).outcome 3 ∧
    (FunctionArrayElement.execute (blockBehindPerRow none) [1, 2] 3).outcome 3
      = (none, some (.vector .UInt8 [7])) :=
  have hsame : SameArguments (blockBehindPerRow (some (.vector .UInt8 [1, 2, 3, 4, 5])))
      (blockBehindPerRow none) [1, 2] 3 := by
    refine ⟨fun a ha => ?_, rfl⟩
    simp only [List.mem_cons, List.mem_singleton, List.not_mem_nil, or_false] at ha
    rcases ha with rfl | rfl <;> rfl
  have hfirst : ∀ a0 s0 A, ([1, 2] : List Nat)[0]? = some a0 →
      Block.column (blockBehindPerRow (some (.vector .UInt8 [1, 2, 3, 4, 5]))) a0
        = some (.const s0 (.array A)) →
      (Block.column (blockBehindPerRow (some (.vector .UInt8 [1, 2, 3, 4, 5]))) 0).map
          Column.size
        = (Block.column (blockBehindPerRow none) 0).map Column.size := by
    intro a0 s0 A ha hc
    have h1 : a0 = 1 := (Option.some.inj ha).symm
    subst h1
    have h2 : some (Column.array (.vector .UInt8 [7, 8]) [2])
        = some (Column.const s0 (.array A)) := hc
    cases h2
  ⟨hsame, hfirst,
    ((C15_kernels_read_arguments_and_first_row_count id _ _ [1, 2] 3 hsame).2.1 hfirst).1,
    rfl⟩

/-- C16: after a run of `array`, `arrayElement` or `has` that returns normally,
the block has the same positions, every position other than `result` holds
exactly what it held before the call, and the position `result` keeps its type
and name with only its column replaced. -/
theorem C16_kernels_write_only_result (toFloat32 : Nat → Nat) (block : Block)
    (arguments : List Nat) (result : Nat) :
    ((FunctionArray.execute block arguments result).exception = none →
      FrameKept block result (FunctionArray.execute block arguments result).block) ∧
    ((FunctionArrayElement.execute block arguments result).exception = none →
      FrameKept block result (FunctionArrayElement.execute block arguments result).block) ∧
    ((FunctionHas.execute toFloat32 block arguments result).exception = none →
      FrameKept block result (FunctionHas.execute toFloat32 block arguments result).block) := by
  refine ⟨?_, ?_, ?_⟩
  · intro h
    obtain ⟨c, hc⟩ := FunctionArray.execute_success h
    rw [hc] at h ⊢
    exact Executed.assign_frame h
  · intro h
    rcases FunctionArrayElement_execute_shape block arguments result with ⟨y, hy⟩ | hu | hs
    · rw [hy] at h
      cases h
    · rw [hu] at h
      cases h
    · obtain ⟨_, _, _, _, c, _, _, _, _, _, he, _⟩ := hs
      rw [he] at h ⊢
      exact Executed.assign_frame h
  · intro h
    rcases FunctionHas_execute_shape toFloat32 block arguments result with
      ⟨y, _, hy⟩ | hu | ⟨b1, _, hb⟩ | hs
    · rw [hy] at h
      cases h
    · rw [hu] at h
      cases h
    · rw [hb] at h
      cases h
    · obtain ⟨_, _, _, _, c, _, _, _, _, _, he, _⟩ := hs
      rw [he] at h ⊢
      exact Executed.assign_frame h

/-- C16 at `arrayElement` over the row `[10, 20, 30]` with `k = 3`. -/
theorem C16_kernels_write_only_result_witness :
    (FunctionArrayElement.execute (blockRow_10_20_30 3) [0, 1] 2).exception = none ∧
    FrameKept (blockRow_10_20_30 3) 2
      (FunctionArrayElement.execute (blockRow_10_20_30 3) [0, 1] 2).block :=
  ⟨rfl, (C16_kernels_write_only_result id (blockRow_10_20_30 3) [0, 1] 2).2.1 rfl⟩

/-- C17: `ArrayElementStringImpl::vector` produces a well-formed
bytes-with-offsets column.  For every well-formed array-of-strings input (array
offsets non-decreasing and within the nested strings; string offsets strictly
increasing from 0, every string's range holding at least its terminator byte,
and within the bytes; input bytes plus one byte per row fit `size_t`), every
0-based `index` and empty result buffers on entry, the kernel returns, and
`result_offsets.size() == offsets.size()`, the result offsets are strictly
increasing from 0 (each output string occupies at least one byte), the last
result offset equals `result_data.size()`, and each output string's final byte
is 0 provided every input string's final byte is 0. -/
theorem C17_ArrayElementStringImpl_vector_wellformed (data offsets string_offsets : List Nat)
    (index : Nat) (hmono : offsets.Pairwise (· ≤ ·))
    (hlast : offsets.getLast?.getD 0 ≤ string_offsets.length)
    (hso : (0 :: string_offsets).Pairwise (· < ·))
    (hsolast : string_offsets.getLast?.getD 0 ≤ data.length)
    (hsize : data.length + offsets.length < 2 ^ 64) :
    ∃ result_data result_offsets,
      ArrayElementStringImpl.vector data offsets string_offsets index [] []
        = some (result_data, result_offsets) ∧
      result_offsets.length = offsets.length ∧
      (0 :: result_offsets).Pairwise (· < ·) ∧
      result_offsets.getLast?.getD 0 = result_data.length ∧
      (Terminated data string_offsets → Terminated result_data result_offsets) :=
  ArrayElementStringImpl_vector_wellformed data offsets string_offsets index hmono hlast hso
    hsolast hsize

/-- C17 at the column `[["ab", "cd"], []]` and the 0-based index 1. -/
theorem C17_ArrayElementStringImpl_vector_wellformed_witness :
    ([2, 2] : List Nat).Pairwise (· ≤ ·) ∧
    ([2, 2] : List Nat).getLast?.getD 0 ≤ ([3, 6] : List Nat).length ∧
    (0 :: ([3, 6] : List Nat)).Pairwise (· < ·) ∧
    ([3, 6] : List Nat).getLast?.getD 0 ≤ ([97, 98, 0, 99, 100, 0] : List Nat).length ∧
    ([97, 98, 0, 99, 100, 0] : List Nat).length + ([2, 2] : List Nat).length < 2 ^ 64 ∧
    ∃ result_data result_offsets,
      ArrayElementStringImpl.vector [97, 98, 0, 99, 100, 0] [2, 2] [3, 6] 1 [] []
        = some (result_data, result_offsets) ∧
      result_offsets.length = ([2, 2] : List Nat).length ∧
      (0 :: result_offsets).Pairwise (· < ·) ∧
      result_offsets.getLast?.getD 0 = result_data.length ∧
      (Terminated [97, 98, 0, 99, 100, 0] [3, 6] → Terminated result_data result_offsets) :=
  ⟨by decide, by decide, by decide, by decide, by decide,
    C17_ArrayElementStringImpl_vector_wellformed [97, 98, 0, 99, 100, 0] [2, 2] [3, 6] 1
      (by decide) (by decide) (by decide) (by decide) (by decide)⟩

/-- C18, as stated, fails: with the `UInt8` sequence `[1, 2, 3]`, `n = 5` rows,
the needle 2 and the index 3, over two blocks whose position 0 holds a column of
3 rows, `has` and `arrayElement` on the constant-array column return a constant
column of 3 rows, which has no value at row 4, while on the per-row column of
five copies they return 5 rows. -/
theorem C18_constant_and_per_row_counterexample :
    Block.column blockConstArrayBehind 1 = some (Column.constArray .UInt8 5 [1, 2, 3]) ∧
    Block.column blockPerRowBehind 1 = some (Column.perRow .UInt8 5 [1, 2, 3]) ∧
    Block.column (FunctionHas.execute id blockConstArrayBehind [1, 2] 4).block 4
      = some (.const 3 (.uint64 1)) ∧
    Block.column (FunctionHas.execute id blockPerRowBehind [1, 2] 4).block 4
      = some (.vector .UInt8 [1, 1, 1, 1, 1]) ∧
    Block.column (FunctionArrayElement.execute blockConstArrayBehind [1, 3] 4).block 4
      = some (.const 3 (.uint64 3)) ∧
    Block.column (FunctionArrayElement.execute blockPerRowBehind [1, 3] 4).block 4
      = some (.vector .UInt8 [3, 3, 3, 3, 3]) ∧
    (Column.const 3 (.uint64 1)).rowValue 4 = none ∧
    (Column.vector .UInt8 [1, 1, 1, 1, 1]).rowValue 4 = some (.uint64 1) ∧
    (Column.const 3 (.uint64 3)).rowValue 4 = none ∧
    (Column.vector .UInt8 [3, 3, 3, 3, 3]).rowValue 4 = some (.uint64 3) ∧
    ¬ AgreeRows 5 (FunctionHas.execute id blockConstArrayBehind [1, 2] 4)
      (FunctionHas.execute id blockPerRowBehind [1, 2] 4) 4 ∧
    ¬ AgreeRows 5 (FunctionArrayElement.execute blockConstArrayBehind [1, 3] 4)
      (FunctionArrayElement.execute blockPerRowBehind [1, 3] 4) 4 := by
  refine ⟨rfl, rfl, rfl, rfl, rfl, rfl, rfl, rfl, rfl, rfl, ?_, ?_⟩
  · rintro ⟨_, _, c1, c2, h1, _, hs, _⟩
    have h : some (Column.const 3 (.uint64 1)) = some c1 := h1
    cases h
    exact absurd hs (by decide)
  · rintro ⟨_, _, c1, c2, h1, _, hs, _⟩
    have h : some (Column.const 3 (.uint64 3)) = some c1 := h1
    cases h
    exact absurd hs (by decide)

/-- C18, amended: the constant-array and the per-row representations agree when
the column at position 0 of the block that holds the constant array has `n`
rows, the count from which the constant-array paths size their result.  For
every sequence `A` of values of one numeric kind `T`, every row count `n` (with
`n * |A|` within `size_t`), every needle `v` of that kind (a `Float32` needle is
a value that rounding to `Float32` leaves as it is) and every 1-based index `k`
with `1 ≤ k ≤ |A|`: on two blocks that hold the same needle and index columns,
one with the constant-array column of `n` rows that broadcasts `A`, its first
column having `n` rows, the other with the per-row array column of `n` copies of
`A` (payload `A` concatenated `n` times, offsets `|A|, 2|A|, ..., n|A|`), `has`
returns normally on both and the two result columns have `n` rows and hold the
same value at every row, and so does `arrayElement`. -/
theorem C18_constant_and_per_row_agree (toFloat32 : Nat → Nat) (T : NumKind) (A : List Int)
    (n : Nat) (v : Int) (k : Nat) (bc br : Block) (a0 a1 a2 result s1 s2 : Nat)
    (first : Column)
    (hA : ∀ a ∈ A, T.holds a) (hv : T.holds v)
    (hf : T = .Float32 → toFloat32 v.toNat = v.toNat)
    (hk1 : 1 ≤ k) (hk : k ≤ A.length) (hk64 : k < 2 ^ 64) (hsize : n * A.length < 2 ^ 64)
    (hc0 : Block.column bc a0 = some (Column.constArray T n A))
    (hr0 : Block.column br a0 = some (Column.perRow T n A))
    (hc1 : Block.column bc a1 = some (.const s1 (T.toField v)))
    (hr1 : Block.column br a1 = some (.const s1 (T.toField v)))
    (hc2 : Block.column bc a2 = some (.const s2 (.uint64 k)))
    (hr2 : Block.column br a2 = some (.const s2 (.uint64 k)))
    (hresc : result < bc.length) (hresr : result < br.length) (hne : result ≠ a0)
    (hfirst : Block.column bc 0 = some first) (hfn : first.size = n) :
    AgreeRows n (FunctionHas.execute toFloat32 bc [a0, a1] result)
      (FunctionHas.execute toFloat32 br [a0, a1] result) result ∧
    AgreeRows n (FunctionArrayElement.execute bc [a0, a2] result)
      (FunctionArrayElement.execute br [a0, a2] result) result :=
  ⟨FunctionHas_execute_repeated_agree toFloat32 hA hv hf hsize hc0 hr0 hc1 hr1 hresc hresr hne
      hfirst hfn,
    FunctionArrayElement_execute_repeated_agree hk1 hk hk64 hsize hc0 hr0 hc2 hr2 hresc hresr
      hne hfirst hfn⟩

/-- C18 amended, at the `UInt8` sequence `[1, 2, 3]`, two rows, the needle 2 and
the index 3. -/
theorem C18_constant_and_per_row_agree_witness :
    (∀ a ∈ ([1, 2, 3] : List Int), NumKind.holds .UInt8 a) ∧ NumKind.holds .UInt8 2 ∧
    (NumKind.UInt8 = .Float32 → id (2 : Int).toNat = (2 : Int).toNat) ∧
    1 ≤ 3 ∧ 3 ≤ ([1, 2, 3] : List Int).length ∧ 3 < 2 ^ 64 ∧
    2 * ([1, 2, 3] : List Int).length < 2 ^ 64 ∧
    Block.column blockConstArray_1_2_3 0 = some (Column.constArray .UInt8 2 [1, 2, 3]) ∧
    Block.column blockPerRow_1_2_3 0 = some (Column.perRow .UInt8 2 [1, 2, 3]) ∧
    Block.column blockConstArray_1_2_3 1 = some (.const 2 (NumKind.toField .UInt8 2)) ∧
    Block.column blockPerRow_1_2_3 1 = some (.const 2 (NumKind.toField .UInt8 2)) ∧
    Block.column blockConstArray_1_2_3 2 = some (.const 2 (.uint64 3)) ∧
    Block.column blockPerRow_1_2_3 2 = some (.const 2 (.uint64 3)) ∧
    3 < blockConstArray_1_2_3.length ∧ 3 < blockPerRow_1_2_3.length ∧ (3 : Nat) ≠ 0 ∧
    (Column.constArray .UInt8 2 [1, 2, 3]).size = 2 ∧
    AgreeRows 2 (FunctionHas.execute id blockConstArray_1_2_3 [0, 1] 3)
      (FunctionHas.execute id blockPerRow_1_2_3 [0, 1] 3) 3 ∧
    AgreeRows 2 (FunctionArrayElement.execute blockConstArray_1_2_3 [0, 2] 3)
      (FunctionArrayElement.execute blockPerRow_1_2_3 [0, 2] 3) 3 :=
  ⟨by decide, by decide, by decide, by decide, by decide, by decide, by decide, rfl, rfl, rfl,
    rfl, rfl, rfl, by decide, by decide, by decide, rfl,
    C18_constant_and_per_row_agree id .UInt8 [1, 2, 3] 2 2 3 blockConstArray_1_2_3
      blockPerRow_1_2_3 0 1 2 3 2 2 (Column.constArray .UInt8 2 [1, 2, 3])
      (by decide) (by decide) (by decide) (by decide) (by decide) (by decide) (by decide)
      rfl rfl rfl rfl rfl rfl (by decide) (by decide) (by decide) rfl rfl⟩

/-- C19: in-bounds access of the four vector kernels.  Under the data-model
invariants (array offsets non-decreasing with last entry within the nested
element count; for strings, string offsets strictly increasing from the start 0
of string 0 with last entry within `data.size()`; the sizes fit `size_t`), for
every 0-based index and every needle, started on empty result buffers, each of
`ArrayElementNumImpl`, `ArrayHasNumImpl`, `ArrayElementStringImpl` and
`ArrayHasStringImpl` runs to its end in the embedding in which a read outside
`data` or `string_offsets`, a copied or compared byte range that leaves its
buffer, and a wrapping subtraction `offsets[i] - current_offset` are each a
fault; and the run is the run of the kernel itself. -/
theorem C19_kernels_in_bounds {T : Type} [Zero T] [BEq T] (data : List T) (offsets : List Nat)
    (index : Nat) (needle : T) (bytes array_offsets string_offsets value : List Nat)
    (hmono : offsets.Pairwise (· ≤ ·))
    (hlast : offsets.getLast?.getD 0 ≤ data.length) (hsize : data.length < 2 ^ 64)
    (hmono_s : array_offsets.Pairwise (· ≤ ·))
    (hlast_s : array_offsets.getLast?.getD 0 ≤ string_offsets.length)
    (hso : (0 :: string_offsets).Pairwise (· < ·))
    (hsolast : string_offsets.getLast?.getD 0 ≤ bytes.length)
    (hsize_s : bytes.length + array_offsets.length < 2 ^ 64)
    (hvalue : value.length < 2 ^ 64) :
    (∃ result, ArrayElementNumImpl.checked data offsets index [] = some result ∧
      ArrayElementNumImpl.vector data offsets index [] = some result) ∧
    (∃ result, ArrayHasNumImpl.checked data offsets needle [] = some result ∧
      ArrayHasNumImpl.vector data offsets needle [] = some result) ∧
    (∃ result, ArrayElementStringImpl.checked bytes array_offsets string_offsets index [] []
        = some result ∧
      ArrayElementStringImpl.vector bytes array_offsets string_offsets index [] []
        = some result) ∧
    (∃ result, ArrayHasStringImpl.checked bytes array_offsets string_offsets value []
        = some result ∧
      ArrayHasStringImpl.vector bytes array_offsets string_offsets value [] = some result) := by
  obtain ⟨hso1, hne⟩ := rowStart_lt_of_pairwise hso
  refine ⟨?_, ?_, ?_, ?_⟩
  · obtain ⟨r, hr, _⟩ := ArrayElementNumImpl_vector_spec data offsets index hmono hlast hsize
    refine ⟨r, ?_, hr⟩
    rw [← hr]
    exact ArrayElementNumImpl_checkedLoop_eq data offsets index hmono offsets.length 0 _
      (by omega)
  · obtain ⟨r, hr, _⟩ := ArrayHasNumImpl_vector_spec data offsets needle hmono hlast hsize
    refine ⟨r, ?_, hr⟩
    rw [← hr]
    exact ArrayHasNumImpl_checkedLoop_eq data offsets needle hmono offsets.length 0 _
      (by omega)
  · obtain ⟨rd, ro, hr, _⟩ := ArrayElementStringImpl_vector_spec bytes array_offsets
      string_offsets index hmono_s hlast_s hso1 hsolast hsize_s
    refine ⟨(rd, ro), ?_, hr⟩
    rw [← hr]
    exact ArrayElementStringImpl_checkedLoop_eq bytes array_offsets string_offsets index
      hmono_s array_offsets.length 0 0 _ _ (by omega)
  · obtain ⟨r, hr, _⟩ := ArrayHasStringImpl_vector_spec bytes array_offsets string_offsets
      value hmono_s hlast_s hso1 hsolast hne (by omega) hvalue
    refine ⟨r, ?_, hr⟩
    rw [← hr]
    exact ArrayHasStringImpl_checkedLoop_eq bytes array_offsets string_offsets value hmono_s
      array_offsets.length 0 _ (by omega)

/-- C19 at the numeric column `[[1, 2], [3]]` with index 1 and needle 3, and at
the string column `[["ab", "cd"], []]` with index 1 and needle `"cd"`. -/
theorem C19_kernels_in_bounds_witness :
    ([2, 3] : List Nat).Pairwise (· ≤ ·) ∧
    ([2, 3] : List Nat).getLast?.getD 0 ≤ ([1, 2, 3] : List Nat).length ∧
    ([1, 2, 3] : List Nat).length < 2 ^ 64 ∧
    ([2, 2] : List Nat).Pairwise (· ≤ ·) ∧
    ([2, 2] : List Nat).getLast?.getD 0 ≤ ([3, 6] : List Nat).length ∧
    (0 :: ([3, 6] : List Nat)).Pairwise (· < ·) ∧
    ([3, 6] : List Nat).getLast?.getD 0 ≤ ([97, 98, 0, 99, 100, 0] : List Nat).length ∧
    ([97, 98, 0, 99, 100, 0] : List Nat).length + ([2, 2] : List Nat).length < 2 ^ 64 ∧
    ([99, 100] : List Nat).length < 2 ^ 64 ∧
    (∃ result, ArrayElementNumImpl.checked ([1, 2, 3] : List Nat) [2, 3] 1 [] = some result ∧
      ArrayElementNumImpl.vector ([1, 2, 3] : List Nat) [2, 3] 1 [] = some result) ∧
    (∃ result, ArrayHasNumImpl.checked ([1, 2, 3] : List Nat) [2, 3] 3 [] = some result ∧
      ArrayHasNumImpl.vector ([1, 2, 3] : List Nat) [2, 3] 3 [] = some result) ∧
    (∃ result, ArrayElementStringImpl.checked [97, 98, 0, 99, 100, 0] [2, 2] [3, 6] 1 [] []
        = some result ∧
      ArrayElementStringImpl.vector [97, 98, 0, 99, 100, 0] [2, 2] [3, 6] 1 [] []
        = some result) ∧
    (∃ result, ArrayHasStringImpl.checked [97, 98, 0, 99, 100, 0] [2, 2] [3, 6] [99, 100] []
        = some result ∧
      ArrayHasStringImpl.vector [97, 98, 0, 99, 100, 0] [2, 2] [3, 6] [99, 100] []
        = some result) :=
  ⟨by decide, by decide, by decide, by decide, by decide, by decide, by decide, by decide,
    by decide,
    C19_kernels_in_bounds ([1, 2, 3] : List Nat) [2, 3] 1 3 [97, 98, 0, 99, 100, 0] [2, 2]
      [3, 6] [99, 100] (by decide) (by decide) (by decide) (by decide) (by decide) (by decide)
      (by decide) (by decide) (by decide)⟩

/-- C20: needle narrowing in `FunctionHas::executeNumber<T>`.  For an integer
payload kind `T` of width `w` bits, a per-row array column of that kind with
well-formed offsets, and a constant needle column holding the 64-bit value `v`
of the nearest 64-bit kind of `T`, `has` returns normally and scans for the
value `needle` of `T` that is `v` reduced modulo `2 ^ w` (for an unsigned kind
`v % 2 ^ w`, for a signed kind the value of `T` congruent to `v`): row `i` of
the `UInt8` result is 1 if and only if the row contains an element equal to
`needle`, and 0 otherwise; `needle` is `v` itself precisely when `v` is
representable in `T`.  Over the `UInt8` row `[1, 2, 3]` the needle 257 gives
1. -/
theorem C20_FunctionHas_needle_narrowing (toFloat32 : Nat → Nat) (block : Block)
    (a0 a1 result s : Nat) (T : NumKind) (data : List Int) (offsets : List Nat) (v : Int)
    (hT : T.isUnsigned = true ∨ T.isSigned = true) (hv : T.nearest.holds v)
    (h1 : Block.column block a1 = some (.const s (T.toField v)))
    (h0 : Block.column block a0 = some (.array (.vector T data) offsets))
    (hmono : offsets.Pairwise (· ≤ ·)) (hlast : offsets.getLast?.getD 0 ≤ data.length)
    (hsize : data.length < 2 ^ 64) (hres : result < block.length) (hne : result ≠ a0) :
    (∃ (needle : Int) (res : List Nat),
      T.narrow toFloat32 (T.toField v) = some needle ∧
      T.holds needle ∧ needle % 2 ^ T.width = v % 2 ^ T.width ∧
      (T.isUnsigned = true → needle = v % 2 ^ T.width) ∧
      (needle = v ↔ T.holds v) ∧
      (FunctionHas.execute toFloat32 block [a0, a1] result).exception = none ∧
      Block.column (FunctionHas.execute toFloat32 block [a0, a1] result).block result
        = some (.vector .UInt8 (res.map Int.ofNat)) ∧
      res.length = offsets.length ∧
      ∀ i, i < offsets.length →
        (res[i]? = some 1 ↔
          ∃ j, rowStart offsets i ≤ j ∧ j < offsets.getD i 0 ∧ data[j]? = some needle) ∧
        (res[i]? = some 0 ↔
          ¬ ∃ j, rowStart offsets i ≤ j ∧ j < offsets.getD i 0 ∧ data[j]? = some needle)) ∧
    Block.column (FunctionHas.execute toFloat32 blockHasRow_257 [0, 1] 2).block 2
      = some (.vector .UInt8 [1]) := by
  refine ⟨?_, rfl⟩
  obtain ⟨needle, hn, hholds, hmod, hiff, hun⟩ :=
    NumKind.narrow_toField_integer toFloat32 T v hT hv
  obtain ⟨res, hx, hc, hlen, hrows⟩ :=
    FunctionHas_execute_number_spec toFloat32 h1 h0 hn hmono hlast hsize hres hne
  refine ⟨needle, res, hn, hholds, hmod, hun, hiff, hx, hc, hlen, fun i hi => ?_⟩
  obtain ⟨hyes, hno⟩ := hrows i hi
  rw [RowHasNum_integer hT] at hyes hno
  by_cases h : ∃ j, rowStart offsets i ≤ j ∧ j < offsets.getD i 0 ∧ data[j]? = some needle
  · rw [hyes h]
    exact ⟨⟨fun _ => h, fun _ => rfl⟩, ⟨fun e => by simp at e, fun hn => absurd h hn⟩⟩
  · rw [hno h]
    exact ⟨⟨fun e => by simp at e, fun hp => absurd hp h⟩, ⟨fun _ => h, fun _ => rfl⟩⟩

/-- C20 at the `UInt8` row `[1, 2, 3]` and the needle 257. -/
theorem C20_FunctionHas_needle_narrowing_witness :
    (NumKind.isUnsigned .UInt8 = true ∨ NumKind.isSigned .UInt8 = true) ∧
    (NumKind.nearest .UInt8).holds 257 ∧
    Block.column blockHasRow_257 1 = some (.const 1 (NumKind.toField .UInt8 257)) ∧
    Block.column blockHasRow_257 0 = some (.array (.vector .UInt8 [1, 2, 3]) [3]) ∧
    ([3] : List Nat).Pairwise (· ≤ ·) ∧
    ([3] : List Nat).getLast?.getD 0 ≤ ([1, 2, 3] : List Int).length ∧
    ([1, 2, 3] : List Int).length < 2 ^ 64 ∧
    2 < blockHasRow_257.length ∧ (2 : Nat) ≠ 0 ∧
    ∃ (needle : Int) (res : List Nat),
      NumKind.narrow id .UInt8 (NumKind.toField .UInt8 257) = some needle ∧
      needle = 257 % 2 ^ NumKind.width .UInt8 ∧
      (needle = 257 ↔ NumKind.holds .UInt8 257) ∧
      Block.column (FunctionHas.execute id blockHasRow_257 [0, 1] 2).block 2
        = some (.vector .UInt8 (res.map Int.ofNat)) ∧
      ∀ i, i < ([3] : List Nat).length →
        (res[i]? = some 1 ↔
          ∃ j, rowStart [3] i ≤ j ∧ j < ([3] : List Nat).getD i 0 ∧
            ([1, 2, 3] : List Int)[j]? = some needle) :=
  ⟨.inl rfl, by decide, rfl, rfl, by decide, by decide, by decide, by decide, by decide,
    (C20_FunctionHas_needle_narrowing id blockHasRow_257 0 1 2 1 .UInt8 [1, 2, 3] [3] 257
      (.inl rfl) (by decide) rfl rfl (by decide) (by decide) (by decide) (by decide)
      (by decide)).1.imp (fun _ h => h.imp (fun _ g =>
        ⟨g.1, g.2.2.2.1 rfl, g.2.2.2.2.1, g.2.2.2.2.2.2.1,
          fun i hi => (g.2.2.2.2.2.2.2.2 i hi).1⟩))⟩

end DB
